import Mathlib

/-!
# Durability layer: snapshots, backups and the preview cache

A shallow embedding of the snapshot engine (`AutoSaveService`), the backup engine
(`DatabaseManager`) and the two tiers of the preview cache (`FilePreviewManager`),
together with the properties of them that were checked.

Conventions of the embedding.

* A JavaScript value that went through `JSON.parse` / `JSON.stringify` is a `Json`.
  Numbers are restricted to integers (the rows and counters handled here), objects are
  property lists in insertion order.
* `undefined` is `none` in an `Option Json`.
* A JavaScript exception is `Except.error`; a `try`/`catch` is a `match` on the `Except`.
* Instants are integers: milliseconds since the Unix epoch (`Date.now()`, `mtimeMs`,
  the numeric value of a `Date`).
* The digest `crypto.createHash('sha256')...digest('hex')` and `JSON.parse` are library
  functions: the operations take them as the parameters `hash` and `parse`.  A concrete
  parser (`jsonParse`) and a concrete collision-free digest (`tagHash`) are provided to
  evaluate the operations on concrete artifacts.
* The cipher `aes-256-gcm` of `crypto` is a library as well: `encryptData` and
  `decryptData` take it as the parameter `aes`.
* A periodic job is followed through the events of its timer: a firing runs the callback
  that `setInterval` was given, a run completes.
-/

/-! ## JSON values -/

/-- A value produced by `JSON.parse`. -/
inductive Json where
  | null
  | bool (b : Bool)
  | num (n : Int)
  | str (s : String)
  | arr (xs : List Json)
  | obj (kvs : List (String × Json))

namespace Json

/-- Lower-case hexadecimal digit of a number below 16. -/
def hexDigit (n : Nat) : Char :=
  if n < 10 then Char.ofNat (48 + n) else Char.ofNat (87 + n)

/-- The escape `JSON.stringify` writes for one character of a string (QuoteJSONString). -/
def escapeChar (c : Char) : List Char :=
  if c = '"' then ['\\', '"']
  else if c = '\\' then ['\\', '\\']
  else if c = '\n' then ['\\', 'n']
  else if c = '\r' then ['\\', 'r']
  else if c = '\t' then ['\\', 't']
  else if c.toNat = 8 then ['\\', 'b']
  else if c.toNat = 12 then ['\\', 'f']
  else if c.toNat < 32 then
    ['\\', 'u', '0', '0', hexDigit (c.toNat / 16), hexDigit (c.toNat % 16)]
  else [c]

/-- A string as a JSON string literal. -/
def quote (s : String) : String :=
  "\"" ++ String.mk (s.data.flatMap escapeChar) ++ "\""

mutual
/-- The text of `JSON.stringify(v)`: no white space. -/
def stringify : Json → String
  | .null => "null"
  | .bool b => if b then "true" else "false"
  | .num n => toString n
  | .str s => quote s
  | .arr xs => "[" ++ stringifyElems xs ++ "]"
  | .obj kvs => "\x7b" ++ stringifyMembers kvs ++ "\x7d"
/-- Array elements separated by commas. -/
def stringifyElems : List Json → String
  | [] => ""
  | [x] => stringify x
  | x :: y :: xs => stringify x ++ "," ++ stringifyElems (y :: xs)
/-- Object members separated by commas. -/
def stringifyMembers : List (String × Json) → String
  | [] => ""
  | [(k, v)] => quote k ++ ":" ++ stringify v
  | (k, v) :: y :: xs => quote k ++ ":" ++ stringify v ++ "," ++ stringifyMembers (y :: xs)
end

mutual
/-- The text of `JSON.stringify(v, null, 2)` for a value at indentation `ind`. -/
def pretty (ind : String) : Json → String
  | .null => "null"
  | .bool b => if b then "true" else "false"
  | .num n => toString n
  | .str s => quote s
  | .arr [] => "[]"
  | .arr (x :: xs) =>
      "[\n" ++ (ind ++ "  ") ++ prettyElems (ind ++ "  ") (x :: xs) ++ "\n" ++ ind ++ "]"
  | .obj [] => "{}"
  | .obj (kv :: kvs) =>
      "\x7b\n" ++ (ind ++ "  ") ++ prettyMembers (ind ++ "  ") (kv :: kvs) ++ "\n" ++ ind ++
        "\x7d"
/-- Array elements, one per line. -/
def prettyElems (ind : String) : List Json → String
  | [] => ""
  | [x] => pretty ind x
  | x :: y :: xs => pretty ind x ++ ",\n" ++ ind ++ prettyElems ind (y :: xs)
/-- Object members, one per line. -/
def prettyMembers (ind : String) : List (String × Json) → String
  | [] => ""
  | [(k, v)] => quote k ++ ": " ++ pretty ind v
  | (k, v) :: y :: xs =>
      quote k ++ ": " ++ pretty ind v ++ ",\n" ++ ind ++ prettyMembers ind (y :: xs)
end

/-- The property list after `obj[k] = v`: an existing property keeps its place. -/
def setProp (k : String) (v : Json) : List (String × Json) → List (String × Json)
  | [] => [(k, v)]
  | (k', v') :: rest => if k' = k then (k, v) :: rest else (k', v') :: setProp k v rest

/-- Own property `k` of a property list; `none` is `undefined`. -/
def lookup (k : String) : List (String × Json) → Option Json
  | [] => none
  | (k', v) :: rest => if k' = k then some v else lookup k rest

/-- JavaScript truthiness (`!!v`), with `none` for `undefined`. -/
def truthy : Option Json → Bool
  | none => false
  | some .null => false
  | some (.bool b) => b
  | some (.num n) => n != 0
  | some (.str s) => s != ""
  | some (.arr _) => true
  | some (.obj _) => true

/-- The member access `v.k` for one of the keys `metadata`, `checksum`, `data`, `projects`,
`files` (none of them is a property of a primitive wrapper or of an array): it throws on
`null` and on `undefined`. -/
def getProp (v : Option Json) (k : String) : Except String (Option Json) :=
  match v with
  | none => .error "TypeError: Cannot read properties of undefined"
  | some .null => .error "TypeError: Cannot read properties of null"
  | some (.obj kvs) => .ok (lookup k kvs)
  | some _ => .ok none

/-- Index properties `0, 1, ...` of the elements of an array or the characters of a string. -/
def indexed {α : Type} (f : α → Json) : Nat → List α → List (String × Json)
  | _, [] => []
  | i, x :: xs => (toString i, f x) :: indexed f (i + 1) xs

/-- The own enumerable properties copied by an object spread `{...v}`. -/
def ownProps : Option Json → List (String × Json)
  | some (.obj kvs) => kvs
  | some (.arr xs) => indexed id 0 xs
  | some (.str s) => indexed (fun c => Json.str (String.singleton c)) 0 s.data
  | _ => []

/-- Strict equality `v === s` of a value with a string. -/
def strictEqStr (v : Option Json) (s : String) : Bool :=
  match v with
  | some (.str t) => t == s
  | _ => false

end Json

/-! ## A JSON parser for concrete artifacts

`jsonParse` follows the JSON grammar on the fragment of the embedding: white space,
the three literals, integer numbers, strings with the two-character escapes, arrays and
objects (a repeated key overwrites the earlier value, as `JSON.parse` does).  A text
outside the fragment (fractions, exponents, `\u` escapes) is not accepted by it. -/

namespace JsonText

/-- JSON white space. -/
def isWs (c : Char) : Bool :=
  c == ' ' || c == '\n' || c == '\t' || c == '\r'

/-- Drop leading white space. -/
def skipWs : List Char → List Char
  | [] => []
  | c :: cs => if isWs c then skipWs cs else c :: cs

/-- The body of a string literal after its opening quote; `acc` holds the characters
read so far, last first. -/
def parseStrBody : List Char → List Char → Option (String × List Char)
  | [], _ => none
  | '"' :: cs, acc => some (String.mk acc.reverse, cs)
  | '\\' :: c :: cs, acc =>
      if c = '"' then parseStrBody cs ('"' :: acc)
      else if c = '\\' then parseStrBody cs ('\\' :: acc)
      else if c = '/' then parseStrBody cs ('/' :: acc)
      else if c = 'n' then parseStrBody cs ('\n' :: acc)
      else if c = 'r' then parseStrBody cs ('\r' :: acc)
      else if c = 't' then parseStrBody cs ('\t' :: acc)
      else if c = 'b' then parseStrBody cs (Char.ofNat 8 :: acc)
      else if c = 'f' then parseStrBody cs (Char.ofNat 12 :: acc)
      else none
  | c :: cs, acc => if c.toNat < 32 then none else parseStrBody cs (c :: acc)

/-- Leading decimal digits of a text, as a number, with the rest of the text. -/
def parseDigits : List Char → Nat → Nat × List Char
  | [], n => (n, [])
  | c :: cs, n => if c.isDigit then parseDigits cs (10 * n + (c.toNat - 48)) else (n, c :: cs)

/-- An integer literal without sign: no leading zero, no fraction, no exponent. -/
def parseNat : List Char → Option (Nat × List Char)
  | [] => none
  | c :: cs =>
      if c = '0' then
        match cs with
        | d :: _ => if d.isDigit || d == '.' || d == 'e' || d == 'E' then none else some (0, cs)
        | [] => some (0, [])
      else if c.isDigit then
        match parseDigits (c :: cs) 0 with
        | (n, d :: rest) => if d == '.' || d == 'e' || d == 'E' then none else some (n, d :: rest)
        | (n, []) => some (n, [])
      else none

mutual
/-- One JSON value at the head of the text (leading white space already skipped). -/
def parseValue : Nat → List Char → Option (Json × List Char)
  | 0, _ => none
  | fuel + 1, cs =>
      match cs with
      | 'n' :: 'u' :: 'l' :: 'l' :: rest => some (Json.null, rest)
      | 't' :: 'r' :: 'u' :: 'e' :: rest => some (Json.bool true, rest)
      | 'f' :: 'a' :: 'l' :: 's' :: 'e' :: rest => some (Json.bool false, rest)
      | '"' :: rest =>
          match parseStrBody rest [] with
          | some (s, rest') => some (Json.str s, rest')
          | none => none
      | '[' :: rest =>
          match skipWs rest with
          | ']' :: rest' => some (Json.arr [], rest')
          | rest' => parseElems fuel rest' []
      | '{' :: rest =>
          match skipWs rest with
          | '}' :: rest' => some (Json.obj [], rest')
          | rest' => parseMembers fuel rest' []
      | '-' :: rest =>
          match parseNat rest with
          | some (n, rest') => some (Json.num (-(n : Int)), rest')
          | none => none
      | _ =>
          match parseNat cs with
          | some (n, rest') => some (Json.num (n : Int), rest')
          | none => none
/-- The elements of an array after `[` or `,`; `acc` holds those read so far, last first. -/
def parseElems : Nat → List Char → List Json → Option (Json × List Char)
  | 0, _, _ => none
  | fuel + 1, cs, acc =>
      match parseValue fuel cs with
      | none => none
      | some (v, rest) =>
          match skipWs rest with
          | ',' :: rest' => parseElems fuel (skipWs rest') (v :: acc)
          | ']' :: rest' => some (Json.arr (v :: acc).reverse, rest')
          | _ => none
/-- The members of an object after `{` or `,`; `acc` holds the properties set so far. -/
def parseMembers : Nat → List Char → List (String × Json) → Option (Json × List Char)
  | 0, _, _ => none
  | fuel + 1, cs, acc =>
      match cs with
      | '"' :: rest =>
          match parseStrBody rest [] with
          | none => none
          | some (k, rest1) =>
              match skipWs rest1 with
              | ':' :: rest2 =>
                  match parseValue fuel (skipWs rest2) with
                  | none => none
                  | some (v, rest3) =>
                      match skipWs rest3 with
                      | ',' :: rest4 => parseMembers fuel (skipWs rest4) (Json.setProp k v acc)
                      | '}' :: rest4 => some (Json.obj (Json.setProp k v acc), rest4)
                      | _ => none
              | _ => none
      | _ => none
end

/-- The embedding of `JSON.parse` on the fragment: `none` is a `SyntaxError`. -/
def jsonParse (text : String) : Option Json :=
  match parseValue (text.length + 1) (skipWs text.data) with
  | some (v, rest) => if skipWs rest = [] then some v else none
  | none => none

end JsonText

/-- A collision-free stand-in for the digest: the input behind a fixed tag (so it is never
the empty string, as a hexadecimal digest never is). -/
def tagHash (s : String) : String :=
  "sha:" ++ s

/-! ## Files and directories -/

/-- A directory entry: what `readdirSync`, `statSync` and `readFileSync` report of a file. -/
structure FileEntry where
  name : String
  size : Nat
  mtime : Int
  content : String
  deriving DecidableEq, Repr

/-- The listing of a directory. -/
abbrev Dir := List FileEntry

namespace Dir

/-- The method `fs.existsSync` on a file of the directory. -/
def existsSync (dir : Dir) (name : String) : Bool :=
  dir.any (fun f => f.name == name)

/-- The method `fs.readFileSync`: the content of the file, `none` when it is missing. -/
def readFileSync (dir : Dir) (name : String) : Option String :=
  (dir.find? (fun f => f.name == name)).map (fun f => f.content)

/-- The method `fs.unlinkSync` when the deletion succeeds. -/
def unlinkSync (dir : Dir) (name : String) : Dir :=
  dir.filter (fun f => f.name != name)

/-- The method `fs.writeFileSync` at instant `now`: the file is created or replaced. -/
def writeFileSync (dir : Dir) (name content : String) (now : Int) : Dir :=
  dir.filter (fun f => f.name != name) ++
    [{ name := name, size := content.utf8ByteSize, mtime := now, content := content }]

/-- Sum of the sizes of the files of a directory. -/
def totalSize (dir : Dir) : Nat :=
  (dir.map (fun f => f.size)).sum

end Dir

/-- The test `f.startsWith(p) && f.endsWith(s)` on a file name. -/
def startsAndEndsWith (p s f : String) : Bool :=
  p.data.isPrefixOf f.data && s.data.isSuffixOf f.data

/-- The retention step shared by `cleanupOldSaves` and `cleanupOldBackups`: the files
that pass `keep` are sorted newest first (`sort((a, b) => b.time - a.time)`), and those
after the first `cap` are unlinked (`files.slice(cap).forEach(unlinkSync)`). -/
def pruneOldest (keep : String → Bool) (cap : Nat) (dir : Dir) : Dir :=
  let files := (dir.filter (fun f => keep f.name)).insertionSort (fun a b => b.mtime ≤ a.mtime)
  if files.length > cap then
    (files.drop cap).foldl (fun d f => d.unlinkSync f.name) dir
  else dir

/-! ## AutoSaveService -/

namespace AutoSaveService

/-- The field `maxAutoSaveFiles` set by the constructor. -/
def maxAutoSaveFiles : Nat := 50

/-- The rows the five queries of `getAllData` return; it is also the content of the
record store that a restore would write to. -/
structure Dataset where
  projects : List Json
  files : List Json
  nodes : List Json
  settings : List Json
  auditLogs : List Json

/-- The method `getAllData`: the document built from the query results, stamped with the
ISO text `timestamp` of the current instant. -/
def getAllData (timestamp : String) (db : Dataset) : Json :=
  .obj [
    ("timestamp", .str timestamp),
    ("statistics", .obj [
      ("projectCount", .num db.projects.length),
      ("fileCount", .num db.files.length),
      ("nodeCount", .num db.nodes.length),
      ("userCount", .num db.settings.length),
      ("logCount", .num db.auditLogs.length)]),
    ("data", .obj [
      ("projects", .arr db.projects),
      ("files", .arr db.files),
      ("nodes", .arr db.nodes),
      ("settings", .arr db.settings),
      ("auditLogs", .arr db.auditLogs)])]

/-- The method `generateChecksum`: the digest of the text. -/
def generateChecksum (hash : String → String) (data : String) : String :=
  hash data

/-- The document `performAutoSave` serialises: `allData` after the assignment
`allData.metadata = { ..., checksum: generateChecksum(JSON.stringify(allData)) }`.
The object literal on the right is evaluated before the assignment, so the text that is
digested is that of `allData` without a `metadata` member. -/
def snapshotDocument (hash : String → String) (dataTimestamp metaTimestamp : String)
    (db : Dataset) : Json :=
  let allData := getAllData dataTimestamp db
  let metadata := Json.obj [
    ("version", .str "1.0.0"),
    ("timestamp", .str metaTimestamp),
    ("dataType", .str "autosave"),
    ("checksum", .str (generateChecksum hash allData.stringify))]
  .obj (Json.setProp "metadata" metadata (Json.ownProps (some allData)))

/-- The method `cleanupOldSaves` over the listing of the save directory. -/
def cleanupOldSaves (dir : Dir) : Dir :=
  pruneOldest (startsAndEndsWith "autosave_" ".json") maxAutoSaveFiles dir

/-- The method `performAutoSave` when no step throws: the snapshot is written under
`autosave_<fileTimestamp>.json` at instant `now` with two-space indentation, then the
old saves are pruned. -/
def performAutoSave (hash : String → String) (now : Int)
    (fileTimestamp dataTimestamp metaTimestamp : String) (db : Dataset) (dir : Dir) : Dir :=
  let saveFile := "autosave_" ++ fileTimestamp ++ ".json"
  let allData := snapshotDocument hash dataTimestamp metaTimestamp db
  cleanupOldSaves (dir.writeFileSync saveFile (allData.pretty "") now)

/-- The object `{ ...data, metadata: { ...data.metadata, checksum: null } }` that
`validateBackupData` serialises, for `metadata = data.metadata`. -/
def checksumNulled (data : Json) (metadata : Option Json) : Json :=
  .obj (Json.setProp "metadata"
    (.obj (Json.setProp "checksum" Json.null (Json.ownProps metadata)))
    (Json.ownProps (some data)))

/-- The method `validateBackupData`. -/
def validateBackupData (hash : String → String) (data : Json) : Except String Bool :=
  match Json.getProp (some data) "metadata" with
  | .error e => .error e
  | .ok metadata =>
      if !Json.truthy metadata then .ok false
      else
        match Json.getProp metadata "checksum" with
        | .error e => .error e
        | .ok checksum =>
            if !Json.truthy checksum then .ok false
            else
              let calculatedChecksum :=
                generateChecksum hash (checksumNulled data metadata).stringify
              .ok (Json.strictEqStr checksum calculatedChecksum)

/-- The value of `data.metadata.checksum` (`none` when the access throws or finds nothing). -/
def storedChecksum (data : Json) : Option Json :=
  match Json.getProp (some data) "metadata" with
  | .ok metadata =>
      match Json.getProp metadata "checksum" with
      | .ok checksum => checksum
      | .error _ => none
  | .error _ => none

/-- The text `validateBackupData` digests: the document with its checksum nulled. -/
def canonicalText (data : Json) : String :=
  match Json.getProp (some data) "metadata" with
  | .ok metadata => (checksumNulled data metadata).stringify
  | .error _ => ""

/-- A line written to the console by the restore path. -/
inductive ConsoleEvent where
  | restoreStarted (projects files : Json)
  | restoreSucceeded (backupId : String)
  | restoreFailed (error : String)
  deriving Inhabited

/-- The state the restore path reads and writes: the save directory, the record store
and the console. -/
structure World where
  dir : Dir
  store : Dataset
  console : List ConsoleEvent

/-- The value of `v?.length || 0`. -/
def lengthOrZero (v : Option Json) : Json :=
  let len : Option Json :=
    match v with
    | some (.arr xs) => some (.num xs.length)
    | some (.str s) => some (.num s.length)
    | some (.obj kvs) => Json.lookup "length" kvs
    | _ => none
  match len with
  | some l => if Json.truthy (some l) then l else .num 0
  | none => .num 0

/-- The method `restoreData`: it writes one console line with the numbers of projects and
files of its argument and does nothing else. -/
def restoreData (w : World) (data : Option Json) : Except String World :=
  match Json.getProp data "projects" with
  | .error e => .error e
  | .ok projects =>
      match Json.getProp data "files" with
      | .error e => .error e
      | .ok files =>
          .ok { w with console := w.console ++
            [ConsoleEvent.restoreStarted (lengthOrZero projects) (lengthOrZero files)] }

/-- The object `restoreBackup` resolves to. -/
structure RestoreResult where
  success : Bool
  message : Option String
  error : Option String
  deriving DecidableEq, Repr

/-- The message of the error thrown when the artifact file is missing. -/
def notFoundMessage : String := "备份文件不存在"

/-- The message of the error thrown when `validateBackupData` returns false. -/
def integrityMessage : String := "备份数据验证失败"

/-- The message of the `SyntaxError` of `JSON.parse` (its exact wording is not modelled). -/
def syntaxErrorMessage : String := "SyntaxError: Unexpected token in JSON"

/-- The `try` block of `restoreBackup`. -/
def restoreBackupTry (hash : String → String) (parse : String → Option Json)
    (w : World) (backupId : String) : Except String World :=
  let backupFile := "autosave_" ++ backupId ++ ".json"
  if !w.dir.existsSync backupFile then .error notFoundMessage
  else
    match w.dir.readFileSync backupFile with
    | none => .error "ENOENT"
    | some text =>
        match parse text with
        | none => .error syntaxErrorMessage
        | some backupData =>
            match validateBackupData hash backupData with
            | .error e => .error e
            | .ok false => .error integrityMessage
            | .ok true =>
                match Json.getProp (some backupData) "data" with
                | .error e => .error e
                | .ok data =>
                    match restoreData w data with
                    | .error e => .error e
                    | .ok w' =>
                        .ok { w' with console :=
                          w'.console ++ [ConsoleEvent.restoreSucceeded backupId] }

/-- The method `restoreBackup`: the `catch` turns every error into a failure result. -/
def restoreBackup (hash : String → String) (parse : String → Option Json)
    (w : World) (backupId : String) : RestoreResult × World :=
  match restoreBackupTry hash parse w backupId with
  | .ok w' => ({ success := true, message := some "恢复成功", error := none }, w')
  | .error e =>
      ({ success := false, message := none, error := some e },
       { w with console := w.console ++ [ConsoleEvent.restoreFailed e] })

end AutoSaveService

/-! ## DatabaseManager -/

namespace DatabaseManager

/-- The object `performBackup` passes to `logBackupRecord`; a field the object literal
does not set is `none` (`undefined`). -/
structure BackupRecord where
  type : String
  path : String
  backup_size : Option Nat
  start_time : Int
  end_time : Int
  success : Option Int
  error_message : Option String

/-- A row of the table `backup_records` (the columns the `INSERT` statement sets; a `Date`
parameter is bound as its number of milliseconds). -/
structure BackupRow where
  backup_type : String
  backup_path : String
  backup_size : Option Nat
  database_version : String
  project_count : Nat
  file_count : Nat
  start_time : Int
  end_time : Int
  success : Int
  error_message : Option String
  deriving DecidableEq, Repr

/-- The result of `getDatabaseStats` that `logBackupRecord` uses. -/
structure DatabaseStats where
  project_count : Nat
  file_count : Nat

/-- The expression `v || d` on a number that may be `undefined`: the default replaces every
falsy value, the number 0 included. -/
def orNumber (v : Option Int) (d : Int) : Int :=
  match v with
  | some n => if n != 0 then n else d
  | none => d

/-- The expression `v || null` on a string that may be `undefined`. -/
def orNull (v : Option String) : Option String :=
  match v with
  | some s => if s != "" then some s else none
  | none => none

/-- The method `logBackupRecord`: the row appended to `backup_records`. -/
def logBackupRecord (stats : DatabaseStats) (record : BackupRecord)
    (table : List BackupRow) : List BackupRow :=
  table ++ [{
    backup_type := record.type
    backup_path := record.path
    backup_size := record.backup_size
    database_version := "1.0.0"
    project_count := stats.project_count
    file_count := stats.file_count
    start_time := record.start_time
    end_time := record.end_time
    success := orNumber record.success 1
    error_message := orNull record.error_message }]

/-- The test `f.startsWith('backup_') && f.endsWith('.db')` and the cap 30 of
`cleanupOldBackups`, over the listing of the backup directory. -/
def cleanupOldBackups (dir : Dir) : Dir :=
  pruneOldest (startsAndEndsWith "backup_" ".db") 30 dir

/-- The state `performBackup` writes: the table `backup_records` and the backup directory. -/
structure State where
  table : List BackupRow
  backups : Dir

/-- What the environment contributes to one run of `performBackup`: the two clock readings,
the ISO text of the first (with `:` and `.` replaced), the error that `backup.step`
reports (if any), the content of the artifact it produces and the statistics read by
`logBackupRecord`. -/
structure Attempt where
  startTime : Int
  endTime : Int
  startIso : String
  stepError : Option String
  artifact : String
  stats : DatabaseStats

/-- The method `performBackup`: the promise is rejected with the error of `backup.step`
(`Except.error`) or resolved with the path of the artifact. -/
def performBackup (a : Attempt) (type : String) (s : State) : Except String String × State :=
  let backupFilePath := "backup_" ++ type ++ "_" ++ a.startIso ++ ".db"
  match a.stepError with
  | some err =>
      let record : BackupRecord :=
        { type := type, path := backupFilePath, backup_size := none,
          start_time := a.startTime, end_time := a.endTime,
          success := some 0, error_message := some err }
      (.error err, { table := logBackupRecord a.stats record s.table, backups := s.backups })
  | none =>
      let written := s.backups.writeFileSync backupFilePath a.artifact a.endTime
      let record : BackupRecord :=
        { type := type, path := backupFilePath, backup_size := some a.artifact.utf8ByteSize,
          start_time := a.startTime, end_time := a.endTime,
          success := some 1, error_message := none }
      (.ok backupFilePath,
       { table := logBackupRecord a.stats record s.table, backups := cleanupOldBackups written })

/-- The largest element of a list of instants, `none` for the empty list. -/
def maxOf : List Int → Option Int
  | [] => none
  | t :: ts =>
      match maxOf ts with
      | none => some t
      | some m => some (max t m)

/-- The row that `SELECT MAX(end_time) as last_backup FROM backup_records WHERE success = 1`
yields through `db.get`: an aggregate query without `GROUP BY` has exactly one result row,
and its `last_backup` is `NULL` (`none`) when no row of the table matches. The outer
`Option` is the row itself (`undefined` when the query has no result row). -/
def selectLastBackup (table : List BackupRow) : Option (Option Int) :=
  some (maxOf ((table.filter (fun r => r.success == 1)).map (fun r => r.end_time)))

/-- The numeric value of `new Date(v)` for a column value: `new Date(null)` is the epoch. -/
def newDate (v : Option Int) : Int :=
  match v with
  | some t => t
  | none => 0

/-- The method `getLastBackupTime`: `row ? new Date(row.last_backup) : null`, with `none`
for `null` and the numeric value of the `Date` otherwise. -/
def getLastBackupTime (table : List BackupRow) : Option Int :=
  match selectLastBackup table with
  | some row => some (newDate row)
  | none => none

/-- The guard of `checkAndPerformBackup`: `!lastBackup || (now - lastBackup) > 24 * 3600000`
(a `Date` object is truthy). -/
def backupDue (now : Int) (lastBackup : Option Int) : Bool :=
  match lastBackup with
  | none => true
  | some t => decide (now - t > 24 * 3600000)

/-- The method `checkAndPerformBackup` at instant `now`: the result of `performBackup('auto')`
when the guard holds (`none` when no backup is triggered) and the state afterwards. -/
def checkAndPerformBackup (now : Int) (a : Attempt) (s : State) :
    Option (Except String String) × State :=
  if backupDue now (getLastBackupTime s.table) then
    let r := performBackup a "auto" s
    (some r.1, r.2)
  else (none, s)

end DatabaseManager

/-! ## FilePreviewManager: the sweep of the disk tier -/

namespace FilePreviewManager

/-- The field `maxCacheSize` set by the constructor: 100MB. -/
def maxCacheSize : Nat := 100 * 1024 * 1024

/-- The test `currentSize <= this.maxCacheSize * 0.8` (the product is the whole number
83886080 in double arithmetic, so the comparison is exact). -/
def withinTarget (currentSize : Nat) : Bool :=
  decide (10 * currentSize ≤ 8 * maxCacheSize)

/-- The loop of `cleanupBySize` over the files sorted oldest first. -/
def cleanupBySizeLoop : List FileEntry → Nat → Dir → Dir
  | [], _, dir => dir
  | file :: rest, currentSize, dir =>
      if withinTarget currentSize then dir
      else cleanupBySizeLoop rest (currentSize - file.size) (dir.unlinkSync file.name)

/-- The method `cleanupBySize`: the listing is sorted by `a.mtime - b.mtime` and the oldest
files are unlinked until the total is within the target. -/
def cleanupBySize (dir : Dir) : Dir :=
  let files := dir.insertionSort (fun a b => a.mtime ≤ b.mtime)
  let currentSize := (files.map (fun f => f.size)).sum
  cleanupBySizeLoop files currentSize dir

/-- The loop of `cleanupOrphanedFiles`. `nowBinding` is what evaluating the identifier `now`
yields in the loop body; the result is the directory when the loop ends or throws, with the
accumulated `totalSize` or the error thrown. -/
def sweepLoop (nowBinding : Except String Int) :
    List FileEntry → Dir → Nat → Dir × Except String Nat
  | [], dir, totalSize => (dir, .ok totalSize)
  | file :: rest, dir, totalSize =>
      match nowBinding with
      | .error e => (dir, .error e)
      | .ok now =>
          if now - file.mtime > 7 * 24 * 3600000 then
            sweepLoop nowBinding rest (dir.unlinkSync file.name) totalSize
          else sweepLoop nowBinding rest dir (totalSize + file.size)

/-- The body of `cleanupOrphanedFiles` for a given evaluation of the identifier `now`:
the `catch` only logs, so an error leaves the directory as it was when thrown. -/
def cleanupOrphanedFilesWith (nowBinding : Except String Int) (dir : Dir) : Dir :=
  match sweepLoop nowBinding dir dir 0 with
  | (dir', .ok totalSize) => if totalSize > maxCacheSize then cleanupBySize dir' else dir'
  | (dir', .error _) => dir'

/-- The method `cleanupOrphanedFiles`. Its body declares `files`, `totalSize`, `file`,
`filePath` and `stats`; the identifier `now` it reads is declared neither there nor at
module level (only `cleanupExpiredCache` has a local `const now = Date.now()`), so
evaluating it throws a `ReferenceError`. -/
def cleanupOrphanedFiles (dir : Dir) : Dir :=
  cleanupOrphanedFilesWith (.error "ReferenceError: now is not defined") dir

end FilePreviewManager

/-! ## Concrete inputs -/

namespace Examples

open AutoSaveService

/-- A record store with one project row and nothing else. -/
def oneProject : Dataset :=
  { projects := [.obj [("id", .num 1), ("project_code", .str "P-1")]],
    files := [], nodes := [], settings := [], auditLogs := [] }

/-- An empty record store. -/
def emptyStore : Dataset :=
  { projects := [], files := [], nodes := [], settings := [], auditLogs := [] }

/-- A document of the snapshot format whose checksum is the one `validateBackupData`
recomputes: the digest of the document with the checksum nulled. -/
def sealedDocument (hash : String → String) (t : String) (db : Dataset) : Json :=
  let withMetadata (checksum : Json) : Json :=
    .obj (Json.ownProps (some (getAllData t db)) ++
      [("metadata", .obj [("version", .str "1.0.0"), ("timestamp", .str t),
        ("dataType", .str "autosave"), ("checksum", checksum)])])
  withMetadata (.str (hash (withMetadata .null).stringify))

/-- The artifact text of `sealedDocument` for `oneProject`, as `JSON.stringify(_, null, 2)`
lays it out. -/
def sealedText : String :=
  (sealedDocument tagHash "T" oneProject).pretty ""

/-- The text `sealedText` with its second character, the line break after the opening
brace, replaced by a blank. -/
def tamperedText : String :=
  String.mk (sealedText.data.set 1 ' ')

/-- The text `sealedText` with one character of the project row changed: the project code
`P-1` reads `P-2`. -/
def forgedText : String :=
  String.mk (sealedText.data.set 228 '2')

/-- The document `forgedText` parses to: the project code is `P-2`, the checksum is the one
of `sealedText`. -/
def forgedDocument : Json :=
  .obj (Json.ownProps (some (getAllData "T"
      { oneProject with projects := [.obj [("id", .num 1), ("project_code", .str "P-2")]] })) ++
    [("metadata", .obj [("version", .str "1.0.0"), ("timestamp", .str "T"),
      ("dataType", .str "autosave"),
      ("checksum", .str (tagHash (canonicalText (sealedDocument tagHash "T" oneProject))))])])

/-- A save directory that holds one artifact, `autosave_a.json`, with the given text, next
to an empty record store. -/
def worldWith (text : String) : World :=
  { dir := [{ name := "autosave_a.json", size := text.utf8ByteSize, mtime := 0,
              content := text }],
    store := emptyStore, console := [] }

/-- A preview cache of two recent files, 70MB and 60MB. -/
def oversizedCache : Dir :=
  [{ name := "k1.json", size := 70 * 1024 * 1024, mtime := 1000, content := "" },
   { name := "k2.json", size := 60 * 1024 * 1024, mtime := 2000, content := "" }]

/-- A preview cache of one small file last written at the epoch. -/
def staleCache : Dir :=
  [{ name := "k0.json", size := 10, mtime := 0, content := "" }]

/-- A save directory of 52 snapshots `autosave_0.json` ... `autosave_51.json`, the one
numbered `i` last written at instant `i`, and one file of another name. -/
def manySaves : Dir :=
  { name := "backup_log.json", size := 1, mtime := 100, content := "" } ::
    (List.range 52).map (fun i =>
      { name := "autosave_" ++ toString i ++ ".json", size := 1, mtime := i, content := "" })

/-- A backup directory of 32 artifacts `backup_auto_0.db` ... `backup_auto_31.db`, the one
numbered `i` last written at instant `i`. -/
def manyBackups : Dir :=
  (List.range 32).map (fun i =>
    { name := "backup_auto_" ++ toString i ++ ".db", size := 1, mtime := i, content := "" })

end Examples

/-! ## AutoSaveService: the operational log, the scheduled backup, the directory checksum
and the snapshot listing -/

namespace AutoSaveService

/-- A string that may be `null`, as a JSON value. -/
def orNullJson (v : Option String) : Json :=
  match v with
  | some s => .str s
  | none => .null

/-- The negation `!error` of a string that may be `null`. -/
def notString (v : Option String) : Bool :=
  match v with
  | some s => s == ""
  | none => true

/-- The object `logEntry` built by `logBackupEvent(type, filePath, error)`; `timestamp` is the
ISO text of the current instant and `systemInfo` the object read from `process`. -/
def logEntry (timestamp type : String) (filePath error : Option String) (systemInfo : Json) :
    Json :=
  .obj [("timestamp", .str timestamp), ("type", .str type), ("filePath", orNullJson filePath),
    ("success", .bool (notString error)), ("error", orNullJson error),
    ("systemInfo", systemInfo)]

/-- The array `logs` before the `push` in `logBackupEvent`: empty when `backup_log.json` is
missing or its text does not parse; the parsed value otherwise, on which `push` throws a
`TypeError` unless it is an array. -/
def priorLogs (parse : String → Option Json) (dir : Dir) : Except String (List Json) :=
  if dir.existsSync "backup_log.json" then
    match dir.readFileSync "backup_log.json" with
    | none => .error "ENOENT"
    | some content =>
        match parse content with
        | none => .ok []
        | some (.arr logs) => .ok logs
        | some _ => .error "TypeError: logs.push is not a function"
  else .ok []

/-- The statements `logs.push(logEntry); if (logs.length > 100) logs = logs.slice(-100)`. -/
def pushBounded (logs : List Json) (entry : Json) : List Json :=
  let logs := logs ++ [entry]
  if logs.length > 100 then logs.drop (logs.length - 100) else logs

/-- The method `logBackupEvent` on the save directory at instant `now`, for the entry it has
built: the outer `catch` only writes to the console. -/
def logBackupEvent (parse : String → Option Json) (now : Int) (entry : Json) (dir : Dir) :
    Dir :=
  match priorLogs parse dir with
  | .error _ => dir
  | .ok logs =>
      dir.writeFileSync "backup_log.json" ((Json.arr (pushBounded logs entry)).pretty "") now

/-- The object `performBackup` resolves to. -/
structure BackupResult where
  success : Bool
  file : Option String
  error : Option String
  deriving DecidableEq, Repr

/-- What the environment contributes to the log entry of one run of `performBackup`. -/
structure LogContext where
  timestamp : String
  now : Int
  systemInfo : Json

/-- The method `performBackup` of the service, the callback of the backup timer that
`start` sets with `setInterval(..., this.backupInterval)`: it calls
`dbManager.performBackup('scheduled')` and logs the outcome. -/
def performBackup (parse : String → Option Json) (a : DatabaseManager.Attempt)
    (log : LogContext) (db : DatabaseManager.State) (saveDir : Dir) :
    BackupResult × DatabaseManager.State × Dir :=
  match DatabaseManager.performBackup a "scheduled" db with
  | (.ok backupFile, db') =>
      ({ success := true, file := some backupFile, error := none }, db',
       logBackupEvent parse log.now
        (logEntry log.timestamp "scheduled" (some backupFile) none log.systemInfo) saveDir)
  | (.error message, db') =>
      ({ success := false, file := none, error := some message }, db',
       logBackupEvent parse log.now
        (logEntry log.timestamp "scheduled" none (some message) log.systemInfo) saveDir)

/-- A directory tree as `readdirSync`, `statSync` and `readFileSync` show it: a file with
its bytes, or a directory with its named entries in the order of enumeration. -/
inductive FsNode where
  | file (content : String)
  | dir (entries : List (String × FsNode))

/-- The test `!f.startsWith('.')`. -/
def notHidden (name : String) : Bool :=
  !(".".data.isPrefixOf name.data)

/-- The updates of the running hash in `generateDirectoryChecksum`, once the names are
filtered and sorted: the contributions are concatenated in that order. `le` is the order of
`Array.prototype.sort()` without comparator (by UTF-16 code units). -/
def hashInput (le : String → String → Bool) (contributions : List (String × String)) :
    String :=
  String.join
    (((contributions.filter (fun e => notHidden e.1)).insertionSort
      (fun a b => le a.1 b.1 = true)).map (fun e => e.2))

mutual
/-- What an entry contributes to the hash of its directory: the bytes of a file, the
hexadecimal digest of a subdirectory. -/
def contribution (hash : String → String) (le : String → String → Bool) : FsNode → String
  | .file content => content
  | .dir entries => hash (hashInput le (contributions hash le entries))
/-- The entries of a directory with their contributions. -/
def contributions (hash : String → String) (le : String → String → Bool) :
    List (String × FsNode) → List (String × String)
  | [] => []
  | (name, node) :: rest => (name, contribution hash le node) :: contributions hash le rest
end

/-- The method `generateDirectoryChecksum` on a directory with the given entries. -/
def generateDirectoryChecksum (hash : String → String) (le : String → String → Bool)
    (entries : List (String × FsNode)) : String :=
  hash (hashInput le (contributions hash le entries))

mutual
/-- The tree in which every directory is enumerated in the order `σ` gives to its entries. -/
def reorder (σ : List (String × FsNode) → List (String × FsNode)) : FsNode → FsNode
  | .file content => .file content
  | .dir entries => .dir (σ (reorderEntries σ entries))
/-- The entries of a directory, each reordered inside. -/
def reorderEntries (σ : List (String × FsNode) → List (String × FsNode)) :
    List (String × FsNode) → List (String × FsNode)
  | [] => []
  | (name, node) :: rest => (name, reorder σ node) :: reorderEntries σ rest
end

mutual
/-- The names of the entries of every directory of the tree are distinct. -/
def DistinctNames : FsNode → Prop
  | .file _ => True
  | .dir entries => (entries.map (fun e => e.1)).Nodup ∧ DistinctNamesIn entries
/-- The names are distinct inside every entry of the list. -/
def DistinctNamesIn : List (String × FsNode) → Prop
  | [] => True
  | (_, node) :: rest => DistinctNames node ∧ DistinctNamesIn rest
end

/-- The text `s.replace(pattern, replacement)` for a string pattern: the first occurrence
is replaced. -/
def replaceFirst (pattern replacement : List Char) : List Char → List Char
  | [] => if pattern.isEmpty then replacement else []
  | c :: cs =>
      if pattern.isPrefixOf (c :: cs) then replacement ++ (c :: cs).drop pattern.length
      else c :: replaceFirst pattern replacement cs

/-- An element of the list `getAutoSaveFiles` returns (`readableSize`, the size formatted
with one decimal, is left out). -/
structure AutoSaveFile where
  id : String
  name : String
  path : String
  size : Nat
  modified : Int
  deriving DecidableEq, Repr

/-- The method `getAutoSaveFiles`; `listing` is the result of `readdirSync` and `statSync`
on the save directory `savePath`, `none` when one of them throws. -/
def getAutoSaveFiles (savePath : String) (listing : Option Dir) : List AutoSaveFile :=
  match listing with
  | none => []
  | some dir =>
      ((dir.filter (fun f => startsAndEndsWith "autosave_" ".json" f.name)).map
        (fun f =>
          ({ id := String.mk (replaceFirst ".json".data []
                (replaceFirst "autosave_".data [] f.name.data))
             name := f.name
             path := savePath ++ "/" ++ f.name
             size := f.size
             modified := f.mtime } : AutoSaveFile))).insertionSort
        (fun a b => b.modified ≤ a.modified)

end AutoSaveService

/-! ## FilePreviewManager: the two tiers -/

namespace FilePreviewManager

/-- What `fs.statSync` reports of the source file. -/
structure SourceStats where
  size : Nat
  mtimeMs : Int
  deriving DecidableEq, Repr

/-- The text the fingerprint is the digest of: the template
`filePath_size_mtimeMs`. -/
def fileInfo (filePath : String) (stats : SourceStats) : String :=
  filePath ++ "_" ++ toString stats.size ++ "_" ++ toString stats.mtimeMs

/-- The method `getFileKey`; `stats` is `none` when `statSync` throws (no such file) and
`md5` is the digest `crypto.createHash('md5')...digest('hex')`. -/
def getFileKey (md5 : String → String) (filePath : String) (stats : Option SourceStats) :
    Except String String :=
  match stats with
  | none => .error "ENOENT: no such file or directory"
  | some st => .ok (md5 (fileInfo filePath st))

/-- A value of the map `previewCache`. -/
structure MemoryEntry where
  data : Json
  timestamp : Int

/-- The map `previewCache`: its keys with their values, in insertion order. -/
abbrev MemoryTier := List (String × MemoryEntry)

/-- The method `Map.prototype.get`. -/
def mapGet (key : String) : MemoryTier → Option MemoryEntry
  | [] => none
  | (k, v) :: rest => if k = key then some v else mapGet key rest

/-- The method `Map.prototype.set`: an existing key keeps its place. -/
def mapSet (key : String) (value : MemoryEntry) : MemoryTier → MemoryTier
  | [] => [(key, value)]
  | (k, v) :: rest => if k = key then (key, value) :: rest else (k, v) :: mapSet key value rest

/-- The two tiers and the thumbnail directory. -/
structure Cache where
  previewCache : MemoryTier
  previewDir : Dir
  thumbnailDir : Dir

/-- The readings of `Date.now()` during one call of `generatePreview`, in program order. -/
structure Clock where
  memoryCheck : Int
  diskCheck : Int
  memoryInsert : Int
  diskWrite : Int

/-- The memory-tier check of `generatePreview` at instant `now`: the data of the entry under
`cacheKey` when there is one and `now - cached.timestamp < 3600000`. -/
def memoryLookup (now : Int) (cacheKey : String) (previewCache : MemoryTier) : Option Json :=
  match mapGet cacheKey previewCache with
  | some cached => if now - cached.timestamp < 3600000 then some cached.data else none
  | none => none

/-- The number `now - v` for a member `v` of a parsed cache document, `none` for NaN: a
number is subtracted, `null` and `false` count 0, `true` counts 1, `undefined` gives NaN.
A string, an array or an object in that place, which `saveToDiskCache` never writes, is not
converted by the embedding and is read as NaN. -/
def minus (now : Int) : Option Json → Option Int
  | some (.num t) => some (now - t)
  | some .null => some now
  | some (.bool b) => some (now - (if b then 1 else 0))
  | _ => none

/-- The comparison `x < limit` of a number that may be NaN. -/
def lessThan (x : Option Int) (limit : Int) : Bool :=
  match x with
  | some v => decide (v < limit)
  | none => false

/-- The method `checkDiskCache` at instant `now`: the member `preview` of the parsed file
`fileKey.json` when it is younger than 24 hours, `null` otherwise; an error thrown while
reading or parsing is caught. -/
def checkDiskCache (parse : String → Option Json) (now : Int) (previewDir : Dir)
    (fileKey : String) : Option Json :=
  if previewDir.existsSync (fileKey ++ ".json") then
    match previewDir.readFileSync (fileKey ++ ".json") with
    | none => some .null
    | some text =>
        match parse text with
        | none => some .null
        | some cacheData =>
            match Json.getProp (some cacheData) "timestamp" with
            | .error _ => some .null
            | .ok timestamp =>
                if lessThan (minus now timestamp) (24 * 3600000) then
                  match Json.getProp (some cacheData) "preview" with
                  | .ok preview => preview
                  | .error _ => some .null
                else some .null
  else some .null

/-- The method `saveToDiskCache` at instant `now`; when the write throws (`writeFails`) the
`catch` logs the error and the directory is unchanged. -/
def saveToDiskCache (now : Int) (writeFails : Bool) (fileKey : String)
    (previewData options : Json) (previewDir : Dir) : Dir :=
  if writeFails then previewDir
  else
    previewDir.writeFileSync (fileKey ++ ".json")
      ((Json.obj [("preview", previewData), ("timestamp", .num now),
        ("options", options)]).pretty "") now

/-- The method `generateErrorPreview`; `timestamp` is the ISO text of the current instant. -/
def generateErrorPreview (fileType errorMessage timestamp : String) : Json :=
  .obj [("type", .str "error"), ("fileType", .str fileType), ("error", .str errorMessage),
    ("timestamp", .str timestamp), ("icon", .str "error"), ("message", .str "预览生成失败"),
    ("suggestions", .arr [.str "检查文件是否完整", .str "确认文件格式是否正确",
      .str "尝试使用其他软件打开"])]

/-- A request to `generatePreview`. -/
structure Request where
  filePath : String
  stats : Option SourceStats
  fileType : String
  options : Json

/-- What the environment contributes to one call of `generatePreview`: the clock, the
outcome `generatePreviewByType` has if it is called (the preview, or the message of the
error it throws), whether the write of the cache file throws, and the ISO text of the
instant of an error preview. -/
structure Run where
  clock : Clock
  derived : Except String Json
  writeFails : Bool
  errorTimestamp : String

/-- An access of `generatePreview` outside the memory tier. -/
inductive Effect where
  | diskChecked
  | rendererInvoked
  | diskWriteAttempted
  deriving DecidableEq, Repr

/-- The outcome of one call of `generatePreview`: the value the promise resolves to or the
error it rejects with, the cache afterwards, and the accesses made, in order. -/
structure Outcome where
  result : Except String Json
  cache : Cache
  effects : List Effect

/-- The `try` block of `generatePreview`, reached when neither tier has a valid entry: the
preview is derived, put in the memory tier and saved to the disk tier; an error of the
derivation is turned into an error preview by the `catch`. -/
def deriveAndStore (run : Run) (req : Request) (fileKey cacheKey : String) (cache : Cache) :
    Outcome :=
  match run.derived with
  | .ok previewData =>
      let entry : MemoryEntry := { data := previewData, timestamp := run.clock.memoryInsert }
      { result := .ok previewData
        cache :=
          { previewCache := mapSet cacheKey entry cache.previewCache
            previewDir := saveToDiskCache run.clock.diskWrite run.writeFails fileKey
              previewData req.options cache.previewDir
            thumbnailDir := cache.thumbnailDir }
        effects := [Effect.diskChecked, Effect.rendererInvoked, Effect.diskWriteAttempted] }
  | .error message =>
      { result := .ok (generateErrorPreview req.fileType message run.errorTimestamp)
        cache := cache
        effects := [Effect.diskChecked, Effect.rendererInvoked] }

/-- The disk-tier branch of `generatePreview`: a truthy result of `checkDiskCache` is put in
the memory tier and returned. -/
def promote (run : Run) (cacheKey : String) (diskCache : Json) (cache : Cache) : Outcome :=
  let entry : MemoryEntry := { data := diskCache, timestamp := run.clock.memoryInsert }
  { result := .ok diskCache
    cache :=
      { previewCache := mapSet cacheKey entry cache.previewCache
        previewDir := cache.previewDir
        thumbnailDir := cache.thumbnailDir }
    effects := [Effect.diskChecked] }

/-- The method `generatePreview`. -/
def generatePreview (md5 : String → String) (parse : String → Option Json) (run : Run)
    (req : Request) (cache : Cache) : Outcome :=
  match getFileKey md5 req.filePath req.stats with
  | .error e => { result := .error e, cache := cache, effects := [] }
  | .ok fileKey =>
      let cacheKey := fileKey ++ "_" ++ req.options.stringify
      match memoryLookup run.clock.memoryCheck cacheKey cache.previewCache with
      | some data => { result := .ok data, cache := cache, effects := [] }
      | none =>
          match checkDiskCache parse run.clock.diskCheck cache.previewDir fileKey with
          | some diskCache =>
              if Json.truthy (some diskCache) then promote run cacheKey diskCache cache
              else deriveAndStore run req fileKey cacheKey cache
          | none => deriveAndStore run req fileKey cacheKey cache

/-- The method `cleanupExpiredCache` at instant `now`. -/
def cleanupExpiredCache (now : Int) (cache : Cache) : Cache :=
  { previewCache :=
      cache.previewCache.filter (fun e => !decide (now - e.2.timestamp > 3600000))
    previewDir := cache.previewDir
    thumbnailDir := cache.thumbnailDir }

/-- The method `cleanupAllCache` when every deletion succeeds. -/
def cleanupAllCache (_cache : Cache) : Cache :=
  { previewCache := [], previewDir := [], thumbnailDir := [] }

/-- The method `cleanupBySize` as an operation on the cache: only the disk tier is touched. -/
def cleanupBySizeOp (cache : Cache) : Cache :=
  { previewCache := cache.previewCache
    previewDir := cleanupBySize cache.previewDir
    thumbnailDir := cache.thumbnailDir }

/-- The fingerprint a key of the memory tier starts with: the text before the first
underscore (a hexadecimal digest holds none). -/
def fileKeyOf (cacheKey : String) : String :=
  String.mk (cacheKey.data.takeWhile (fun c => c != '_'))

/-- The tier invariant: every entry of the memory tier has its cache file in the disk
tier. No disk write is pending between two operations: `saveToDiskCache` writes
synchronously. -/
def tierInvariant (cache : Cache) : Bool :=
  cache.previewCache.all (fun e => cache.previewDir.existsSync (fileKeyOf e.1 ++ ".json"))

end FilePreviewManager

/-! ## Concrete inputs for the cache, the log and the listings -/

namespace Examples

open FilePreviewManager

/-- A stand-in for the hexadecimal digest of `getFileKey`: two hexadecimal digits for each
character of the input (taken modulo 256). -/
def hexDigest (s : String) : String :=
  String.mk (s.data.flatMap (fun c =>
    [Json.hexDigit (c.toNat / 16 % 16), Json.hexDigit (c.toNat % 16)]))

/-- A request for the preview of `a.png`, 3 bytes, last modified at instant 7. -/
def request : Request :=
  { filePath := "a.png", stats := some { size := 3, mtimeMs := 7 }, fileType := "png",
    options := .obj [] }

/-- A derived preview. -/
def previewA : Json :=
  .obj [("type", .str "image"), ("fileSize", .num 3)]

/-- Another derived preview. -/
def previewB : Json :=
  .obj [("type", .str "image"), ("fileSize", .num 4)]

/-- An empty cache. -/
def emptyCache : Cache :=
  { previewCache := [], previewDir := [], thumbnailDir := [] }

/-- A run at instant 1000 whose derivation yields `previewA` and whose disk write succeeds. -/
def runOk : Run :=
  { clock := { memoryCheck := 1000, diskCheck := 1000, memoryInsert := 1001, diskWrite := 1002 },
    derived := .ok previewA, writeFails := false, errorTimestamp := "T" }

/-- The same run with a disk write that throws. -/
def runWriteFails : Run :=
  { runOk with writeFails := true }

/-- A run half an hour later whose derivation would yield `previewB`. -/
def runLater : Run :=
  { clock :=
      { memoryCheck := 1801000, diskCheck := 1801000, memoryInsert := 1801001,
        diskWrite := 1801002 },
    derived := .ok previewB, writeFails := false, errorTimestamp := "T" }

/-- A run whose derivation throws. -/
def runDeriveFails : Run :=
  { runOk with derived := .error "文件不存在" }

/-- The fingerprint of `request` under `hexDigest`. -/
def requestKey : String :=
  hexDigest (fileInfo "a.png" { size := 3, mtimeMs := 7 })

/-- The cache after the first derivation for `request` on the empty cache. -/
def warmCache : Cache :=
  (generatePreview hexDigest JsonText.jsonParse runOk request emptyCache).cache

/-- A cache whose memory tier is empty and whose disk tier holds `previewB` for `request`,
stamped at instant 500. -/
def diskOnlyCache : Cache :=
  { previewCache := []
    previewDir := saveToDiskCache 500 false requestKey previewB (.obj []) []
    thumbnailDir := [] }

/-- A cache with one memory entry for the fingerprint `k` and its cache file of 90MB. -/
def bigEntryCache : Cache :=
  { previewCache := [("k_{}", { data := previewA, timestamp := 1000 })]
    previewDir := [{ name := "k.json", size := 90 * 1024 * 1024, mtime := 1000, content := "" }]
    thumbnailDir := [] }

/-- A preview cache of three files of 50MB, 40MB and 30MB, the largest the oldest. -/
def threeFiles : Dir :=
  [{ name := "k2.json", size := 40 * 1024 * 1024, mtime := 2000, content := "" },
   { name := "k1.json", size := 50 * 1024 * 1024, mtime := 1000, content := "" },
   { name := "k3.json", size := 30 * 1024 * 1024, mtime := 3000, content := "" }]

/-- A directory tree: two files, a hidden file and a subdirectory of two files. -/
def tree : List (String × AutoSaveService.FsNode) :=
  [("settings.json", .file "s"), (".hidden", .file "h"),
   ("sub", .dir [("b", .file "2"), ("a", .file "1")]), ("database.db", .file "d")]

/-- An operational log of 100 entries, the numbers 0 to 99. -/
def fullLog : List Json :=
  (List.range 100).map (fun i => Json.num i)

/-- A save directory whose `backup_log.json` holds `fullLog`. -/
def logDir : Dir :=
  [{ name := "backup_log.json", size := 1, mtime := 0, content := (Json.arr fullLog).pretty "" }]

/-- The state after one successful manual backup that ended at instant 1000000000000. -/
def afterManualBackup : DatabaseManager.State :=
  { table := [{ backup_type := "manual", backup_path := "backup_manual_A.db",
                backup_size := some 10, database_version := "1.0.0", project_count := 1,
                file_count := 0, start_time := 999999999000, end_time := 1000000000000,
                success := 1, error_message := none }]
    backups := [{ name := "backup_manual_A.db", size := 10, mtime := 1000000000000,
                  content := "db" }] }

/-- A backup attempt one hour after that manual backup, whose `backup.step` succeeds. -/
def hourLater : DatabaseManager.Attempt :=
  { startTime := 1000003600000, endTime := 1000003600500, startIso := "B", stepError := none,
    artifact := "db", stats := { project_count := 1, file_count := 0 } }

/-- The log context of that attempt. -/
def hourLaterLog : AutoSaveService.LogContext :=
  { timestamp := "B", now := 1000003600600, systemInfo := .obj [] }

end Examples

/-! ## AutoSaveService: the calls into the file system, the manual backup, the emergency save -/

namespace AutoSaveService

/-- A call into `fs` that creates, moves or deletes a file of a directory. -/
inductive FsCall where
  | writeFileSync (name content : String)
  | renameSync (oldName newName : String)
  | unlinkSync (name : String)
  deriving DecidableEq, Repr

/-- The listing after a call made at instant `now`. -/
def FsCall.run (now : Int) (dir : Dir) : FsCall → Dir
  | .writeFileSync name content => dir.writeFileSync name content now
  | .renameSync oldName newName =>
      (dir.filter (fun f => f.name != newName)).map
        (fun f => if f.name = oldName then { f with name := newName } else f)
  | .unlinkSync name => dir.unlinkSync name

/-- Whether a call is a `renameSync`. -/
def FsCall.isRename : FsCall → Bool
  | .renameSync _ _ => true
  | _ => false

/-- The calls of `performAutoSave` that change the save directory, in program order, when
no step throws: the `writeFileSync` of the artifact, then the `unlinkSync` of every file
`cleanupOldSaves` finds beyond the cap (`compressFile` resolves without doing anything). -/
def performAutoSaveCalls (hash : String → String) (now : Int)
    (fileTimestamp dataTimestamp metaTimestamp : String) (db : Dataset) (dir : Dir) :
    List FsCall :=
  let saveFile := "autosave_" ++ fileTimestamp ++ ".json"
  let allData := snapshotDocument hash dataTimestamp metaTimestamp db
  let files :=
    ((dir.writeFileSync saveFile (allData.pretty "") now).filter
      (fun f => startsAndEndsWith "autosave_" ".json" f.name)).insertionSort
      (fun a b => b.mtime ≤ a.mtime)
  FsCall.writeFileSync saveFile (allData.pretty "") ::
    (if files.length > maxAutoSaveFiles then
      (files.drop maxAutoSaveFiles).map (fun f => FsCall.unlinkSync f.name)
    else [])

/-- The method `fs.copyFileSync` at instant `now`: the target is created or replaced with
the bytes of the source. -/
def copyFileSync (source : FileEntry) (target : String) (now : Int) (dir : Dir) : Dir :=
  dir.filter (fun f => f.name != target) ++
    [{ name := target, size := source.size, mtime := now, content := source.content }]

/-- The method `backupConfigFiles`: `settings.json` and `projects.json` of the directory
`config` are copied into the backup directory, each one only if `existsSync` finds it. -/
def backupConfigFiles (now : Int) (config backupDir : Dir) : Dir :=
  ["settings.json", "projects.json"].foldl
    (fun d name =>
      match config.find? (fun f => f.name == name) with
      | some source => copyFileSync source name now d
      | none => d)
    backupDir

/-- The method `calculateDirectorySize` on a directory that holds files only. -/
def calculateDirectorySize (dir : Dir) : Nat :=
  dir.totalSize

/-- The files of a listing as the entries `generateDirectoryChecksum` walks. -/
def asEntries (dir : Dir) : List (String × FsNode) :=
  dir.map (fun f => (f.name, FsNode.file f.content))

/-- The object `performManualBackup` resolves to. -/
structure ManualBackupResult where
  success : Bool
  directory : Option String
  error : Option String
  deriving DecidableEq, Repr

/-- What the environment contributes to one run of `performManualBackup`: the ISO text of
the instant of the call with `:` and `.` replaced, the ISO text put in `backup_info.json`,
the instant of the file writes and the run of `dbManager.performBackup`. -/
structure ManualContext where
  dirTimestamp : String
  infoTimestamp : String
  now : Int
  attempt : DatabaseManager.Attempt

/-- The object `backupInfo` of `performManualBackup` for a backup directory with the given
files. -/
def backupInfo (hash : String → String) (le : String → String → Bool) (timestamp : String)
    (backupDir : Dir) : Json :=
  .obj [("timestamp", .str timestamp), ("type", .str "manual"),
    ("databaseFile", .str "database.db"),
    ("configFiles", .arr [.str "settings.json", .str "projects.json"]),
    ("totalSize", .num (calculateDirectorySize backupDir)),
    ("checksum", .str (generateDirectoryChecksum hash le (asEntries backupDir)))]

/-- The method `performManualBackup` when no call into `fs` throws. `backupDir` is the
listing of `manual_backup/<dirTimestamp>` after `mkdirSync` (empty when it was created),
`config` the listing of the directory `config`, `db` the state of the database manager.
The path `dbBackupPath` the method computes is not used afterwards: the database is backed
up by `dbManager.performBackup('manual')`, which writes into the directory of the manager.
The result comes with the state of the manager and the listing of the backup directory. -/
def performManualBackup (hash : String → String) (le : String → String → Bool)
    (ctx : ManualContext) (config : Dir) (db : DatabaseManager.State) (backupDir : Dir) :
    ManualBackupResult × DatabaseManager.State × Dir :=
  match DatabaseManager.performBackup ctx.attempt "manual" db with
  | (.error message, db') =>
      ({ success := false, directory := none, error := some message }, db', backupDir)
  | (.ok _, db') =>
      let copied := backupConfigFiles ctx.now config backupDir
      ({ success := true, directory := some ("manual_backup/" ++ ctx.dirTimestamp),
         error := none },
       db',
       copied.writeFileSync "backup_info.json"
        ((backupInfo hash le ctx.infoTimestamp copied).pretty "") ctx.now)

/-- The rows the three queries of `performEmergencySave` return. -/
structure CriticalRows where
  projects : List Json
  recentFiles : List Json
  userSettings : List Json

/-- The object `criticalData` of `performEmergencySave`. -/
def criticalData (timestamp : String) (rows : CriticalRows) : Json :=
  .obj [("timestamp", .str timestamp), ("projects", .arr rows.projects),
    ("recentFiles", .arr rows.recentFiles), ("userSettings", .arr rows.userSettings)]

/-- The text of `recovery.sh`. -/
def scriptContent (timestamp : String) : String :=
  "#!/bin/bash\n# 军工项目管理软件恢复脚本\n# 生成时间: " ++ timestamp ++
  "\n\necho \"开始恢复军工项目管理软件数据...\"\n\n# 恢复步骤\n# 1. 停止正在运行的程序\n" ++
  "# 2. 备份当前数据\n# 3. 恢复备份数据\n# 4. 启动程序\n\necho \"恢复完成！\"\n"

/-- The text of `recovery.bat`. -/
def batContent (timestamp : String) : String :=
  "@echo off\necho 军工项目管理软件恢复脚本\necho 生成时间: " ++ timestamp ++
  "\necho.\necho 请手动恢复数据文件。\npause\n"

/-- The method `createRecoveryScript` at instant `now`. -/
def createRecoveryScript (now : Int) (scriptTimestamp batTimestamp : String)
    (recoveryDir : Dir) : Dir :=
  (recoveryDir.writeFileSync "recovery.sh" (scriptContent scriptTimestamp) now).writeFileSync
    "recovery.bat" (batContent batTimestamp) now

/-- What the environment contributes to one run of `performEmergencySave`: the ISO texts
of the instants read, the instant of the file writes and the rows of the three queries. -/
structure EmergencyContext where
  dataTimestamp : String
  fileTimestamp : String
  scriptTimestamp : String
  batTimestamp : String
  now : Int
  rows : CriticalRows

/-- The name of the artifact `performEmergencySave` writes. -/
def emergencyFile (ctx : EmergencyContext) : String :=
  "emergency_" ++ ctx.fileTimestamp ++ ".json"

/-- The method `performEmergencySave` when no step throws, on the listing of the directory
`emergency_save`: the critical data are written with two-space indentation, then the
recovery scripts. -/
def performEmergencySave (ctx : EmergencyContext) (emergencyDir : Dir) : Dir :=
  createRecoveryScript ctx.now ctx.scriptTimestamp ctx.batTimestamp
    (emergencyDir.writeFileSync (emergencyFile ctx)
      ((criticalData ctx.dataTimestamp ctx.rows).pretty "") ctx.now)

end AutoSaveService

/-! ## DatabaseManager: encryption of a string -/

namespace DatabaseManager

/-- The cipher `aes-256-gcm` of `crypto`, a library: `encrypt key iv data` is the
ciphertext and the authentication tag (both in hexadecimal) that `createCipheriv`, `update`,
`final` and `getAuthTag` produce; `decrypt key iv authTag data` is the text that
`createDecipheriv`, `setAuthTag`, `update` and `final` produce, `none` when one of them
throws. The initialisation vector is passed in hexadecimal. -/
structure Aes256Gcm where
  encrypt : String → String → String → String × String
  decrypt : String → String → String → String → Option String

/-- The method `encryptData` on a string; `encryptionKey` is the field of that name (`none`
for `null`, its value until `initEncryption` has run) and `iv` the hexadecimal text of
`crypto.randomBytes(16)`. -/
def encryptData (aes : Aes256Gcm) (encryptionKey : Option String) (iv : String)
    (data : String) : Json :=
  match encryptionKey with
  | none => .str data
  | some key =>
      .obj [("iv", .str iv), ("data", .str (aes.encrypt key iv data).1),
        ("authTag", .str (aes.encrypt key iv data).2)]

/-- The `try` block of `decryptData`: the decrypted text, `null` from the `catch`. Members
that are not strings, which `encryptData` never writes, are read as a decipher that
throws. -/
def decipher (aes : Aes256Gcm) (key : String) (iv authTag data : Option Json) : Json :=
  match iv, authTag, data with
  | some (.str i), some (.str t), some (.str d) =>
      match aes.decrypt key i t d with
      | some text => .str text
      | none => .null
  | _, _, _ => .null

/-- The method `decryptData`; `none` is `undefined`. -/
def decryptData (aes : Aes256Gcm) (encryptionKey : Option String) (encryptedData : Json) :
    Except String (Option Json) :=
  match encryptionKey with
  | none => Json.getProp (some encryptedData) "data"
  | some key =>
      match Json.getProp (some encryptedData) "iv" with
      | .error e => .error e
      | .ok iv =>
          if !Json.truthy iv then Json.getProp (some encryptedData) "data"
          else
            match Json.getProp (some encryptedData) "authTag",
                Json.getProp (some encryptedData) "data" with
            | .ok authTag, .ok data => .ok (some (decipher aes key iv authTag data))
            | _, _ => .ok (some .null)

end DatabaseManager

/-! ## The periodic jobs -/

namespace Timers

/-- The methods called from a `setInterval` callback: `performAutoSave` and `performBackup`
(set by `start` of the save service), `checkAndPerformBackup` (set by `setupAutoBackup`),
`cleanupExpiredCache` and `cleanupOrphanedFiles` (set by `setupCacheCleanup`). -/
inductive Job where
  | performAutoSave
  | performBackup
  | checkAndPerformBackup
  | cleanupExpiredCache
  | cleanupOrphanedFiles
  deriving DecidableEq, Repr

/-- An event in the life of the periodic jobs: the timer of a job fires, or a run of a job
completes. -/
inductive Event where
  | timerFired (job : Job)
  | runCompleted (job : Job)
  deriving DecidableEq, Repr

/-- The number of runs in progress of each job. -/
abbrev Running := Job → Nat

/-- The effect of an event on the runs in progress. Each of the five callbacks has the
form `() => { this.job(); }`: it calls the method and reads no state, so a firing starts a
run of the job. -/
def step (running : Running) : Event → Running
  | .timerFired job => Function.update running job (running job + 1)
  | .runCompleted job => Function.update running job (running job - 1)

/-- The runs in progress after a sequence of events, none being in progress at first. -/
def replay (events : List Event) : Running :=
  events.foldl step (fun _ => 0)

/-- The number of runs of a job that the events have started. -/
def started (job : Job) (events : List Event) : Nat :=
  (events.filter (fun e => e == Event.timerFired job)).length

end Timers

/-! ## FilePreviewManager: successive calls -/

namespace FilePreviewManager

/-- The object `cacheData` that `saveToDiskCache` serialises at instant `now`. -/
def cacheData (previewData : Json) (now : Int) (options : Json) : Json :=
  .obj [("preview", previewData), ("timestamp", .num now), ("options", options)]

/-- The clock of a call all of whose readings of `Date.now()` give the instant `t`. -/
def atInstant (t : Int) : Clock :=
  { memoryCheck := t, diskCheck := t, memoryInsert := t, diskWrite := t }

/-- Successive calls of `generatePreview` with the same request, each on the cache the
call before it left: the cache after the last. -/
def generatePreviews (md5 : String → String) (parse : String → Option Json) (req : Request) :
    List Run → Cache → Cache
  | [], cache => cache
  | run :: runs, cache =>
      generatePreviews md5 parse req runs (generatePreview md5 parse run req cache).cache

/-- A call made at one instant whose derivation, if it is reached, yields a preview other
than `p`, and whose cache file, if it is written, is read back by `parse` as it was
written. -/
def LaterRun (parse : String → Option Json) (req : Request) (p : Json) (run : Run) : Prop :=
  (∃ t, run.clock = atInstant t) ∧
  (∀ x, run.derived = .ok x →
    x ≠ p ∧
    parse ((cacheData x run.clock.diskWrite req.options).pretty "") =
      some (cacheData x run.clock.diskWrite req.options)) ∧
  (∀ m, run.derived = .error m →
    generateErrorPreview req.fileType m run.errorTimestamp ≠ p)

/-- What the lifetime bound rests on, for a preview `p` written at instant `T`: an entry of
the memory tier that holds `p` under the key was stamped less than 24 hours after `T`, and
`checkDiskCache` returns `p` less than 24 hours after `T` only. -/
def Within (parse : String → Option Json) (fileKey cacheKey : String) (p : Json) (T : Int)
    (cache : Cache) : Prop :=
  (∀ e, mapGet cacheKey cache.previewCache = some e → e.data = p →
    e.timestamp < T + 24 * 3600000) ∧
  (∀ t, checkDiskCache parse t cache.previewDir fileKey = some p → t - T < 24 * 3600000)

end FilePreviewManager

/-! ## Concrete inputs for the backups, the cipher and the timers -/

namespace Examples

open AutoSaveService FilePreviewManager

/-- A record store of 2 projects, 5 files and no node. -/
def twoProjects : Dataset :=
  { projects := [.num 1, .num 2], files := [.num 1, .num 2, .num 3, .num 4, .num 5],
    nodes := [], settings := [], auditLogs := [] }

/-- A backup attempt whose `backup.step` succeeds. -/
def attemptOk : DatabaseManager.Attempt :=
  { startTime := 1000, endTime := 1500, startIso := "A", stepError := none,
    artifact := "db", stats := { project_count := 1, file_count := 0 } }

/-- The context of a manual backup made with that attempt. -/
def manualContext : ManualContext :=
  { dirTimestamp := "A", infoTimestamp := "A", now := 2000, attempt := attemptOk }

/-- A database manager that has made no backup yet. -/
def freshManager : DatabaseManager.State :=
  { table := [], backups := [] }

/-- A directory `config` that holds `settings.json` only. -/
def settingsOnly : Dir :=
  [{ name := "settings.json", size := 2, mtime := 5, content := "{}" }]

/-- The order of two names by their code points. -/
def nameLe (a b : String) : Bool :=
  decide (a ≤ b)

/-- The context of an emergency save of one project row. -/
def emergencyContext : EmergencyContext :=
  { dataTimestamp := "T", fileTimestamp := "T", scriptTimestamp := "T", batTimestamp := "T",
    now := 3000,
    rows := { projects := [.obj [("id", .num 1)]], recentFiles := [], userSettings := [] } }

/-- A stand-in for the cipher: the ciphertext is the plain text after the letter `c`, the
tag is the key; decryption inverts it under the same key and tag. -/
def toyCipher : DatabaseManager.Aes256Gcm :=
  { encrypt := fun key _ data => ("c" ++ data, key)
    decrypt := fun key _ authTag data =>
      if authTag = key ∧ "c".data.isPrefixOf data.data then some (String.mk (data.data.drop 1))
      else none }

/-- A directory of one file and one subdirectory. -/
def plainDirectory : List (String × FsNode) :=
  [("a", .file "xy"), ("sub", .dir [("f", .file "1")])]

/-- A directory of other names whose visible files hold the same bytes in two pieces, with
a hidden file at each level. -/
def splitDirectory : List (String × FsNode) :=
  [("c", .file "y"), (".hidden", .file "zz"), ("b", .file "x"),
   ("d", .dir [("g", .file "1"), (".h", .file "9")])]

/-- A save directory with one file whose name holds `.json` twice. -/
def oddName : Dir :=
  [{ name := "autosave_.jsonx.json", size := 2, mtime := 9, content := "{}" }]

/-- The options of a second request for the file of `request`. -/
def thumbnailOptions : Json :=
  .obj [("thumbnailSize", .num 100)]

/-- The request of `request` with the options `thumbnailOptions`. -/
def requestThumbnail : Request :=
  { request with options := thumbnailOptions }

/-- A run at instant `t` whose derivation would yield `previewB`. -/
def runAt (t : Int) : Run :=
  { clock := atInstant t, derived := .ok previewB, writeFails := false, errorTimestamp := "T" }

/-- The run that derives `previewA` at instant 1000. -/
def firstRun : Run :=
  { clock := atInstant 1000, derived := .ok previewA, writeFails := false,
    errorTimestamp := "T" }

end Examples

/-! ## Properties -/

set_option maxRecDepth 1000000

section Helpers

theorem tagHash_injective : Function.Injective tagHash := by
  intro a b h
  have h2 : ("sha:" ++ a).data = ("sha:" ++ b).data := congrArg String.data h
  simp only [String.data_append] at h2
  exact String.ext (List.append_cancel_left h2)

theorem tagHash_ne_empty (s : String) : tagHash s ≠ "" := by
  intro h
  have h2 := congrArg String.length h
  have e : "sha:".length = 4 := rfl
  simp [tagHash, String.length_append, e] at h2

end Helpers

namespace AutoSaveService

/-- The document written by `performAutoSave` has the three members of `getAllData`
followed by `metadata`. -/
theorem snapshotDocument_eq (hash : String → String) (t1 t2 : String) (db : Dataset) :
    snapshotDocument hash t1 t2 db =
      .obj [("timestamp", .str t1),
        ("statistics", .obj [
          ("projectCount", .num db.projects.length),
          ("fileCount", .num db.files.length),
          ("nodeCount", .num db.nodes.length),
          ("userCount", .num db.settings.length),
          ("logCount", .num db.auditLogs.length)]),
        ("data", .obj [
          ("projects", .arr db.projects),
          ("files", .arr db.files),
          ("nodes", .arr db.nodes),
          ("settings", .arr db.settings),
          ("auditLogs", .arr db.auditLogs)]),
        ("metadata", .obj [
          ("version", .str "1.0.0"),
          ("timestamp", .str t2),
          ("dataType", .str "autosave"),
          ("checksum", .str (hash (getAllData t1 db).stringify))])] := by
  simp [snapshotDocument, getAllData, generateChecksum, Json.setProp, Json.ownProps]

/-- The text digested by `performAutoSave` is shorter than the text that
`validateBackupData` digests for the document written. -/
theorem stringify_getAllData_ne (hash : String → String) (t1 t2 : String) (db : Dataset)
    (c : Json) :
    (getAllData t1 db).stringify ≠
      (checksumNulled (snapshotDocument hash t1 t2 db)
        (some (Json.obj [("version", .str "1.0.0"), ("timestamp", .str t2),
          ("dataType", .str "autosave"), ("checksum", c)]))).stringify := by
  intro h
  have h2 := congrArg String.length h
  rw [snapshotDocument_eq] at h2
  simp [getAllData, checksumNulled, Json.setProp,
    Json.ownProps, Json.stringify, Json.stringifyMembers, String.length_append] at h2
  have e : ",".length = 1 := rfl
  omega

/-- The method `validateBackupData` on an object whose `metadata` is an object with a string
`checksum`: the checksum must be non-empty and equal to the recomputed digest. -/
theorem validateBackupData_obj (hash : String → String) (kvs mkvs : List (String × Json))
    (c : String) (h1 : Json.lookup "metadata" kvs = some (.obj mkvs))
    (h2 : Json.lookup "checksum" mkvs = some (.str c)) :
    validateBackupData hash (.obj kvs) =
      .ok (c != "" &&
        c == hash (checksumNulled (.obj kvs) (some (.obj mkvs))).stringify) := by
  unfold validateBackupData
  simp only [Json.getProp, h1, Json.truthy, h2, generateChecksum, Json.strictEqStr]
  by_cases hc : c = "" <;> simp [hc]

end AutoSaveService

namespace AutoSaveService

/-- C1. For every dataset and every collision-free digest, the document that
`performAutoSave` writes is rejected by `validateBackupData` when read back unmodified: the
stored checksum is the digest of the document without its `metadata` member, the recomputed
one is the digest of the document with `metadata` (checksum nulled), and the two texts
differ. The round trip the claim states does not hold on the code. -/
theorem snapshot_checksum_fails_validation (hash : String → String)
    (hinj : Function.Injective hash) (t1 t2 : String) (db : Dataset) :
    validateBackupData hash (snapshotDocument hash t1 t2 db) = .ok false := by
  have hne := stringify_getAllData_ne hash t1 t2 db (.str (hash (getAllData t1 db).stringify))
  rw [snapshotDocument_eq] at hne ⊢
  rw [validateBackupData_obj hash _
    [("version", Json.str "1.0.0"), ("timestamp", Json.str t2), ("dataType", Json.str "autosave"),
      ("checksum", Json.str (hash (getAllData t1 db).stringify))]
    (hash (getAllData t1 db).stringify) (by simp [Json.lookup]) (by simp [Json.lookup])]
  have : (hash (getAllData t1 db).stringify == hash (checksumNulled _ _).stringify) = false :=
    beq_false_of_ne (fun h => hne (hinj h))
  rw [this, Bool.and_false]

/-- Witness of C1 at the one-project dataset with the tagging digest. -/
theorem snapshot_checksum_fails_validation_witness :
    Function.Injective tagHash ∧
      validateBackupData tagHash (snapshotDocument tagHash "T" "U" Examples.oneProject) =
        .ok false :=
  ⟨tagHash_injective,
   snapshot_checksum_fails_validation tagHash tagHash_injective "T" "U" Examples.oneProject⟩

/-- A snapshot written by `performAutoSave` into an empty directory and read back unmodified
by `restoreBackup` is rejected with the integrity error. -/
theorem fresh_autosave_is_rejected :
    (restoreBackup tagHash JsonText.jsonParse
      { dir := performAutoSave tagHash 5 "a" "T" "U" Examples.oneProject [],
        store := Examples.oneProject, console := [] } "a").1 =
      { success := false, message := none, error := some integrityMessage } := by
  decide!

/-- A file that `readFileSync` can read exists. -/
theorem existsSync_of_readFileSync (dir : Dir) (name text : String)
    (h : dir.readFileSync name = some text) : dir.existsSync name = true := by
  unfold Dir.readFileSync at h
  unfold Dir.existsSync
  cases hf : dir.find? (fun f => f.name == name) with
  | none => simp [hf] at h
  | some f =>
      have hmem := List.mem_of_find?_eq_some hf
      have hp := List.find?_some hf
      exact List.any_eq_true.mpr ⟨f, hmem, hp⟩

/-- C6. Restore fails closed and distinguishably. For every `backupId`: when the artifact
file does not exist, `restoreBackup` returns the failure result with the not-found error;
when it exists and parses but `validateBackupData` returns false, it returns the failure
result with the integrity error, which differs from the not-found error. In both cases the
directory and the record store are unchanged and the only console line added is the one of
the `catch`: `restoreData` is not invoked. -/
theorem restore_fails_closed (hash : String → String) (parse : String → Option Json)
    (w : World) (backupId : String) :
    (w.dir.existsSync ("autosave_" ++ backupId ++ ".json") = false →
      restoreBackup hash parse w backupId =
        ({ success := false, message := none, error := some notFoundMessage },
         { w with console := w.console ++ [ConsoleEvent.restoreFailed notFoundMessage] })) ∧
    (∀ text d, w.dir.readFileSync ("autosave_" ++ backupId ++ ".json") = some text →
      parse text = some d → validateBackupData hash d = .ok false →
      restoreBackup hash parse w backupId =
        ({ success := false, message := none, error := some integrityMessage },
         { w with console := w.console ++ [ConsoleEvent.restoreFailed integrityMessage] })) ∧
    integrityMessage ≠ notFoundMessage := by
  refine ⟨?_, ?_, by decide⟩
  · intro h
    simp [restoreBackup, restoreBackupTry, h]
  · intro text d hread hparse hvalid
    have hex := existsSync_of_readFileSync _ _ _ hread
    simp [restoreBackup, restoreBackupTry, hex, hread, hparse, hvalid]

/-- Witness of C6: a missing artifact, and an artifact `{}` that parses and has no metadata. -/
theorem restore_fails_closed_witness :
    (restoreBackup tagHash JsonText.jsonParse (Examples.worldWith "{}") "b").1 =
        { success := false, message := none, error := some notFoundMessage } ∧
      (restoreBackup tagHash JsonText.jsonParse (Examples.worldWith "{}") "a").1 =
        { success := false, message := none, error := some integrityMessage } :=
  ⟨by rw [(restore_fails_closed tagHash JsonText.jsonParse (Examples.worldWith "{}") "b").1
        (by decide)],
   by rw [(restore_fails_closed tagHash JsonText.jsonParse (Examples.worldWith "{}") "a").2.1
        "{}" (Json.obj []) (by decide) (by rfl) (by rfl)]⟩

/-- The member access on a value that is neither `null` nor `undefined` does not throw. -/
theorem getProp_ok_of_ne_null (v : Json) (k : String) (h : v ≠ Json.null) :
    ∃ r, Json.getProp (some v) k = .ok r := by
  cases v with
  | null => exact absurd rfl h
  | bool b => exact ⟨_, rfl⟩
  | num n => exact ⟨_, rfl⟩
  | str s => exact ⟨_, rfl⟩
  | arr xs => exact ⟨_, rfl⟩
  | obj kvs => exact ⟨_, rfl⟩

/-- C7 (amended). For every artifact that passes verification and whose document has a
`data` member other than `null`, `restoreBackup` returns the success result after one call
of `restoreData`, which writes one console line; the directory and the record store are
left as they were: nothing is replayed. -/
theorem restore_verified_only_logs (hash : String → String) (parse : String → Option Json)
    (w : World) (backupId text : String) (d data : Json)
    (hread : w.dir.readFileSync ("autosave_" ++ backupId ++ ".json") = some text)
    (hparse : parse text = some d) (hvalid : validateBackupData hash d = .ok true)
    (hdata : Json.getProp (some d) "data" = .ok (some data)) (hnn : data ≠ Json.null) :
    (restoreBackup hash parse w backupId).1 =
        { success := true, message := some "恢复成功", error := none } ∧
      (restoreBackup hash parse w backupId).2.store = w.store ∧
      (restoreBackup hash parse w backupId).2.dir = w.dir ∧
      ∃ p f, (restoreBackup hash parse w backupId).2.console =
        w.console ++ [ConsoleEvent.restoreStarted p f, ConsoleEvent.restoreSucceeded backupId] := by
  have hex := existsSync_of_readFileSync _ _ _ hread
  obtain ⟨p, hp⟩ := getProp_ok_of_ne_null data "projects" hnn
  obtain ⟨f, hf⟩ := getProp_ok_of_ne_null data "files" hnn
  simp [restoreBackup, restoreBackupTry, hex, hread, hparse, hvalid, hdata, restoreData, hp, hf]

end AutoSaveService

namespace AutoSaveService

/-- The sealed example artifact parses to the sealed document. -/
theorem jsonParse_sealedText :
    JsonText.jsonParse Examples.sealedText =
      some (Examples.sealedDocument tagHash "T" Examples.oneProject) := by
  rfl

/-- The sealed example document passes `validateBackupData`. -/
theorem validate_sealedDocument :
    validateBackupData tagHash (Examples.sealedDocument tagHash "T" Examples.oneProject) =
      .ok true := by
  rfl

/-- Witness of C7 (amended) at the sealed example artifact. -/
theorem restore_verified_only_logs_witness :
    (restoreBackup tagHash JsonText.jsonParse (Examples.worldWith Examples.sealedText) "a").1 =
        { success := true, message := some "恢复成功", error := none } ∧
      (restoreBackup tagHash JsonText.jsonParse
        (Examples.worldWith Examples.sealedText) "a").2.store =
        (Examples.worldWith Examples.sealedText).store :=
  have h := restore_verified_only_logs tagHash JsonText.jsonParse
    (Examples.worldWith Examples.sealedText) "a" Examples.sealedText
    (Examples.sealedDocument tagHash "T" Examples.oneProject)
    (Json.obj [("projects", .arr Examples.oneProject.projects), ("files", .arr []),
      ("nodes", .arr []), ("settings", .arr []), ("auditLogs", .arr [])])
    (by decide) jsonParse_sealedText validate_sealedDocument (by rfl)
    (by intro h; cases h)
  ⟨h.1, h.2.1⟩

/-- C7 (counterexample). The sealed example artifact holds one project record and passes
verification; `restoreBackup` on it returns success and the record store, empty before,
holds no project afterwards. -/
theorem restore_does_not_replay :
    JsonText.jsonParse Examples.sealedText =
        some (Examples.sealedDocument tagHash "T" Examples.oneProject) ∧
      validateBackupData tagHash (Examples.sealedDocument tagHash "T" Examples.oneProject) =
        .ok true ∧
      Examples.oneProject.projects.length = 1 ∧
      (restoreBackup tagHash JsonText.jsonParse
        (Examples.worldWith Examples.sealedText) "a").1.success = true ∧
      (restoreBackup tagHash JsonText.jsonParse
        (Examples.worldWith Examples.sealedText) "a").2.store.projects = [] :=
  ⟨by rfl, by rfl, by rfl, by decide!, by rfl⟩

/-- C8. On the parsed value `null` (an artifact file whose text is `null`) the method
`validateBackupData` does not return a boolean: the member access `data.metadata` throws a
`TypeError`. -/
theorem validateBackupData_null_throws (hash : String → String) :
    validateBackupData hash Json.null =
      .error "TypeError: Cannot read properties of null" := by
  rfl

/-- On every parsed value other than `null`, `validateBackupData` returns a boolean. -/
theorem validateBackupData_returns_of_ne_null (hash : String → String) (d : Json)
    (h : d ≠ Json.null) : ∃ b, validateBackupData hash d = .ok b := by
  obtain ⟨m, hm⟩ := getProp_ok_of_ne_null d "metadata" h
  unfold validateBackupData
  rw [hm]
  by_cases ht : Json.truthy m = true
  · have hmn : ∃ v, m = some v ∧ v ≠ Json.null := by
      cases m with
      | none => simp [Json.truthy] at ht
      | some v =>
          refine ⟨v, rfl, ?_⟩
          intro hv
          subst hv
          simp [Json.truthy] at ht
    obtain ⟨v, rfl, hv⟩ := hmn
    obtain ⟨c, hc⟩ := getProp_ok_of_ne_null v "checksum" hv
    simp only [ht, hc]
    by_cases hc2 : Json.truthy c = true
    · simp [hc2]
    · simp [hc2]
  · simp [ht]

/-- On a parsed value other than `null` without a truthy `metadata`, or whose metadata has
no truthy `checksum`, `validateBackupData` returns false. -/
theorem validateBackupData_false_of_missing (hash : String → String) (d : Json)
    (m : Option Json) (hm : Json.getProp (some d) "metadata" = .ok m)
    (h : Json.truthy m = false ∨
      ∃ c, Json.getProp m "checksum" = .ok c ∧ Json.truthy c = false) :
    validateBackupData hash d = .ok false := by
  unfold validateBackupData
  rw [hm]
  rcases h with h | ⟨c, hc, hc2⟩
  · simp [h]
  · by_cases ht : Json.truthy m = true
    · simp [ht, hc, hc2]
    · simp [ht]

/-- Whatever the artifact text, `restoreBackup` resolves to a result; a text that does not
parse gives the failure result with the syntax error. -/
theorem restoreBackup_parse_error (hash : String → String) (parse : String → Option Json)
    (w : World) (backupId text : String)
    (hread : w.dir.readFileSync ("autosave_" ++ backupId ++ ".json") = some text)
    (hparse : parse text = none) :
    (restoreBackup hash parse w backupId).1 =
      { success := false, message := none, error := some syntaxErrorMessage } := by
  have hex := existsSync_of_readFileSync _ _ _ hread
  simp [restoreBackup, restoreBackupTry, hex, hread, hparse]

/-- An artifact whose text is `null`: the `TypeError` of `validateBackupData` is caught by
`restoreBackup`, which returns the failure result carrying it. -/
theorem restoreBackup_null_artifact :
    (restoreBackup tagHash JsonText.jsonParse (Examples.worldWith "null") "a").1 =
      { success := false, message := none,
        error := some "TypeError: Cannot read properties of null" } := by
  decide!

end AutoSaveService

namespace AutoSaveService

/-- A document accepted by `validateBackupData` stores the digest of its canonical text. -/
theorem storedChecksum_of_valid (hash : String → String) (d : Json)
    (h : validateBackupData hash d = .ok true) :
    storedChecksum d = some (.str (hash (canonicalText d))) := by
  unfold validateBackupData at h
  unfold storedChecksum canonicalText
  cases hm : Json.getProp (some d) "metadata" with
  | error e => simp [hm] at h
  | ok m =>
      simp only [hm] at h ⊢
      by_cases ht : Json.truthy m = true
      · simp only [ht] at h
        cases hc : Json.getProp m "checksum" with
        | error e => simp [hc] at h
        | ok c =>
            simp only [hc] at h ⊢
            by_cases hc2 : Json.truthy c = true
            · simp only [hc2, generateChecksum, Json.strictEqStr] at h
              cases c with
              | none => simp at h
              | some v =>
                  cases v <;> simp at h
                  rw [h]
            · simp [hc2] at h
      · simp [ht] at h

/-- A successful `restoreBackup` has read and parsed the artifact and validated the result. -/
theorem validated_of_restore_success (hash : String → String) (parse : String → Option Json)
    (w : World) (backupId : String)
    (h : (restoreBackup hash parse w backupId).1.success = true) :
    ∃ text d, w.dir.readFileSync ("autosave_" ++ backupId ++ ".json") = some text ∧
      parse text = some d ∧ validateBackupData hash d = .ok true := by
  unfold restoreBackup restoreBackupTry at h
  by_cases hex : w.dir.existsSync ("autosave_" ++ backupId ++ ".json") = true
  · cases hread : w.dir.readFileSync ("autosave_" ++ backupId ++ ".json") with
    | none => simp [hex, hread] at h
    | some text =>
        cases hparse : parse text with
        | none => simp [hex, hread, hparse] at h
        | some d =>
            cases hv : validateBackupData hash d with
            | error e => simp [hex, hread, hparse, hv] at h
            | ok b =>
                cases b with
                | false => simp [hex, hread, hparse, hv] at h
                | true => exact ⟨text, d, rfl, hparse, hv⟩
  · simp [hex] at h

/-- C9 (amended). Verification is of the parsed document. Let an artifact text parse to a
document that passes `validateBackupData`, with a collision-free digest. Then
`restoreBackup` fails on every other text (one that differs in exactly one byte in
particular) that does not parse, or that parses to a document with the same stored checksum
and a different canonical text, or with a different stored checksum and the same canonical
text. -/
theorem tamper_detected (hash : String → String) (hinj : Function.Injective hash)
    (parse : String → Option Json) (text : String) (d : Json)
    (hparse : parse text = some d) (hvalid : validateBackupData hash d = .ok true)
    (w : World) (backupId text' : String)
    (hread : w.dir.readFileSync ("autosave_" ++ backupId ++ ".json") = some text')
    (hchange : parse text' = none ∨ ∃ d', parse text' = some d' ∧
      ((storedChecksum d' = storedChecksum d ∧ canonicalText d' ≠ canonicalText d) ∨
       (storedChecksum d' ≠ storedChecksum d ∧ canonicalText d' = canonicalText d))) :
    (restoreBackup hash parse w backupId).1.success = false := by
  have _ := hparse
  by_contra hs
  have hs : (restoreBackup hash parse w backupId).1.success = true := by
    simpa using hs
  obtain ⟨t, d2, hr, hp, hv⟩ := validated_of_restore_success hash parse w backupId hs
  rw [hread] at hr
  cases hr
  have h1 := storedChecksum_of_valid hash d hvalid
  have h2 := storedChecksum_of_valid hash d2 hv
  rcases hchange with hnone | ⟨d', hd', hcase⟩
  · rw [hnone] at hp
    cases hp
  · rw [hd'] at hp
    cases hp
    rcases hcase with ⟨hc, hne⟩ | ⟨hc, heq⟩
    · rw [h1, h2] at hc
      have := hinj (by simpa using hc)
      exact hne this
    · apply hc
      rw [h1, h2, heq]

/-- Witness of C9 (amended): one character of the project row of the sealed example is
changed; the text parses to a document with the same checksum and another canonical text. -/
theorem tamper_detected_witness :
    (restoreBackup tagHash JsonText.jsonParse
      (Examples.worldWith Examples.forgedText) "a").1.success = false :=
  tamper_detected tagHash tagHash_injective JsonText.jsonParse Examples.sealedText
    (Examples.sealedDocument tagHash "T" Examples.oneProject)
    (by rfl) (by rfl) (Examples.worldWith Examples.forgedText) "a" Examples.forgedText
    (by decide!)
    (Or.inr ⟨Examples.forgedDocument, by rfl, Or.inl ⟨by rfl, by decide!⟩⟩)

/-- C9 (counterexample). With the collision-free tagging digest, the sealed example text
passes verification in `restoreBackup`; replacing its second character, the line break
after the opening brace, by a blank changes exactly one character, one byte wide, and the
changed text passes verification too. -/
theorem whitespace_tamper_passes :
    Function.Injective tagHash ∧
      Examples.sealedText = (Examples.sealedDocument tagHash "T" Examples.oneProject).pretty "" ∧
      (restoreBackup tagHash JsonText.jsonParse
        (Examples.worldWith Examples.sealedText) "a").1.success = true ∧
      Examples.tamperedText.length = Examples.sealedText.length ∧
      (List.zip Examples.sealedText.data Examples.tamperedText.data).filter
        (fun p => p.1 != p.2) = [('\n', ' ')] ∧
      (restoreBackup tagHash JsonText.jsonParse
        (Examples.worldWith Examples.tamperedText) "a").1.success = true :=
  ⟨tagHash_injective, rfl, by decide!, by decide!, by decide!, by decide!⟩

end AutoSaveService

/-! ### Retention by count -/

section Retention

instance newestFirst_isTotal : IsTotal FileEntry (fun a b => b.mtime ≤ a.mtime) :=
  ⟨fun a b => le_total b.mtime a.mtime⟩

instance newestFirst_isTrans : IsTrans FileEntry (fun a b => b.mtime ≤ a.mtime) :=
  ⟨fun _ _ _ hab hbc => le_trans hbc hab⟩

/-- Unlinking the files of a list one after the other removes the entries with their names. -/
theorem foldl_unlinkSync (l : List FileEntry) (dir : Dir) :
    l.foldl (fun d f => d.unlinkSync f.name) dir =
      dir.filter (fun f => decide (f.name ∉ l.map (fun g => g.name))) := by
  induction l generalizing dir with
  | nil => simp
  | cons a l ih =>
      rw [List.foldl_cons, ih, Dir.unlinkSync, List.filter_filter]
      apply List.filter_congr
      intro x _
      simp only [List.map_cons, List.mem_cons, not_or, bne_iff_ne, ne_eq, Bool.and_eq_true,
        decide_eq_true_eq, Bool.decide_and]
      by_cases h1 : x.name = a.name <;> simp [h1]

/-- In a list sorted strictly newest first, the entries after the first `n` are those with
at least `n` newer entries. -/
theorem mem_drop_iff_newer_count (l : List FileEntry)
    (hs : l.Pairwise (fun a b => b.mtime < a.mtime)) (n : Nat) (f : FileEntry) (hf : f ∈ l) :
    f ∈ l.drop n ↔ n ≤ (l.filter (fun g => decide (f.mtime < g.mtime))).length := by
  induction l generalizing n with
  | nil => simp at hf
  | cons a t ih =>
      cases n with
      | zero => simp [hf]
      | succ k =>
          rw [List.drop_succ_cons]
          rw [List.pairwise_cons] at hs
          rcases List.mem_cons.mp hf with rfl | hft
          · have h1 : f ∉ t.drop k := fun hm =>
              absurd (hs.1 f (List.mem_of_mem_drop hm)) (lt_irrefl _)
            have h2 : (f :: t).filter (fun g => decide (f.mtime < g.mtime)) = [] := by
              rw [List.filter_eq_nil_iff]
              intro g hg
              rcases List.mem_cons.mp hg with rfl | hgt
              · simp
              · have := hs.1 g hgt
                simp only [decide_eq_true_eq, not_lt]
                exact le_of_lt this
            simp [h1, h2]
          · have hlt : f.mtime < a.mtime := hs.1 f hft
            rw [ih hs.2 k hft, List.filter_cons_of_pos (by simpa using hlt)]
            simp

/-- The sorted candidates of `pruneOldest` are strictly newest first when their
modification times are distinct. -/
theorem sorted_strict (c : List FileEntry) (htimes : (c.map (fun f => f.mtime)).Nodup) :
    (c.insertionSort (fun a b => b.mtime ≤ a.mtime)).Pairwise
      (fun a b => b.mtime < a.mtime) := by
  have hsorted := List.sorted_insertionSort (fun a b : FileEntry => b.mtime ≤ a.mtime) c
  have hperm := List.perm_insertionSort (fun a b : FileEntry => b.mtime ≤ a.mtime) c
  have hnd : ((c.insertionSort (fun a b => b.mtime ≤ a.mtime)).map
      (fun f => f.mtime)).Nodup := (hperm.map _).nodup_iff.mpr htimes
  rw [List.Nodup, List.pairwise_map] at hnd
  exact (List.Pairwise.and hsorted hnd).imp (fun h => lt_of_le_of_ne h.1 (Ne.symm h.2))

/-- The step `pruneOldest` unlinks the sorted candidates after the first `cap`. -/
theorem pruneOldest_eq_foldl (keep : String → Bool) (cap : Nat) (dir : Dir) :
    pruneOldest keep cap dir =
      (((dir.filter (fun f => keep f.name)).insertionSort
        (fun a b => b.mtime ≤ a.mtime)).drop cap).foldl
        (fun d f => d.unlinkSync f.name) dir := by
  unfold pruneOldest
  simp only
  split
  · rfl
  · rename_i h
    rw [List.drop_eq_nil_of_le (by omega)]
    rfl

/-- For a file of the directory: it is among the unlinked candidates exactly when it is a
candidate with at least `cap` newer candidates. -/
theorem mem_dropped_iff (keep : String → Bool) (cap : Nat) (dir : Dir)
    (htimes : ((dir.filter (fun f => keep f.name)).map (fun f => f.mtime)).Nodup)
    (f : FileEntry) :
    f ∈ ((dir.filter (fun f => keep f.name)).insertionSort
        (fun a b => b.mtime ≤ a.mtime)).drop cap ↔
      f ∈ dir ∧ keep f.name = true ∧
        cap ≤ ((dir.filter (fun f => keep f.name)).filter
          (fun g => decide (f.mtime < g.mtime))).length := by
  have hperm := List.perm_insertionSort (fun a b : FileEntry => b.mtime ≤ a.mtime)
    (dir.filter (fun f => keep f.name))
  have hstrict := sorted_strict _ htimes
  have hcount : (((dir.filter (fun f => keep f.name)).insertionSort
        (fun a b => b.mtime ≤ a.mtime)).filter (fun g => decide (f.mtime < g.mtime))).length
      = ((dir.filter (fun f => keep f.name)).filter
          (fun g => decide (f.mtime < g.mtime))).length :=
    (hperm.filter _).length_eq
  constructor
  · intro h
    have hs := List.mem_of_mem_drop h
    have hc := hperm.mem_iff.mp hs
    rw [List.mem_filter] at hc
    refine ⟨hc.1, hc.2, ?_⟩
    rw [← hcount]
    exact (mem_drop_iff_newer_count _ hstrict cap f hs).mp h
  · rintro ⟨hd, hk, hn⟩
    have hs : f ∈ (dir.filter (fun f => keep f.name)).insertionSort
        (fun a b => b.mtime ≤ a.mtime) :=
      hperm.mem_iff.mpr (List.mem_filter.mpr ⟨hd, hk⟩)
    rw [← hcount] at hn
    exact (mem_drop_iff_newer_count _ hstrict cap f hs).mpr hn

/-- With distinct names, a file of the directory bears the name of an unlinked candidate
exactly when it is one. -/
theorem name_mem_dropped_iff (keep : String → Bool) (cap : Nat) (dir : Dir)
    (hnames : (dir.map (fun f => f.name)).Nodup)
    (htimes : ((dir.filter (fun f => keep f.name)).map (fun f => f.mtime)).Nodup)
    (f : FileEntry) (hf : f ∈ dir) :
    f.name ∈ (((dir.filter (fun f => keep f.name)).insertionSort
        (fun a b => b.mtime ≤ a.mtime)).drop cap).map (fun g => g.name) ↔
      f ∈ ((dir.filter (fun f => keep f.name)).insertionSort
        (fun a b => b.mtime ≤ a.mtime)).drop cap := by
  constructor
  · intro h
    obtain ⟨g, hg, hgn⟩ := List.mem_map.mp h
    have hgd : g ∈ dir := ((mem_dropped_iff keep cap dir htimes g).mp hg).1
    have : g = f := List.inj_on_of_nodup_map hnames hgd hf hgn
    rw [← this]
    exact hg
  · intro h
    exact List.mem_map.mpr ⟨f, h, rfl⟩

/-- The retention step keeps the files that are not candidates and the candidates with fewer
than `cap` newer candidates, in their order. -/
theorem pruneOldest_eq_filter (keep : String → Bool) (cap : Nat) (dir : Dir)
    (hnames : (dir.map (fun f => f.name)).Nodup)
    (htimes : ((dir.filter (fun f => keep f.name)).map (fun f => f.mtime)).Nodup) :
    pruneOldest keep cap dir =
      dir.filter (fun f => !keep f.name ||
        decide (((dir.filter (fun f => keep f.name)).filter
          (fun g => decide (f.mtime < g.mtime))).length < cap)) := by
  rw [pruneOldest_eq_foldl, foldl_unlinkSync]
  apply List.filter_congr
  intro f hf
  have h1 := name_mem_dropped_iff keep cap dir hnames htimes f hf
  have h2 := mem_dropped_iff keep cap dir htimes f
  by_cases hk : keep f.name = true
  · by_cases hn : cap ≤ ((dir.filter (fun f => keep f.name)).filter
          (fun g => decide (f.mtime < g.mtime))).length
    · have hmem : f.name ∈ (((dir.filter (fun f => keep f.name)).insertionSort
        (fun a b => b.mtime ≤ a.mtime)).drop cap).map (fun g => g.name) :=
        h1.mpr (h2.mpr ⟨hf, hk, hn⟩)
      rw [decide_eq_false (not_not.mpr hmem), hk, decide_eq_false (Nat.not_lt.mpr hn)]
      rfl
    · have hmem : f.name ∉ (((dir.filter (fun f => keep f.name)).insertionSort
        (fun a b => b.mtime ≤ a.mtime)).drop cap).map (fun g => g.name) :=
        fun h => hn (h2.mp (h1.mp h)).2.2
      rw [decide_eq_true hmem, hk, decide_eq_true (Nat.lt_of_not_le hn)]
      rfl
  · have hmem : f.name ∉ (((dir.filter (fun f => keep f.name)).insertionSort
        (fun a b => b.mtime ≤ a.mtime)).drop cap).map (fun g => g.name) :=
        fun h => hk (h2.mp (h1.mp h)).2.1
    rw [decide_eq_true hmem, Bool.not_eq_true _ |>.mp hk]
    rfl

/-- A list splits into the entries that pass a test and those that fail it. -/
theorem length_filter_add_length_filter_not {α : Type} (p : α → Bool) (l : List α) :
    (l.filter p).length + (l.filter (fun a => !p a)).length = l.length := by
  induction l with
  | nil => rfl
  | cons a t ih =>
      cases h : p a <;> simp [List.filter_cons, h] <;> omega

/-- The files of a sublisting `l` of the directory that bear the name of an unlinked
candidate are, up to order, the unlinked candidates that belong to `l`. -/
theorem length_filter_dropped (keep : String → Bool) (cap : Nat) (dir : Dir)
    (hnames : (dir.map (fun f => f.name)).Nodup)
    (htimes : ((dir.filter (fun f => keep f.name)).map (fun f => f.mtime)).Nodup)
    (l : List FileEntry) (hl : l.Nodup) (hsub : ∀ f, f ∈ l → f ∈ dir)
    (hall : ∀ f, f ∈ ((dir.filter (fun f => keep f.name)).insertionSort
        (fun a b => b.mtime ≤ a.mtime)).drop cap → f ∈ l) :
    (l.filter (fun f => !decide (f.name ∉ (((dir.filter (fun f => keep f.name)).insertionSort
        (fun a b => b.mtime ≤ a.mtime)).drop cap).map (fun g => g.name)))).length =
      (dir.filter (fun f => keep f.name)).length - cap := by
  have hnd : (((dir.filter (fun f => keep f.name)).insertionSort
      (fun a b => b.mtime ≤ a.mtime)).drop cap).Nodup := by
    have hc : (dir.filter (fun f => keep f.name)).Nodup :=
      (List.Nodup.of_map _ hnames).filter _
    have hs := (List.perm_insertionSort (fun a b : FileEntry => b.mtime ≤ a.mtime)
      (dir.filter (fun f => keep f.name))).nodup_iff.mpr hc
    exact hs.sublist (List.drop_sublist _ _)
  have hperm : List.Perm
      (l.filter (fun f => !decide (f.name ∉
        (((dir.filter (fun f => keep f.name)).insertionSort
          (fun a b => b.mtime ≤ a.mtime)).drop cap).map (fun g => g.name))))
      (((dir.filter (fun f => keep f.name)).insertionSort
        (fun a b => b.mtime ≤ a.mtime)).drop cap) := by
    rw [List.perm_ext_iff_of_nodup (hl.filter _) hnd]
    intro a
    rw [List.mem_filter]
    constructor
    · rintro ⟨hal, hp⟩
      have hmem : a.name ∈ (((dir.filter (fun f => keep f.name)).insertionSort
          (fun a b => b.mtime ≤ a.mtime)).drop cap).map (fun g => g.name) := by
        by_contra hcon
        rw [decide_eq_true hcon] at hp
        exact absurd hp (by decide)
      exact (name_mem_dropped_iff keep cap dir hnames htimes a (hsub a hal)).mp hmem
    · intro ha
      refine ⟨hall a ha, ?_⟩
      have hmem : a.name ∈ (((dir.filter (fun f => keep f.name)).insertionSort
          (fun a b => b.mtime ≤ a.mtime)).drop cap).map (fun g => g.name) :=
        List.mem_map.mpr ⟨a, ha, rfl⟩
      rw [decide_eq_false (not_not.mpr hmem)]
      rfl
  rw [hperm.length_eq, List.length_drop, List.length_insertionSort]

/-- The retention step removes the candidates beyond the cap and nothing else: with more
than `cap` candidates, exactly `cap` of them remain and the directory loses the others. -/
theorem pruneOldest_counts (keep : String → Bool) (cap : Nat) (dir : Dir)
    (hnames : (dir.map (fun f => f.name)).Nodup)
    (htimes : ((dir.filter (fun f => keep f.name)).map (fun f => f.mtime)).Nodup)
    (hM : cap < (dir.filter (fun f => keep f.name)).length) :
    ((pruneOldest keep cap dir).filter (fun f => keep f.name)).length = cap ∧
      (pruneOldest keep cap dir).length + ((dir.filter (fun f => keep f.name)).length - cap) =
        dir.length := by
  have hdir : dir.Nodup := List.Nodup.of_map _ hnames
  rw [pruneOldest_eq_foldl, foldl_unlinkSync]
  constructor
  · rw [List.filter_filter]
    have hcomm : dir.filter (fun a => keep a.name && decide (a.name ∉
        (((dir.filter (fun f => keep f.name)).insertionSort
          (fun a b => b.mtime ≤ a.mtime)).drop cap).map (fun g => g.name))) =
        (dir.filter (fun f => keep f.name)).filter (fun a => decide (a.name ∉
        (((dir.filter (fun f => keep f.name)).insertionSort
          (fun a b => b.mtime ≤ a.mtime)).drop cap).map (fun g => g.name))) := by
      rw [List.filter_filter]
      apply List.filter_congr
      intro x _
      exact Bool.and_comm _ _
    rw [hcomm]
    have h1 := length_filter_add_length_filter_not (fun a : FileEntry => decide (a.name ∉
        (((dir.filter (fun f => keep f.name)).insertionSort
          (fun a b => b.mtime ≤ a.mtime)).drop cap).map (fun g => g.name)))
        (dir.filter (fun f => keep f.name))
    have h2 := length_filter_dropped keep cap dir hnames htimes
      (dir.filter (fun f => keep f.name)) (hdir.filter _)
      (fun f hf => (List.mem_filter.mp hf).1)
      (fun f hf => by
        have := (mem_dropped_iff keep cap dir htimes f).mp hf
        exact List.mem_filter.mpr ⟨this.1, this.2.1⟩)
    omega
  · have h1 := length_filter_add_length_filter_not (fun a : FileEntry => decide (a.name ∉
        (((dir.filter (fun f => keep f.name)).insertionSort
          (fun a b => b.mtime ≤ a.mtime)).drop cap).map (fun g => g.name))) dir
    have h2 := length_filter_dropped keep cap dir hnames htimes dir hdir (fun f hf => hf)
      (fun f hf => ((mem_dropped_iff keep cap dir htimes f).mp hf).1)
    omega

/-- With no more than `cap` candidates the retention step deletes nothing. -/
theorem pruneOldest_of_le (keep : String → Bool) (cap : Nat) (dir : Dir)
    (hM : (dir.filter (fun f => keep f.name)).length ≤ cap) :
    pruneOldest keep cap dir = dir := by
  unfold pruneOldest
  simp only [List.length_insertionSort]
  rw [if_neg (by omega)]

end Retention

/-- C5. Count retention. Let the files of a directory have distinct names and the
candidates (`autosave_*.json` for `cleanupOldSaves` with cap 50, `backup_*.db` for
`cleanupOldBackups` with cap 30) distinct modification times, `M` candidates in all. Each
function keeps, in their order, the files that are not candidates and the candidates with
fewer than N newer candidates, that is the N most recently modified; with M ≤ N nothing is
deleted; with M > N exactly N candidates remain and the directory loses the other M − N. -/
theorem count_retention (saves backups : Dir)
    (hsn : (saves.map (fun f => f.name)).Nodup)
    (hst : ((saves.filter (fun f => startsAndEndsWith "autosave_" ".json" f.name)).map
      (fun f => f.mtime)).Nodup)
    (hbn : (backups.map (fun f => f.name)).Nodup)
    (hbt : ((backups.filter (fun f => startsAndEndsWith "backup_" ".db" f.name)).map
      (fun f => f.mtime)).Nodup) :
    (AutoSaveService.cleanupOldSaves saves =
        saves.filter (fun f => !startsAndEndsWith "autosave_" ".json" f.name ||
          decide (((saves.filter (fun f => startsAndEndsWith "autosave_" ".json" f.name)).filter
            (fun g => decide (f.mtime < g.mtime))).length < 50)) ∧
      ((saves.filter (fun f => startsAndEndsWith "autosave_" ".json" f.name)).length ≤ 50 →
        AutoSaveService.cleanupOldSaves saves = saves) ∧
      (50 < (saves.filter (fun f => startsAndEndsWith "autosave_" ".json" f.name)).length →
        ((AutoSaveService.cleanupOldSaves saves).filter
          (fun f => startsAndEndsWith "autosave_" ".json" f.name)).length = 50 ∧
        (AutoSaveService.cleanupOldSaves saves).length +
          ((saves.filter (fun f => startsAndEndsWith "autosave_" ".json" f.name)).length - 50) =
          saves.length)) ∧
    (DatabaseManager.cleanupOldBackups backups =
        backups.filter (fun f => !startsAndEndsWith "backup_" ".db" f.name ||
          decide (((backups.filter (fun f => startsAndEndsWith "backup_" ".db" f.name)).filter
            (fun g => decide (f.mtime < g.mtime))).length < 30)) ∧
      ((backups.filter (fun f => startsAndEndsWith "backup_" ".db" f.name)).length ≤ 30 →
        DatabaseManager.cleanupOldBackups backups = backups) ∧
      (30 < (backups.filter (fun f => startsAndEndsWith "backup_" ".db" f.name)).length →
        ((DatabaseManager.cleanupOldBackups backups).filter
          (fun f => startsAndEndsWith "backup_" ".db" f.name)).length = 30 ∧
        (DatabaseManager.cleanupOldBackups backups).length +
          ((backups.filter (fun f => startsAndEndsWith "backup_" ".db" f.name)).length - 30) =
          backups.length)) :=
  ⟨⟨pruneOldest_eq_filter _ 50 saves hsn hst, pruneOldest_of_le _ 50 saves,
     pruneOldest_counts _ 50 saves hsn hst⟩,
   ⟨pruneOldest_eq_filter _ 30 backups hbn hbt, pruneOldest_of_le _ 30 backups,
     pruneOldest_counts _ 30 backups hbn hbt⟩⟩

/-- Witness of C5: 52 snapshots and one other file, 32 backups; the two oldest of each kind
are deleted. -/
theorem count_retention_witness :
    (AutoSaveService.cleanupOldSaves Examples.manySaves).length + 2 =
        Examples.manySaves.length ∧
      (DatabaseManager.cleanupOldBackups Examples.manyBackups).length + 2 =
        Examples.manyBackups.length :=
  have h := count_retention Examples.manySaves Examples.manyBackups
    (by decide!) (by decide!) (by decide!) (by decide!)
  ⟨(h.1.2.2 (by decide!)).2, (h.2.2.2 (by decide!)).2⟩

namespace DatabaseManager

/-- The row `logBackupRecord` stores carries `success = 1` for every record whose flag is
0, 1 or unset. -/
theorem orNumber_zero_or_one (v : Option Int) (h : v = some 0 ∨ v = some 1 ∨ v = none) :
    orNumber v 1 = 1 := by
  rcases h with h | h | h <;> subst h <;> rfl

/-- C2. A failed attempt of `performBackup` (`backup.step` reports the error `err`) rejects
with `err` and appends exactly one row to `backup_records`; that row carries the error
message and the success flag 1, not 0: in `logBackupRecord` the expression
`record.success || 1` replaces the 0 of the failure by the default 1. -/
theorem failed_backup_recorded_as_success (a : Attempt) (err type : String) (s : State) :
    (performBackup { a with stepError := some err } type s).1 = .error err ∧
      ∃ row, (performBackup { a with stepError := some err } type s).2.table =
          s.table ++ [row] ∧
        row.success = 1 ∧ row.error_message = orNull (some err) ∧
        row.end_time = a.endTime := by
  refine ⟨rfl, _, rfl, rfl, rfl, rfl⟩

/-- A successful attempt of `performBackup` appends one row with the success flag 1 and no
error message. -/
theorem successful_backup_recorded (a : Attempt) (type : String) (s : State) :
    ∃ row, (performBackup { a with stepError := none } type s).2.table = s.table ++ [row] ∧
      row.success = 1 ∧ row.error_message = none :=
  ⟨_, rfl, rfl, rfl⟩

/-- The largest instant of a non-empty list belongs to it and bounds it. -/
theorem maxOf_spec (l : List Int) (m : Int) (h : maxOf l = some m) :
    m ∈ l ∧ ∀ x ∈ l, x ≤ m := by
  induction l generalizing m with
  | nil => simp [maxOf] at h
  | cons t ts ih =>
      unfold maxOf at h
      cases hts : maxOf ts with
      | none =>
          rw [hts] at h
          cases h
          cases ts with
          | nil => simp
          | cons u us =>
              unfold maxOf at hts
              cases hus : maxOf us <;> simp [hus] at hts
      | some m' =>
          rw [hts] at h
          cases h
          obtain ⟨hm, hb⟩ := ih m' hts
          constructor
          · rcases le_total t m' with hle | hle
            · rw [max_eq_right hle]
              exact List.mem_cons_of_mem _ hm
            · rw [max_eq_left hle]
              exact List.mem_cons_self _ _
          · intro x hx
            rcases List.mem_cons.mp hx with rfl | hx
            · exact le_max_left _ _
            · exact le_trans (hb x hx) (le_max_right _ _)

/-- The largest instant is undefined only for the empty list. -/
theorem maxOf_eq_none (l : List Int) (h : maxOf l = none) : l = [] := by
  cases l with
  | nil => rfl
  | cons t ts =>
      unfold maxOf at h
      cases hts : maxOf ts <;> simp [hts] at h

/-- The due check on a clock that reads more than 24 h after the epoch: a backup is
triggered exactly when no row of `backup_records` has `success = 1`, or the latest end time
of such a row is more than 24 h before `now`. -/
theorem checkAndPerformBackup_triggers_iff (now : Int) (a : Attempt) (s : State)
    (hclock : 24 * 3600000 < now) :
    (checkAndPerformBackup now a s).1.isSome = true ↔
      ((∀ r ∈ s.table, r.success ≠ 1) ∨
        ∃ r ∈ s.table, r.success = 1 ∧
          (∀ r' ∈ s.table, r'.success = 1 → r'.end_time ≤ r.end_time) ∧
          now - r.end_time > 24 * 3600000) := by
  have htrig : (checkAndPerformBackup now a s).1.isSome = true ↔
      now - newDate (maxOf ((s.table.filter (fun r => r.success == 1)).map
        (fun r => r.end_time))) > 24 * 3600000 := by
    unfold checkAndPerformBackup getLastBackupTime selectLastBackup backupDue
    simp only [decide_eq_true_eq]
    split <;> simp_all
  rw [htrig]
  cases hmax : maxOf ((s.table.filter (fun r => r.success == 1)).map (fun r => r.end_time)) with
  | none =>
      have hnil := maxOf_eq_none _ hmax
      have hno : ∀ r ∈ s.table, r.success ≠ 1 := by
        intro r hr hs
        have : r.end_time ∈ (s.table.filter (fun r => r.success == 1)).map
            (fun r => r.end_time) :=
          List.mem_map.mpr ⟨r, List.mem_filter.mpr ⟨hr, by simpa using hs⟩, rfl⟩
        rw [hnil] at this
        cases this
      simp only [newDate]
      constructor
      · intro _
        exact Or.inl hno
      · intro _
        omega
  | some m =>
      obtain ⟨hm, hb⟩ := maxOf_spec _ m hmax
      obtain ⟨r0, hr0, hr0m⟩ := List.mem_map.mp hm
      rw [List.mem_filter] at hr0
      have hs0 : r0.success = 1 := by simpa using hr0.2
      simp only [newDate]
      constructor
      · intro h
        refine Or.inr ⟨r0, hr0.1, hs0, ?_, by rw [hr0m]; exact h⟩
        intro r' hr' hs'
        rw [hr0m]
        exact hb _ (List.mem_map.mpr ⟨r', List.mem_filter.mpr ⟨hr', by simpa using hs'⟩, rfl⟩)
      · rintro (hno | ⟨r, hr, hs, hmaxr, hlate⟩)
        · exact absurd hs0 (hno r0 hr0.1)
        · have h1 : r.end_time ≤ m :=
            hb _ (List.mem_map.mpr ⟨r, List.mem_filter.mpr ⟨hr, by simpa using hs⟩, rfl⟩)
          have h2 : m ≤ r.end_time := by
            rw [← hr0m]
            exact hmaxr r0 hr0.1 hs0
          omega

/-- C10. With an empty table `backup_records` and a clock that reads exactly 24 h after the
epoch, `checkAndPerformBackup` triggers no backup and leaves the state as it is: the
aggregate query returns a row whose `last_backup` is NULL, `new Date(null)` is the epoch,
so `lastBackup` is never null and the guard compares `now` with the epoch. -/
theorem backup_not_triggered_on_empty_table (a : Attempt) (backups : Dir) :
    getLastBackupTime [] = some 0 ∧
      checkAndPerformBackup (24 * 3600000) a { table := [], backups := backups } =
        (none, { table := [], backups := backups }) :=
  ⟨rfl, rfl⟩

/-- After a failed attempt on an empty table, logged with the success flag 1, the due check
one hour later triggers no backup although no backup has succeeded. -/
theorem failed_backup_suppresses_due_check (a b : Attempt) (err : String) (backups : Dir) :
    (checkAndPerformBackup (a.endTime + 3600000) b
      (performBackup { a with stepError := some err } "auto"
        { table := [], backups := backups }).2).1 = none := by
  simp [checkAndPerformBackup, performBackup, logBackupRecord, getLastBackupTime,
    selectLastBackup, orNumber, maxOf, newDate, backupDue]

end DatabaseManager

namespace FilePreviewManager

/-- The method `cleanupOrphanedFiles` deletes nothing: on an empty directory there is
nothing to delete, on any other the first iteration throws the `ReferenceError`, which the
`catch` logs. -/
theorem cleanupOrphanedFiles_eq (dir : Dir) : cleanupOrphanedFiles dir = dir := by
  cases dir with
  | nil => rfl
  | cons f rest => rfl

/-- C3. A preview cache of two recent files of 70MB and 60MB totals more than
`maxCacheSize`; `cleanupOrphanedFiles` returns it unchanged, so the remaining total is
above 0.8 × `maxCacheSize`. -/
theorem oversized_cache_not_evicted :
    maxCacheSize < Dir.totalSize Examples.oversizedCache ∧
      cleanupOrphanedFiles Examples.oversizedCache = Examples.oversizedCache ∧
      ¬ (10 * (cleanupOrphanedFiles Examples.oversizedCache).totalSize ≤ 8 * maxCacheSize) := by
  refine ⟨by decide, cleanupOrphanedFiles_eq _, ?_⟩
  rw [cleanupOrphanedFiles_eq]
  decide

/-- C4. A preview cache holds one file last written at the epoch; for a sweep at any instant
more than 7 days later (8 days here) the file is older than the ceiling, and
`cleanupOrphanedFiles` leaves it in the directory. -/
theorem stale_file_survives_sweep :
    (∀ f ∈ Examples.staleCache, (8 * 24 * 3600000 : Int) - f.mtime > 7 * 24 * 3600000) ∧
      cleanupOrphanedFiles Examples.staleCache = Examples.staleCache ∧
      Examples.staleCache ≠ [] := by
  refine ⟨by decide, cleanupOrphanedFiles_eq _, by decide⟩

end FilePreviewManager

/-! ### The sweep of the disk tier, had `now` been bound -/

namespace FilePreviewManager

/-- The total size does not depend on the order of the listing. -/
theorem totalSize_perm (d d' : Dir) (h : List.Perm d d') :
    Dir.totalSize d = Dir.totalSize d' := by
  unfold Dir.totalSize
  exact (h.map (fun f : FileEntry => f.size)).sum_eq

/-- Unlinking the first file of a listing with distinct names leaves the others. -/
theorem unlinkSync_perm (d rest : Dir) (f : FileEntry) (hperm : List.Perm d (f :: rest))
    (hn : (d.map (fun g => g.name)).Nodup) : List.Perm (Dir.unlinkSync d f.name) rest := by
  have hn2 : ((f :: rest).map (fun g => g.name)).Nodup := (hperm.map _).nodup_iff.mp hn
  rw [List.map_cons, List.nodup_cons] at hn2
  have h1 : List.Perm (d.filter (fun g => g.name != f.name))
      ((f :: rest).filter (fun g => g.name != f.name)) := hperm.filter _
  have h2 : (f :: rest).filter (fun g => g.name != f.name) = rest := by
    rw [List.filter_cons_of_neg (by simp)]
    rw [List.filter_eq_self]
    intro g hg
    have : g.name ≠ f.name := fun he => hn2.1 (List.mem_map.mpr ⟨g, hg, he⟩)
    simpa using this
  rw [h2] at h1
  exact h1

/-- The loop of `cleanupBySize` ends within the target when every deletion succeeds. -/
theorem cleanupBySizeLoop_within (rest : List FileEntry) :
    ∀ (cur : Nat) (d : Dir), List.Perm d rest → (d.map (fun g => g.name)).Nodup →
      Dir.totalSize d = cur → withinTarget (cleanupBySizeLoop rest cur d).totalSize = true := by
  induction rest with
  | nil =>
      intro cur d hperm _ _
      rw [List.Perm.eq_nil hperm]
      rfl
  | cons f r ih =>
      intro cur d hperm hn hcur
      unfold cleanupBySizeLoop
      by_cases hw : withinTarget cur = true
      · rw [if_pos hw, hcur]
        exact hw
      · rw [if_neg hw]
        have hp := unlinkSync_perm d r f hperm hn
        apply ih _ _ hp
        · exact (List.filter_sublist d).map _ |>.nodup hn
        · have h1 := totalSize_perm _ _ hperm
          have h2 := totalSize_perm _ _ hp
          rw [h2, ← hcur, h1]
          simp [Dir.totalSize]

/-- The method `cleanupBySize` on a listing with distinct names leaves at most
0.8 × `maxCacheSize`. -/
theorem cleanupBySize_within (dir : Dir) (hn : (dir.map (fun g => g.name)).Nodup) :
    10 * (cleanupBySize dir).totalSize ≤ 8 * maxCacheSize := by
  have hperm := List.perm_insertionSort (fun a b : FileEntry => a.mtime ≤ b.mtime) dir
  have h := cleanupBySizeLoop_within (dir.insertionSort (fun a b => a.mtime ≤ b.mtime))
    (Dir.totalSize (dir.insertionSort (fun a b => a.mtime ≤ b.mtime))) dir
    hperm.symm hn (totalSize_perm _ _ hperm.symm)
  unfold cleanupBySize
  simpa [withinTarget, Dir.totalSize] using h

/-- The loop of `cleanupBySize` only removes files. -/
theorem mem_of_mem_cleanupBySizeLoop (rest : List FileEntry) :
    ∀ (cur : Nat) (d : Dir) (g : FileEntry), g ∈ cleanupBySizeLoop rest cur d → g ∈ d := by
  induction rest with
  | nil => intro cur d g h; exact h
  | cons f r ih =>
      intro cur d g h
      unfold cleanupBySizeLoop at h
      by_cases hw : withinTarget cur = true
      · rw [if_pos hw] at h
        exact h
      · rw [if_neg hw] at h
        exact List.mem_of_mem_filter (ih _ _ g h)

/-- With `now` bound and no file older than 7 days, the first loop deletes nothing and adds
up the sizes. -/
theorem sweepLoop_fresh (now : Int) (files : List FileEntry)
    (hfresh : ∀ f ∈ files, ¬ (now - f.mtime > 7 * 24 * 3600000)) :
    ∀ (d : Dir) (total : Nat),
      sweepLoop (.ok now) files d total = (d, .ok (total + Dir.totalSize files)) := by
  induction files with
  | nil => intro d total; simp [sweepLoop, Dir.totalSize]
  | cons f r ih =>
      intro d total
      unfold sweepLoop
      simp only
      rw [if_neg (hfresh f (List.mem_cons_self _ _))]
      rw [ih (fun g hg => hfresh g (List.mem_cons_of_mem _ hg))]
      simp [Dir.totalSize, Nat.add_assoc]

/-- With `now` bound, a file left by the first loop is a file of the directory whose name
is not that of a listed file older than 7 days. -/
theorem mem_sweepLoop (now : Int) (files : List FileEntry) :
    ∀ (d : Dir) (total : Nat) (g : FileEntry),
      g ∈ (sweepLoop (.ok now) files d total).1 →
        g ∈ d ∧ ∀ f ∈ files, now - f.mtime > 7 * 24 * 3600000 → g.name ≠ f.name := by
  induction files with
  | nil =>
      intro d total g h
      exact ⟨h, fun f hf => absurd hf (List.not_mem_nil f)⟩
  | cons f r ih =>
      intro d total g h
      unfold sweepLoop at h
      simp only at h
      by_cases hold : now - f.mtime > 7 * 24 * 3600000
      · rw [if_pos hold] at h
        obtain ⟨hg, hrest⟩ := ih _ _ g h
        have hgf := List.mem_filter.mp hg
        refine ⟨hgf.1, ?_⟩
        intro f' hf' hold'
        rcases List.mem_cons.mp hf' with rfl | hf'r
        · simpa using hgf.2
        · exact hrest f' hf'r hold'
      · rw [if_neg hold] at h
        obtain ⟨hg, hrest⟩ := ih _ _ g h
        refine ⟨hg, ?_⟩
        intro f' hf' hold'
        rcases List.mem_cons.mp hf' with rfl | hf'r
        · exact absurd hold' hold
        · exact hrest f' hf'r hold'

/-- The property of C3 for the body of `cleanupOrphanedFiles` with `now` bound to the sweep
instant: a directory with distinct names, no file older than 7 days and a total above
`maxCacheSize` is brought down to at most 0.8 × `maxCacheSize`. -/
theorem size_bound_with_now_bound (now : Int) (dir : Dir)
    (hn : (dir.map (fun g => g.name)).Nodup)
    (hfresh : ∀ f ∈ dir, ¬ (now - f.mtime > 7 * 24 * 3600000))
    (hS : maxCacheSize < Dir.totalSize dir) :
    10 * (cleanupOrphanedFilesWith (.ok now) dir).totalSize ≤ 8 * maxCacheSize := by
  unfold cleanupOrphanedFilesWith
  rw [sweepLoop_fresh now dir hfresh dir 0]
  simp only [Nat.zero_add]
  rw [if_pos hS]
  exact cleanupBySize_within dir hn

/-- The property of C4 for the body of `cleanupOrphanedFiles` with `now` bound to the sweep
instant: no file older than 7 days remains. -/
theorem age_ceiling_with_now_bound (now : Int) (dir : Dir) (g : FileEntry)
    (hg : g ∈ cleanupOrphanedFilesWith (.ok now) dir) :
    ¬ (now - g.mtime > 7 * 24 * 3600000) := by
  unfold cleanupOrphanedFilesWith at hg
  have key : g ∈ (sweepLoop (.ok now) dir dir 0).1 := by
    rcases hsl : sweepLoop (.ok now) dir dir 0 with ⟨d', r⟩
    rw [hsl] at hg
    cases r with
    | error e => exact hg
    | ok total =>
        simp only at hg
        by_cases ht : total > maxCacheSize
        · rw [if_pos ht] at hg
          exact mem_of_mem_cleanupBySizeLoop _ _ _ g hg
        · rw [if_neg ht] at hg
          exact hg
  obtain ⟨hgd, hne⟩ := mem_sweepLoop now dir dir 0 g key
  intro hold
  exact hne g hgd hold rfl

end FilePreviewManager

/-! ### The two tiers of the preview cache -/

namespace FilePreviewManager

/-- A key just set is found with its value. -/
theorem mapGet_mapSet (key : String) (value : MemoryEntry) (m : MemoryTier) :
    mapGet key (mapSet key value m) = some value := by
  induction m with
  | nil => simp [mapSet, mapGet]
  | cons e rest ih =>
      obtain ⟨k, v⟩ := e
      by_cases h : k = key
      · simp [mapSet, mapGet, h]
      · simp [mapSet, mapGet, h, ih]

/-- A file that `readFileSync` can read exists. -/
theorem existsSync_of_read (dir : Dir) (name text : String)
    (h : dir.readFileSync name = some text) : dir.existsSync name = true := by
  unfold Dir.readFileSync at h
  unfold Dir.existsSync
  cases hf : dir.find? (fun f => f.name == name) with
  | none => simp [hf] at h
  | some f =>
      have hmem := List.mem_of_find?_eq_some hf
      have hp := List.find?_some hf
      exact List.any_eq_true.mpr ⟨f, hmem, hp⟩

/-- The method `checkDiskCache` on a cache file that parses to a document with a numeric
timestamp. -/
theorem checkDiskCache_entry (parse : String → Option Json) (now T : Int) (previewDir : Dir)
    (fileKey text : String) (kvs : List (String × Json))
    (hfile : previewDir.readFileSync (fileKey ++ ".json") = some text)
    (hparse : parse text = some (.obj kvs))
    (hts : Json.lookup "timestamp" kvs = some (.num T)) :
    checkDiskCache parse now previewDir fileKey =
      if now - T < 24 * 3600000 then Json.lookup "preview" kvs else some .null := by
  have hex := existsSync_of_read _ _ _ hfile
  unfold checkDiskCache
  simp only [hex, hfile, hparse, Json.getProp, hts, minus, lessThan, if_true]
  by_cases h : now - T < 24 * 3600000 <;> simp [h]

/-- C12. TTL boundary per tier. With an entry `⟨p, T⟩` under the key, the memory-tier lookup
of `generatePreview` at instant `now` yields `p` exactly when `now - T < 3600000`; with a
cache file that parses to a document stamped `T'` whose preview is the object `q`,
`checkDiskCache` returns `q` exactly when `now - T' < 24 * 3600000`, and it returns `null`
when the file is missing or does not parse. So in each tier an entry stamped at `T` is a
hit at `T + TTL - 1` and a miss at `T + TTL` and at `T + TTL + 1`. -/
theorem ttl_boundary (parse : String → Option Json) (cacheKey fileKey text : String)
    (previewCache : MemoryTier) (previewDir : Dir) (p : Json) (T T' : Int)
    (kvs q : List (String × Json))
    (hmem : mapGet cacheKey previewCache = some { data := p, timestamp := T })
    (hfile : previewDir.readFileSync (fileKey ++ ".json") = some text)
    (hparse : parse text = some (.obj kvs))
    (hts : Json.lookup "timestamp" kvs = some (.num T'))
    (hprev : Json.lookup "preview" kvs = some (.obj q)) :
    (∀ now, memoryLookup now cacheKey previewCache = some p ↔ now - T < 3600000) ∧
    (∀ now, ¬ (now - T < 3600000) → memoryLookup now cacheKey previewCache = none) ∧
    (∀ now, checkDiskCache parse now previewDir fileKey = some (.obj q) ↔
      now - T' < 24 * 3600000) ∧
    (∀ now, ¬ (now - T' < 24 * 3600000) →
      checkDiskCache parse now previewDir fileKey = some .null) ∧
    (∀ now (dir : Dir), dir.existsSync (fileKey ++ ".json") = false →
      checkDiskCache parse now dir fileKey = some .null) ∧
    (∀ now (dir : Dir) (t : String), dir.readFileSync (fileKey ++ ".json") = some t →
      parse t = none → checkDiskCache parse now dir fileKey = some .null) ∧
    (memoryLookup (T + 3600000 - 1) cacheKey previewCache = some p ∧
      memoryLookup (T + 3600000) cacheKey previewCache = none ∧
      memoryLookup (T + 3600000 + 1) cacheKey previewCache = none) ∧
    (checkDiskCache parse (T' + 24 * 3600000 - 1) previewDir fileKey = some (.obj q) ∧
      checkDiskCache parse (T' + 24 * 3600000) previewDir fileKey = some .null ∧
      checkDiskCache parse (T' + 24 * 3600000 + 1) previewDir fileKey = some .null) := by
  have hm : ∀ now, memoryLookup now cacheKey previewCache =
      if now - T < 3600000 then some p else none := by
    intro now
    simp [memoryLookup, hmem]
  have hd : ∀ now, checkDiskCache parse now previewDir fileKey =
      if now - T' < 24 * 3600000 then some (.obj q) else some .null := by
    intro now
    rw [checkDiskCache_entry parse now T' previewDir fileKey text kvs hfile hparse hts, hprev]
  refine ⟨?_, ?_, ?_, ?_, ?_, ?_, ⟨?_, ?_, ?_⟩, ⟨?_, ?_, ?_⟩⟩
  · intro now
    rw [hm]
    by_cases h : now - T < 3600000 <;> simp [h]
  · intro now h
    rw [hm, if_neg h]
  · intro now
    rw [hd]
    by_cases h : now - T' < 24 * 3600000 <;> simp [h]
  · intro now h
    rw [hd, if_neg h]
  · intro now dir h
    simp [checkDiskCache, h]
  · intro now dir t hr hp
    have hex := existsSync_of_read _ _ _ hr
    simp [checkDiskCache, hex, hr, hp]
  · rw [hm, if_pos (by omega)]
  · rw [hm, if_neg (by omega)]
  · rw [hm, if_neg (by omega)]
  · rw [hd, if_pos (by omega)]
  · rw [hd, if_neg (by omega)]
  · rw [hd, if_neg (by omega)]

/-- Witness of C12: the two tiers after the first derivation for the example request, the
memory entry stamped 1001 and the cache file stamped 1002. -/
theorem ttl_boundary_witness :
    (memoryLookup (1001 + 3600000 - 1) (Examples.requestKey ++ "_" ++ "{}")
        Examples.warmCache.previewCache = some Examples.previewA ∧
      memoryLookup (1001 + 3600000) (Examples.requestKey ++ "_" ++ "{}")
        Examples.warmCache.previewCache = none ∧
      memoryLookup (1001 + 3600000 + 1) (Examples.requestKey ++ "_" ++ "{}")
        Examples.warmCache.previewCache = none) ∧
    (checkDiskCache JsonText.jsonParse (1002 + 24 * 3600000 - 1)
        Examples.warmCache.previewDir Examples.requestKey =
        some (.obj [("type", .str "image"), ("fileSize", .num 3)]) ∧
      checkDiskCache JsonText.jsonParse (1002 + 24 * 3600000)
        Examples.warmCache.previewDir Examples.requestKey = some .null ∧
      checkDiskCache JsonText.jsonParse (1002 + 24 * 3600000 + 1)
        Examples.warmCache.previewDir Examples.requestKey = some .null) :=
  have h := ttl_boundary JsonText.jsonParse (Examples.requestKey ++ "_" ++ "{}")
    Examples.requestKey
    ((Json.obj [("preview", Examples.previewA), ("timestamp", .num 1002),
      ("options", .obj [])]).pretty "")
    Examples.warmCache.previewCache Examples.warmCache.previewDir Examples.previewA 1001 1002
    [("preview", Examples.previewA), ("timestamp", .num 1002), ("options", .obj [])]
    [("type", .str "image"), ("fileSize", .num 3)]
    (by rfl) (by rfl) (by rfl) (by rfl) (by rfl)
  ⟨h.2.2.2.2.2.2.1, h.2.2.2.2.2.2.2⟩

/-- The call of `generatePreview` when the memory tier has a valid entry. -/
theorem generatePreview_memory_hit (md5 : String → String) (parse : String → Option Json)
    (run : Run) (req : Request) (cache : Cache) (fileKey : String) (p : Json)
    (hkey : getFileKey md5 req.filePath req.stats = .ok fileKey)
    (hmem : memoryLookup run.clock.memoryCheck (fileKey ++ "_" ++ req.options.stringify)
      cache.previewCache = some p) :
    generatePreview md5 parse run req cache =
      { result := .ok p, cache := cache, effects := [] } := by
  simp [generatePreview, hkey, hmem]

/-- The call of `generatePreview` when the memory tier has no valid entry and the disk tier
holds a valid object payload. -/
theorem generatePreview_disk_hit (md5 : String → String) (parse : String → Option Json)
    (run : Run) (req : Request) (cache : Cache) (fileKey : String)
    (q : List (String × Json))
    (hkey : getFileKey md5 req.filePath req.stats = .ok fileKey)
    (hmem : memoryLookup run.clock.memoryCheck (fileKey ++ "_" ++ req.options.stringify)
      cache.previewCache = none)
    (hdisk : checkDiskCache parse run.clock.diskCheck cache.previewDir fileKey =
      some (.obj q)) :
    generatePreview md5 parse run req cache =
      promote run (fileKey ++ "_" ++ req.options.stringify) (.obj q) cache := by
  simp [generatePreview, hkey, hmem, hdisk, Json.truthy]

/-- The call of `generatePreview` when neither tier has a valid entry. -/
theorem generatePreview_miss (md5 : String → String) (parse : String → Option Json)
    (run : Run) (req : Request) (cache : Cache) (fileKey : String)
    (hkey : getFileKey md5 req.filePath req.stats = .ok fileKey)
    (hmem : memoryLookup run.clock.memoryCheck (fileKey ++ "_" ++ req.options.stringify)
      cache.previewCache = none)
    (hdisk : Json.truthy (checkDiskCache parse run.clock.diskCheck cache.previewDir
      fileKey) = false) :
    generatePreview md5 parse run req cache =
      deriveAndStore run req fileKey (fileKey ++ "_" ++ req.options.stringify) cache := by
  unfold generatePreview
  simp only [hkey, hmem]
  cases hc : checkDiskCache parse run.clock.diskCheck cache.previewDir fileKey with
  | none => rfl
  | some d =>
      rw [hc] at hdisk
      simp [hdisk]

/-- The renderer is invoked by `generatePreview` only when neither tier has a valid entry. -/
theorem rendererInvoked_only_on_miss (md5 : String → String) (parse : String → Option Json)
    (run : Run) (req : Request) (cache : Cache) (fileKey : String)
    (hkey : getFileKey md5 req.filePath req.stats = .ok fileKey)
    (h : Effect.rendererInvoked ∈ (generatePreview md5 parse run req cache).effects) :
    memoryLookup run.clock.memoryCheck (fileKey ++ "_" ++ req.options.stringify)
        cache.previewCache = none ∧
      Json.truthy (checkDiskCache parse run.clock.diskCheck cache.previewDir fileKey) =
        false := by
  cases hm : memoryLookup run.clock.memoryCheck (fileKey ++ "_" ++ req.options.stringify)
      cache.previewCache with
  | some p =>
      rw [generatePreview_memory_hit md5 parse run req cache fileKey p hkey hm] at h
      simp at h
  | none =>
      refine ⟨rfl, ?_⟩
      by_contra hd
      have hd : Json.truthy (checkDiskCache parse run.clock.diskCheck cache.previewDir
          fileKey) = true := by simpa using hd
      unfold generatePreview at h
      simp only [hkey, hm] at h
      cases hc : checkDiskCache parse run.clock.diskCheck cache.previewDir fileKey with
      | none =>
          rw [hc] at hd
          simp [Json.truthy] at hd
      | some d =>
          rw [hc] at hd h
          simp [hd, promote] at h

/-- C13. Tier order of `generatePreview`, for a request whose source file exists
(`getFileKey` yields `fileKey`). (1) With a valid memory entry the call returns its payload
and makes no access outside the memory tier. (2) Otherwise, with a valid object payload in
the disk tier, it returns that payload, puts it in the memory tier stamped with the
current instant, leaves the disk tier alone and does not invoke the renderer. (3) With no
valid entry in either tier the renderer is invoked, and (4) only then. (5) After a miss
whose derivation yields `p`, a second call for the same request whose memory check comes
less than one hour after the insertion returns `p` and makes no access outside the memory
tier. -/
theorem tier_order (md5 : String → String) (parse : String → Option Json)
    (run : Run) (req : Request) (cache : Cache) (fileKey : String)
    (hkey : getFileKey md5 req.filePath req.stats = .ok fileKey) :
    (∀ p, memoryLookup run.clock.memoryCheck (fileKey ++ "_" ++ req.options.stringify)
        cache.previewCache = some p →
      generatePreview md5 parse run req cache =
        { result := .ok p, cache := cache, effects := [] }) ∧
    (∀ q, memoryLookup run.clock.memoryCheck (fileKey ++ "_" ++ req.options.stringify)
        cache.previewCache = none →
      checkDiskCache parse run.clock.diskCheck cache.previewDir fileKey = some (.obj q) →
      (generatePreview md5 parse run req cache).result = .ok (.obj q) ∧
      (generatePreview md5 parse run req cache).cache.previewCache =
        mapSet (fileKey ++ "_" ++ req.options.stringify)
          { data := .obj q, timestamp := run.clock.memoryInsert } cache.previewCache ∧
      (generatePreview md5 parse run req cache).cache.previewDir = cache.previewDir ∧
      (generatePreview md5 parse run req cache).effects = [Effect.diskChecked]) ∧
    (memoryLookup run.clock.memoryCheck (fileKey ++ "_" ++ req.options.stringify)
        cache.previewCache = none →
      Json.truthy (checkDiskCache parse run.clock.diskCheck cache.previewDir fileKey) =
        false →
      Effect.rendererInvoked ∈ (generatePreview md5 parse run req cache).effects) ∧
    (Effect.rendererInvoked ∈ (generatePreview md5 parse run req cache).effects →
      memoryLookup run.clock.memoryCheck (fileKey ++ "_" ++ req.options.stringify)
        cache.previewCache = none ∧
      Json.truthy (checkDiskCache parse run.clock.diskCheck cache.previewDir fileKey) =
        false) ∧
    (∀ p (run2 : Run),
      memoryLookup run.clock.memoryCheck (fileKey ++ "_" ++ req.options.stringify)
        cache.previewCache = none →
      Json.truthy (checkDiskCache parse run.clock.diskCheck cache.previewDir fileKey) =
        false →
      run.derived = .ok p →
      run2.clock.memoryCheck - run.clock.memoryInsert < 3600000 →
      generatePreview md5 parse run2 req (generatePreview md5 parse run req cache).cache =
        { result := .ok p, cache := (generatePreview md5 parse run req cache).cache,
          effects := [] }) := by
  refine ⟨?_, ?_, ?_, ?_, ?_⟩
  · intro p hm
    exact generatePreview_memory_hit md5 parse run req cache fileKey p hkey hm
  · intro q hm hd
    rw [generatePreview_disk_hit md5 parse run req cache fileKey q hkey hm hd]
    exact ⟨rfl, rfl, rfl, rfl⟩
  · intro hm hd
    rw [generatePreview_miss md5 parse run req cache fileKey hkey hm hd]
    unfold deriveAndStore
    cases run.derived <;> simp
  · exact rendererInvoked_only_on_miss md5 parse run req cache fileKey hkey
  · intro p run2 hm hd hp hlt
    rw [generatePreview_miss md5 parse run req cache fileKey hkey hm hd]
    apply generatePreview_memory_hit md5 parse run2 req _ fileKey p hkey
    simp only [deriveAndStore, hp, memoryLookup, mapGet_mapSet]
    rw [if_pos hlt]

/-- Witness of C13: a miss on the empty cache followed half an hour later by a memory hit. -/
theorem tier_order_witness :
    (generatePreview Examples.hexDigest JsonText.jsonParse Examples.runOk Examples.request
        Examples.emptyCache).effects =
        [Effect.diskChecked, Effect.rendererInvoked, Effect.diskWriteAttempted] ∧
      generatePreview Examples.hexDigest JsonText.jsonParse Examples.runLater Examples.request
        (generatePreview Examples.hexDigest JsonText.jsonParse Examples.runOk Examples.request
          Examples.emptyCache).cache =
        { result := .ok Examples.previewA,
          cache := (generatePreview Examples.hexDigest JsonText.jsonParse Examples.runOk
            Examples.request Examples.emptyCache).cache,
          effects := [] } :=
  ⟨by rfl,
   (tier_order Examples.hexDigest JsonText.jsonParse Examples.runOk Examples.request
      Examples.emptyCache Examples.requestKey (by rfl)).2.2.2.2 Examples.previewA
      Examples.runLater (by rfl) (by rfl) (by rfl) (by decide)⟩

/-- C14. Best-effort put, for a request whose source file exists and no valid entry in
either tier. When the derivation yields `p` and the write of the cache file throws,
`saveToDiskCache` returns with the disk tier unchanged, `generatePreview` resolves to `p`
and the memory tier holds `p` under the key of the request. When the derivation throws,
`generatePreview` resolves to the error preview and both tiers are unchanged. -/
theorem best_effort_put (md5 : String → String) (parse : String → Option Json)
    (run : Run) (req : Request) (cache : Cache) (fileKey : String)
    (hkey : getFileKey md5 req.filePath req.stats = .ok fileKey)
    (hmem : memoryLookup run.clock.memoryCheck (fileKey ++ "_" ++ req.options.stringify)
      cache.previewCache = none)
    (hdisk : Json.truthy (checkDiskCache parse run.clock.diskCheck cache.previewDir
      fileKey) = false) :
    (∀ p, run.derived = .ok p → run.writeFails = true →
      saveToDiskCache run.clock.diskWrite run.writeFails fileKey p req.options
        cache.previewDir = cache.previewDir ∧
      (generatePreview md5 parse run req cache).result = .ok p ∧
      mapGet (fileKey ++ "_" ++ req.options.stringify)
        (generatePreview md5 parse run req cache).cache.previewCache =
        some { data := p, timestamp := run.clock.memoryInsert } ∧
      (generatePreview md5 parse run req cache).cache.previewDir = cache.previewDir) ∧
    (∀ message, run.derived = .error message →
      (generatePreview md5 parse run req cache).result =
        .ok (generateErrorPreview req.fileType message run.errorTimestamp) ∧
      (generatePreview md5 parse run req cache).cache = cache) := by
  rw [generatePreview_miss md5 parse run req cache fileKey hkey hmem hdisk]
  constructor
  · intro p hp hw
    simp [deriveAndStore, hp, hw, saveToDiskCache, mapGet_mapSet]
  · intro message hm
    simp [deriveAndStore, hm]

/-- Witness of C14: on the empty cache, a derivation whose disk write throws. -/
theorem best_effort_put_witness :
    (generatePreview Examples.hexDigest JsonText.jsonParse Examples.runWriteFails
        Examples.request Examples.emptyCache).result = .ok Examples.previewA ∧
      (generatePreview Examples.hexDigest JsonText.jsonParse Examples.runWriteFails
        Examples.request Examples.emptyCache).cache.previewDir = [] :=
  have h := (best_effort_put Examples.hexDigest JsonText.jsonParse Examples.runWriteFails
    Examples.request Examples.emptyCache Examples.requestKey (by rfl) (by rfl) (by rfl)).1
    Examples.previewA (by rfl) (by rfl)
  ⟨h.2.1, h.2.2.2⟩

end FilePreviewManager

namespace FilePreviewManager

/-- The stand-in digest writes hexadecimal digits only. -/
theorem hexDigit_ne_underscore (n : Nat) (h : n < 16) : Json.hexDigit n ≠ '_' := by
  interval_cases n <;> decide

/-- The stand-in digest holds no underscore. -/
theorem hexDigest_no_underscore (s : String) : '_' ∉ (Examples.hexDigest s).data := by
  unfold Examples.hexDigest
  simp only [List.mem_flatMap, not_exists, not_and]
  intro c _ hmem
  simp only [List.mem_cons, List.mem_singleton, List.not_mem_nil, or_false] at hmem
  rcases hmem with h | h
  · exact hexDigit_ne_underscore _ (Nat.mod_lt _ (by decide)) h.symm
  · exact hexDigit_ne_underscore _ (Nat.mod_lt _ (by decide)) h.symm

/-- The fingerprint read off a key of the memory tier is the one it was built from. -/
theorem fileKeyOf_cacheKey (fileKey options : String) (h : '_' ∉ fileKey.data) :
    fileKeyOf (fileKey ++ "_" ++ options) = fileKey := by
  unfold fileKeyOf
  have hd : (fileKey ++ "_" ++ options).data = fileKey.data ++ '_' :: options.data := by
    simp [String.data_append]
  rw [hd]
  have : ∀ (l r : List Char), '_' ∉ l →
      (l ++ '_' :: r).takeWhile (fun c => c != '_') = l := by
    intro l r hl
    induction l with
    | nil => simp [List.takeWhile]
    | cons a t ih =>
        have ha : a ≠ '_' := fun e => hl (e ▸ List.mem_cons_self _ _)
        have ht : '_' ∉ t := fun e => hl (List.mem_cons_of_mem _ e)
        have hb : (a != '_') = true := by simpa using ha
        simp [List.takeWhile, hb, ih ht]
  rw [this _ _ h]

/-- A file exists after `writeFileSync` when it existed before or is the file written. -/
theorem existsSync_writeFileSync (dir : Dir) (name content x : String) (now : Int) :
    (dir.writeFileSync name content now).existsSync x =
      (dir.existsSync x || x == name) := by
  unfold Dir.writeFileSync Dir.existsSync
  rw [Bool.eq_iff_iff]
  simp only [List.any_append, List.any_eq_true, List.mem_filter, Bool.or_eq_true, bne_iff_ne,
    ne_eq, beq_iff_eq, List.mem_singleton, exists_eq_left]
  constructor
  · rintro (⟨f, ⟨hf, _⟩, hfx⟩ | h)
    · exact Or.inl ⟨f, hf, hfx⟩
    · exact Or.inr h.symm
  · rintro (⟨f, hf, hfx⟩ | h)
    · by_cases hn : f.name = name
      · exact Or.inr (hn.symm.trans hfx)
      · exact Or.inl ⟨f, ⟨hf, hn⟩, hfx⟩
    · exact Or.inr h.symm

/-- A truthy result of `checkDiskCache` comes from an existing cache file. -/
theorem existsSync_of_checkDiskCache (parse : String → Option Json) (now : Int)
    (previewDir : Dir) (fileKey : String)
    (h : Json.truthy (checkDiskCache parse now previewDir fileKey) = true) :
    previewDir.existsSync (fileKey ++ ".json") = true := by
  by_contra hne
  have hf : previewDir.existsSync (fileKey ++ ".json") = false := by simpa using hne
  simp [checkDiskCache, hf, Json.truthy] at h

/-- A test that holds for every entry and for the one set holds after `Map.prototype.set`. -/
theorem all_mapSet (P : String × MemoryEntry → Bool) (key : String) (value : MemoryEntry)
    (m : MemoryTier) (hm : m.all P = true) (hk : P (key, value) = true) :
    (mapSet key value m).all P = true := by
  induction m with
  | nil => simp [mapSet, hk]
  | cons e rest ih =>
      obtain ⟨k, v⟩ := e
      simp only [List.all_cons, Bool.and_eq_true] at hm
      by_cases h : k = key
      · simp [mapSet, h, hk, hm.2]
      · simp only [mapSet, h, if_false, List.all_cons, Bool.and_eq_true]
        exact ⟨hm.1, ih hm.2⟩

/-- C15 (counterexample). With one memory entry and its cache file of 90MB the tier
invariant holds, and `cleanupBySize` deletes the file and leaves the memory entry; on the
empty cache the invariant holds, and a `generatePreview` whose disk write throws leaves a
memory entry without cache file. In both cases the invariant is broken afterwards. -/
theorem tier_invariant_broken :
    tierInvariant Examples.bigEntryCache = true ∧
      tierInvariant (cleanupBySizeOp Examples.bigEntryCache) = false ∧
      tierInvariant Examples.emptyCache = true ∧
      tierInvariant (generatePreview Examples.hexDigest JsonText.jsonParse
        Examples.runWriteFails Examples.request Examples.emptyCache).cache = false := by
  refine ⟨by decide!, by decide!, by decide!, by decide!⟩

/-- C15 (amended). The tier invariant is preserved by every call of `generatePreview` that
does not end in a failed disk write, by `cleanupExpiredCache` and by `cleanupAllCache`
(for a digest that writes no underscore, as a hexadecimal digest does). -/
theorem tier_invariant_preserved (md5 : String → String) (parse : String → Option Json)
    (hmd5 : ∀ s, '_' ∉ (md5 s).data) (cache : Cache)
    (hinv : tierInvariant cache = true) :
    (∀ (run : Run) (req : Request),
      (run.writeFails = false ∨
        Effect.diskWriteAttempted ∉ (generatePreview md5 parse run req cache).effects) →
      tierInvariant (generatePreview md5 parse run req cache).cache = true) ∧
    (∀ now, tierInvariant (cleanupExpiredCache now cache) = true) ∧
    tierInvariant (cleanupAllCache cache) = true := by
  refine ⟨?_, ?_, rfl⟩
  · intro run req hw
    cases hst : req.stats with
    | none => simpa [generatePreview, getFileKey, hst] using hinv
    | some st =>
        have hkey : getFileKey md5 req.filePath req.stats = .ok (md5 (fileInfo req.filePath st)) := by
          simp [getFileKey, hst]
        have hfk := fileKeyOf_cacheKey (md5 (fileInfo req.filePath st)) req.options.stringify
          (hmd5 _)
        cases hm : memoryLookup run.clock.memoryCheck
            (md5 (fileInfo req.filePath st) ++ "_" ++ req.options.stringify)
            cache.previewCache with
        | some p =>
            rw [generatePreview_memory_hit md5 parse run req cache _ p hkey hm]
            exact hinv
        | none =>
            by_cases hd : Json.truthy (checkDiskCache parse run.clock.diskCheck
                cache.previewDir (md5 (fileInfo req.filePath st))) = true
            · have hex := existsSync_of_checkDiskCache _ _ _ _ hd
              cases hc : checkDiskCache parse run.clock.diskCheck cache.previewDir
                  (md5 (fileInfo req.filePath st)) with
              | none => rw [hc] at hd; simp [Json.truthy] at hd
              | some d =>
                  rw [hc] at hd
                  have : generatePreview md5 parse run req cache =
                      promote run (md5 (fileInfo req.filePath st) ++ "_" ++
                        req.options.stringify) d cache := by
                    simp [generatePreview, hkey, hm, hc, hd]
                  rw [this]
                  unfold tierInvariant promote
                  simp only
                  apply all_mapSet _ _ _ _ hinv
                  simp only [hfk]
                  exact hex
            · have hd : Json.truthy (checkDiskCache parse run.clock.diskCheck
                  cache.previewDir (md5 (fileInfo req.filePath st))) = false := by
                simpa using hd
              rw [generatePreview_miss md5 parse run req cache _ hkey hm hd] at hw ⊢
              unfold deriveAndStore at hw ⊢
              cases hder : run.derived with
              | error e => simpa [hder] using hinv
              | ok p =>
                  simp only [hder] at hw ⊢
                  have hwf : run.writeFails = false := by
                    rcases hw with h | h
                    · exact h
                    · simp at h
                  have hsave : saveToDiskCache run.clock.diskWrite run.writeFails
                      (md5 (fileInfo req.filePath st)) p req.options cache.previewDir =
                      cache.previewDir.writeFileSync (md5 (fileInfo req.filePath st) ++ ".json")
                        ((Json.obj [("preview", p), ("timestamp", .num run.clock.diskWrite),
                          ("options", req.options)]).pretty "") run.clock.diskWrite := by
                    simp [saveToDiskCache, hwf]
                  unfold tierInvariant
                  simp only [hsave]
                  apply all_mapSet
                  · unfold tierInvariant at hinv
                    rw [List.all_eq_true] at hinv ⊢
                    intro e he
                    rw [existsSync_writeFileSync, hinv e he]
                    rfl
                  · simp only [hfk, existsSync_writeFileSync]
                    simp
  · intro now
    unfold tierInvariant at hinv ⊢
    unfold cleanupExpiredCache
    simp only
    rw [List.all_eq_true] at hinv ⊢
    intro e he
    exact hinv e (List.mem_of_mem_filter he)

/-- Witness of C15 (amended): the first derivation on the empty cache, disk write
succeeding. -/
theorem tier_invariant_preserved_witness :
    tierInvariant (generatePreview Examples.hexDigest JsonText.jsonParse Examples.runOk
      Examples.request Examples.emptyCache).cache = true :=
  (tier_invariant_preserved Examples.hexDigest JsonText.jsonParse hexDigest_no_underscore
    Examples.emptyCache (by decide)).1 Examples.runOk Examples.request (Or.inl (by rfl))

end FilePreviewManager

/-! ### Eviction by size -/

namespace FilePreviewManager

/-- Unlinking a file of a listing with distinct names removes that entry and no other. -/
theorem unlinkSync_eq_filter_ne (d : Dir) (f : FileEntry) (hf : f ∈ d)
    (hn : (d.map (fun g => g.name)).Nodup) :
    Dir.unlinkSync d f.name = d.filter (fun g => decide (g ≠ f)) := by
  unfold Dir.unlinkSync
  apply List.filter_congr
  intro g hg
  by_cases hgf : g = f
  · subst hgf
    simp
  · have : g.name ≠ f.name := fun e => hgf (List.inj_on_of_nodup_map hn hg hf e)
    simp [this, hgf]

/-- The loop of `cleanupBySize` deletes a prefix of the list it walks: the shortest one
that brings the running total within the target. -/
theorem cleanupBySizeLoop_deletes_head (rest : List FileEntry) :
    ∀ (cur : Nat) (d : Dir), List.Perm d rest → (d.map (fun g => g.name)).Nodup →
      Dir.totalSize d = cur →
      ∃ k, k ≤ rest.length ∧
        cleanupBySizeLoop rest cur d = d.filter (fun g => decide (g ∉ rest.take k)) ∧
        (∀ j, j < k → withinTarget (cur - Dir.totalSize (rest.take j)) = false) := by
  induction rest with
  | nil =>
      intro cur d _ _ _
      exact ⟨0, Nat.le_refl _, by simp [cleanupBySizeLoop], fun j hj => absurd hj (Nat.not_lt_zero j)⟩
  | cons f r ih =>
      intro cur d hperm hn hcur
      unfold cleanupBySizeLoop
      by_cases hw : withinTarget cur = true
      · rw [if_pos hw]
        exact ⟨0, Nat.zero_le _, by simp, fun j hj => absurd hj (Nat.not_lt_zero j)⟩
      · rw [if_neg hw]
        have hfd : f ∈ d := hperm.symm.subset (List.mem_cons_self _ _)
        have hp := unlinkSync_perm d r f hperm hn
        have hn' : ((Dir.unlinkSync d f.name).map (fun g => g.name)).Nodup :=
          ((List.filter_sublist d).map _).nodup hn
        have htot : Dir.totalSize (Dir.unlinkSync d f.name) = cur - f.size := by
          have h1 := totalSize_perm _ _ hperm
          have h2 := totalSize_perm _ _ hp
          rw [h2, ← hcur, h1]
          simp [Dir.totalSize]
        obtain ⟨k, hk, hres, hmin⟩ := ih (cur - f.size) (Dir.unlinkSync d f.name) hp hn' htot
        refine ⟨k + 1, by simpa using hk, ?_, ?_⟩
        · rw [hres, unlinkSync_eq_filter_ne d f hfd hn, List.filter_filter]
          apply List.filter_congr
          intro g _
          simp only [List.take_succ_cons, List.mem_cons, not_or, Bool.decide_and,
            Bool.and_comm]
        · intro j hj
          cases j with
          | zero => simpa [Dir.totalSize] using hw
          | succ j' =>
              have := hmin j' (by omega)
              rw [List.take_succ_cons]
              have e : Dir.totalSize (f :: r.take j') = f.size + Dir.totalSize (r.take j') := by
                simp [Dir.totalSize]
              rw [e, Nat.sub_add_eq]
              exact this

/-- The listing sorted by `a.mtime - b.mtime` is strictly oldest first when the
modification times are distinct. -/
theorem sorted_oldest_first (dir : Dir) (ht : (dir.map (fun f => f.mtime)).Nodup) :
    (dir.insertionSort (fun a b => a.mtime ≤ b.mtime)).Pairwise
      (fun a b => a.mtime < b.mtime) := by
  haveI : IsTotal FileEntry (fun a b => a.mtime ≤ b.mtime) :=
    ⟨fun a b => le_total a.mtime b.mtime⟩
  haveI : IsTrans FileEntry (fun a b => a.mtime ≤ b.mtime) :=
    ⟨fun _ _ _ hab hbc => le_trans hab hbc⟩
  have hsorted := List.sorted_insertionSort (fun a b : FileEntry => a.mtime ≤ b.mtime) dir
  have hperm := List.perm_insertionSort (fun a b : FileEntry => a.mtime ≤ b.mtime) dir
  have hnd : ((dir.insertionSort (fun a b => a.mtime ≤ b.mtime)).map
      (fun f => f.mtime)).Nodup := (hperm.map _).nodup_iff.mpr ht
  rw [List.Nodup, List.pairwise_map] at hnd
  exact (List.Pairwise.and hsorted hnd).imp (fun h => lt_of_le_of_ne h.1 h.2)

/-- C16. Eviction order and minimality of `cleanupBySize`, for a listing with distinct
names and distinct modification times. There is an ordering `order` of the listing,
strictly oldest first, and a length `k` such that: the files deleted are exactly the first
`k` of `order`; the remaining total is at most 0.8 × `maxCacheSize`; removing a shorter
prefix of `order` does not bring the total to the target; no file is deleted while an
older file remains; and nothing is deleted when the total is already within the target. -/
theorem cleanupBySize_evicts_oldest_first (dir : Dir)
    (hn : (dir.map (fun g => g.name)).Nodup) (ht : (dir.map (fun f => f.mtime)).Nodup) :
    ∃ (order : List FileEntry) (k : Nat),
      List.Perm order dir ∧ order.Pairwise (fun a b => a.mtime < b.mtime) ∧
      k ≤ order.length ∧
      cleanupBySize dir = dir.filter (fun g => decide (g ∉ order.take k)) ∧
      10 * (cleanupBySize dir).totalSize ≤ 8 * maxCacheSize ∧
      (∀ j, j < k →
        ¬ (10 * (Dir.totalSize dir - Dir.totalSize (order.take j)) ≤ 8 * maxCacheSize)) ∧
      (∀ f ∈ dir, f ∉ cleanupBySize dir →
        ∀ g ∈ dir, g.mtime < f.mtime → g ∉ cleanupBySize dir) ∧
      (10 * Dir.totalSize dir ≤ 8 * maxCacheSize → cleanupBySize dir = dir) := by
  have hperm := List.perm_insertionSort (fun a b : FileEntry => a.mtime ≤ b.mtime) dir
  have hstrict := sorted_oldest_first dir ht
  obtain ⟨k, hk, hres, hmin⟩ := cleanupBySizeLoop_deletes_head
    (dir.insertionSort (fun a b => a.mtime ≤ b.mtime))
    (Dir.totalSize (dir.insertionSort (fun a b => a.mtime ≤ b.mtime))) dir
    hperm.symm hn (totalSize_perm _ _ hperm.symm)
  have hdef : cleanupBySize dir = cleanupBySizeLoop
      (dir.insertionSort (fun a b => a.mtime ≤ b.mtime))
      (Dir.totalSize (dir.insertionSort (fun a b => a.mtime ≤ b.mtime))) dir := rfl
  refine ⟨dir.insertionSort (fun a b => a.mtime ≤ b.mtime), k, hperm, hstrict, hk, ?_,
    cleanupBySize_within dir hn, ?_, ?_, ?_⟩
  · rw [hdef, hres]
  · intro j hj
    have := hmin j hj
    rw [totalSize_perm _ _ hperm] at this
    simpa [withinTarget] using this
  · intro f hf hfdel g hg hlt hgin
    rw [hdef, hres] at hfdel hgin
    have hfk : f ∈ (dir.insertionSort (fun a b => a.mtime ≤ b.mtime)).take k := by
      by_contra hc
      exact hfdel (List.mem_filter.mpr ⟨hf, by simpa using hc⟩)
    have hgk : g ∉ (dir.insertionSort (fun a b => a.mtime ≤ b.mtime)).take k := by
      simpa using (List.mem_filter.mp hgin).2
    have hgs : g ∈ dir.insertionSort (fun a b => a.mtime ≤ b.mtime) := hperm.mem_iff.mpr hg
    rw [← List.take_append_drop k (dir.insertionSort (fun a b => a.mtime ≤ b.mtime))] at hgs hstrict
    have hgd : g ∈ (dir.insertionSort (fun a b => a.mtime ≤ b.mtime)).drop k := by
      rcases List.mem_append.mp hgs with h | h
      · exact absurd h hgk
      · exact h
    have := (List.pairwise_append.mp hstrict).2.2 f hfk g hgd
    omega
  · intro hw
    rw [hdef]
    cases hs : dir.insertionSort (fun a b => a.mtime ≤ b.mtime) with
    | nil => rfl
    | cons a t =>
        unfold cleanupBySizeLoop
        rw [← hs, totalSize_perm _ _ hperm, if_pos (by simpa [withinTarget] using hw)]

/-- Witness of C16: of three files of 50MB, 40MB and 30MB, the largest the oldest, only the
oldest is deleted. -/
theorem cleanupBySize_evicts_oldest_first_witness :
    (∃ (order : List FileEntry) (k : Nat),
      List.Perm order Examples.threeFiles ∧
      order.Pairwise (fun a b => a.mtime < b.mtime) ∧ k ≤ order.length ∧
      cleanupBySize Examples.threeFiles =
        Examples.threeFiles.filter (fun g => decide (g ∉ order.take k)) ∧
      10 * (cleanupBySize Examples.threeFiles).totalSize ≤ 8 * maxCacheSize ∧
      (∀ j, j < k → ¬ (10 * (Dir.totalSize Examples.threeFiles -
        Dir.totalSize (order.take j)) ≤ 8 * maxCacheSize)) ∧
      (∀ f ∈ Examples.threeFiles, f ∉ cleanupBySize Examples.threeFiles →
        ∀ g ∈ Examples.threeFiles, g.mtime < f.mtime →
          g ∉ cleanupBySize Examples.threeFiles) ∧
      (10 * Dir.totalSize Examples.threeFiles ≤ 8 * maxCacheSize →
        cleanupBySize Examples.threeFiles = Examples.threeFiles)) ∧
    (cleanupBySize Examples.threeFiles).map (fun f => f.name) = ["k2.json", "k3.json"] :=
  ⟨cleanupBySize_evicts_oldest_first Examples.threeFiles (by decide) (by decide),
   by decide⟩

end FilePreviewManager

/-! ### The directory checksum -/

namespace AutoSaveService

/-- The contributions of the entries of a directory, entry by entry. -/
theorem contributions_eq_map (hash : String → String) (le : String → String → Bool)
    (entries : List (String × FsNode)) :
    contributions hash le entries =
      entries.map (fun e => (e.1, contribution hash le e.2)) := by
  induction entries with
  | nil => simp [contributions]
  | cons e rest ih =>
      obtain ⟨name, node⟩ := e
      simp [contributions, ih]

/-- The text hashed for a directory does not depend on the order in which its entries, of
distinct names, are enumerated. -/
theorem hashInput_perm (le : String → String → Bool)
    (htotal : ∀ a b, le a b = true ∨ le b a = true)
    (htrans : ∀ a b c, le a b = true → le b c = true → le a c = true)
    (hanti : ∀ a b, le a b = true → le b a = true → a = b)
    (l₁ l₂ : List (String × String)) (hperm : List.Perm l₁ l₂)
    (hn : (l₁.map (fun e => e.1)).Nodup) :
    hashInput le l₁ = hashInput le l₂ := by
  haveI : IsTotal (String × String) (fun a b => le a.1 b.1 = true) :=
    ⟨fun a b => htotal a.1 b.1⟩
  haveI : IsTrans (String × String) (fun a b => le a.1 b.1 = true) :=
    ⟨fun a b c => htrans a.1 b.1 c.1⟩
  unfold hashInput
  have hp : List.Perm
      ((l₁.filter (fun e => notHidden e.1)).insertionSort (fun a b => le a.1 b.1 = true))
      ((l₂.filter (fun e => notHidden e.1)).insertionSort (fun a b => le a.1 b.1 = true)) :=
    ((List.perm_insertionSort _ _).trans (hperm.filter _)).trans
      (List.perm_insertionSort _ _).symm
  have heq := List.Perm.eq_of_sorted ?_
    (List.sorted_insertionSort (fun a b : String × String => le a.1 b.1 = true)
      (l₁.filter (fun e => notHidden e.1)))
    (List.sorted_insertionSort (fun a b : String × String => le a.1 b.1 = true)
      (l₂.filter (fun e => notHidden e.1))) hp
  · rw [heq]
  · intro a b ha hb hab hba
    have ha1 : a ∈ l₁ :=
      List.mem_of_mem_filter ((List.perm_insertionSort _ _).mem_iff.mp ha)
    have hb1 : b ∈ l₁ :=
      hperm.symm.subset (List.mem_of_mem_filter ((List.perm_insertionSort _ _).mem_iff.mp hb))
    exact List.inj_on_of_nodup_map hn ha1 hb1 (hanti _ _ hab hba)

/-- The names of the entries are those of their contributions. -/
theorem map_fst_contributions (hash : String → String) (le : String → String → Bool)
    (entries : List (String × FsNode)) :
    (contributions hash le entries).map (fun e => e.1) = entries.map (fun e => e.1) := by
  rw [contributions_eq_map, List.map_map]
  rfl

/-- Reordering inside the entries keeps their names. -/
theorem map_fst_reorderEntries (σ : List (String × FsNode) → List (String × FsNode))
    (entries : List (String × FsNode)) :
    (reorderEntries σ entries).map (fun e => e.1) = entries.map (fun e => e.1) := by
  induction entries with
  | nil => simp [reorderEntries]
  | cons e rest ih =>
      obtain ⟨name, node⟩ := e
      simp [reorderEntries, ih]

mutual
/-- An entry contributes the same whatever the order of enumeration inside it. -/
theorem contribution_reorder (hash : String → String) (le : String → String → Bool)
    (htotal : ∀ a b, le a b = true ∨ le b a = true)
    (htrans : ∀ a b c, le a b = true → le b c = true → le a c = true)
    (hanti : ∀ a b, le a b = true → le b a = true → a = b)
    (σ : List (String × FsNode) → List (String × FsNode))
    (hσ : ∀ l, List.Perm (σ l) l) :
    ∀ (node : FsNode), DistinctNames node →
      contribution hash le (reorder σ node) = contribution hash le node
  | .file content, _ => by simp [reorder, contribution]
  | .dir entries, h => by
      unfold DistinctNames at h
      have hrec := contributions_reorder hash le htotal htrans hanti σ hσ entries h.2
      simp only [reorder, contribution]
      congr 1
      rw [← hrec]
      apply hashInput_perm le htotal htrans hanti
      · rw [contributions_eq_map, contributions_eq_map]
        exact (hσ _).map _
      · rw [map_fst_contributions]
        have hp : List.Perm ((σ (reorderEntries σ entries)).map (fun e => e.1))
            ((reorderEntries σ entries).map (fun e => e.1)) := (hσ _).map _
        rw [hp.nodup_iff, map_fst_reorderEntries]
        exact h.1
/-- The entries contribute the same whatever the order of enumeration inside them. -/
theorem contributions_reorder (hash : String → String) (le : String → String → Bool)
    (htotal : ∀ a b, le a b = true ∨ le b a = true)
    (htrans : ∀ a b c, le a b = true → le b c = true → le a c = true)
    (hanti : ∀ a b, le a b = true → le b a = true → a = b)
    (σ : List (String × FsNode) → List (String × FsNode))
    (hσ : ∀ l, List.Perm (σ l) l) :
    ∀ (entries : List (String × FsNode)), DistinctNamesIn entries →
      contributions hash le (reorderEntries σ entries) = contributions hash le entries
  | [], _ => by simp [reorderEntries, contributions]
  | (name, node) :: rest, h => by
      unfold DistinctNamesIn at h
      simp only [reorderEntries, contributions]
      rw [contribution_reorder hash le htotal htrans hanti σ hσ node h.1,
        contributions_reorder hash le htotal htrans hanti σ hσ rest h.2]
end

/-- C17. The directory checksum is order independent. Let the names in every directory of a
tree be distinct, and let the comparison of `sort()` be a linear order. Whatever order `σ`
the file system gives to the entries of each directory of the tree, the root included,
`generateDirectoryChecksum` returns the same digest. -/
theorem directory_checksum_order_independent (hash : String → String)
    (le : String → String → Bool)
    (htotal : ∀ a b, le a b = true ∨ le b a = true)
    (htrans : ∀ a b c, le a b = true → le b c = true → le a c = true)
    (hanti : ∀ a b, le a b = true → le b a = true → a = b)
    (σ : List (String × FsNode) → List (String × FsNode))
    (hσ : ∀ l, List.Perm (σ l) l)
    (entries : List (String × FsNode)) (hd : DistinctNames (.dir entries)) :
    generateDirectoryChecksum hash le (σ (reorderEntries σ entries)) =
      generateDirectoryChecksum hash le entries :=
  contribution_reorder hash le htotal htrans hanti σ hσ (.dir entries) hd

/-- Witness of C17: the example tree enumerated in reverse order at every level. -/
theorem directory_checksum_order_independent_witness :
    generateDirectoryChecksum tagHash (fun a b => decide (a ≤ b))
        (List.reverse (reorderEntries List.reverse Examples.tree)) =
      generateDirectoryChecksum tagHash (fun a b => decide (a ≤ b)) Examples.tree :=
  directory_checksum_order_independent tagHash (fun a b => decide (a ≤ b))
    (fun a b => by simpa using le_total a b)
    (fun a b c hab hbc => by simpa using le_trans (by simpa using hab) (by simpa using hbc))
    (fun a b hab hba => le_antisymm (by simpa using hab) (by simpa using hba))
    List.reverse (fun l => List.reverse_perm l) Examples.tree
    (by simp [DistinctNames, DistinctNamesIn, Examples.tree])

end AutoSaveService

/-! ### The operational log -/

namespace AutoSaveService

/-- The file written is read back with the text written. -/
theorem readFileSync_writeFileSync (dir : Dir) (name content : String) (now : Int) :
    (dir.writeFileSync name content now).readFileSync name = some content := by
  unfold Dir.writeFileSync Dir.readFileSync
  rw [List.find?_append]
  have h : (dir.filter (fun f => f.name != name)).find? (fun f => f.name == name) = none := by
    rw [List.find?_eq_none]
    intro f hf
    have := (List.mem_filter.mp hf).2
    simpa using this
  rw [h]
  simp

/-- The log kept by `pushBounded`: the last entries of the prior log followed by the new
one, at most 100 in all. -/
theorem pushBounded_eq (logs : List Json) (entry : Json) :
    pushBounded logs entry = (logs ++ [entry]).drop ((logs ++ [entry]).length - 100) := by
  unfold pushBounded
  simp only
  split
  · rfl
  · rename_i h
    have : (logs ++ [entry]).length - 100 = 0 := by omega
    rw [this, List.drop_zero]

/-- C18. The operational log is bounded and keeps the most recent. When the prior log
parses as the list `L`, the log stored by `logBackupEvent` for the new entry `e` is the
list of the last `min (|L| + 1) 100` elements of `L` followed by `e`: it is a suffix of
`L ++ [e]` of that length, its last element is `e`. When the log file is missing, or its
text does not parse, the stored log is `[e]`. -/
theorem log_bounded_keeps_recent (parse : String → Option Json) (now : Int) (e : Json)
    (dir : Dir) :
    (∀ text L, dir.readFileSync "backup_log.json" = some text → parse text = some (.arr L) →
      ∃ stored : List Json,
        (logBackupEvent parse now e dir).readFileSync "backup_log.json" =
          some ((Json.arr stored).pretty "") ∧
        stored = (L ++ [e]).drop ((L ++ [e]).length - 100) ∧
        stored.length = min (L.length + 1) 100 ∧
        stored <:+ L ++ [e] ∧
        stored.getLast? = some e) ∧
    (∀ text, dir.readFileSync "backup_log.json" = some text → parse text = none →
      (logBackupEvent parse now e dir).readFileSync "backup_log.json" =
        some ((Json.arr [e]).pretty "")) ∧
    (dir.existsSync "backup_log.json" = false →
      (logBackupEvent parse now e dir).readFileSync "backup_log.json" =
        some ((Json.arr [e]).pretty "")) := by
  refine ⟨?_, ?_, ?_⟩
  · intro text L hread hparse
    have hex := existsSync_of_readFileSync _ _ _ hread
    refine ⟨(L ++ [e]).drop ((L ++ [e]).length - 100), ?_, rfl, ?_, List.drop_suffix _ _, ?_⟩
    · simp only [logBackupEvent, priorLogs, hex, hread, hparse, if_true]
      rw [readFileSync_writeFileSync, pushBounded_eq]
    · simp only [List.length_drop, List.length_append, List.length_singleton]
      omega
    · rw [List.getLast?_drop]
      simp only [List.length_append, List.length_singleton, List.getLast?_append,
        List.getLast?_singleton]
      rw [if_neg (by omega)]
      rfl
  · intro text hread hparse
    have hex := existsSync_of_readFileSync _ _ _ hread
    simp only [logBackupEvent, priorLogs, hex, hread, hparse, if_true]
    rw [readFileSync_writeFileSync]
    rfl
  · intro hex
    simp only [logBackupEvent, priorLogs, hex, Bool.false_eq_true, if_false]
    rw [readFileSync_writeFileSync]
    rfl

/-- Witness of C18: a log of 100 entries receives a new one; the oldest is dropped. -/
theorem log_bounded_keeps_recent_witness :
    ∃ stored : List Json,
      (logBackupEvent JsonText.jsonParse 5 (Json.num 100) Examples.logDir).readFileSync
          "backup_log.json" = some ((Json.arr stored).pretty "") ∧
        stored = (Examples.fullLog ++ [Json.num 100]).drop
          ((Examples.fullLog ++ [Json.num 100]).length - 100) ∧
        stored.length = min (Examples.fullLog.length + 1) 100 ∧
        stored <:+ Examples.fullLog ++ [Json.num 100] ∧
        stored.getLast? = some (Json.num 100) :=
  (log_bounded_keeps_recent JsonText.jsonParse 5 (Json.num 100) Examples.logDir).1
    ((Json.arr Examples.fullLog).pretty "") Examples.fullLog (by rfl) (by rfl)

end AutoSaveService

/-! ### The fingerprint -/

namespace FilePreviewManager

/-- The character of a decimal digit has the code of `0` plus the digit. -/
theorem digitChar_toNat (d : Nat) (h : d < 10) : (Nat.digitChar d).toNat - 48 = d := by
  interval_cases d <;> rfl

/-- The character of a decimal digit is a digit. -/
theorem digitChar_isDigit (d : Nat) (h : d < 10) : (Nat.digitChar d).isDigit = true := by
  interval_cases d <;> rfl

/-- The digits `Nat.toDigitsCore` puts in front of its accumulator are decimal digits whose
value is the number. -/
theorem toDigitsCore_spec (fuel : Nat) : ∀ (n : Nat) (ds : List Char), n < fuel →
    ∃ xs, Nat.toDigitsCore 10 fuel n ds = xs ++ ds ∧
      xs.foldl (fun a c => 10 * a + (c.toNat - 48)) 0 = n ∧
      ∀ c ∈ xs, c.isDigit = true := by
  induction fuel with
  | zero => intro n ds h; omega
  | succ fuel ih =>
      intro n ds h
      unfold Nat.toDigitsCore
      simp only
      by_cases h0 : n / 10 = 0
      · rw [if_pos h0]
        have hn : n < 10 := by omega
        refine ⟨[Nat.digitChar (n % 10)], rfl, ?_, ?_⟩
        · simp only [List.foldl_cons, List.foldl_nil, Nat.mul_zero, Nat.zero_add]
          rw [digitChar_toNat _ (Nat.mod_lt _ (by decide))]
          omega
        · intro c hc
          rw [List.mem_singleton.mp hc]
          exact digitChar_isDigit _ (Nat.mod_lt _ (by decide))
      · rw [if_neg h0]
        obtain ⟨xs, hxs, hval, hdig⟩ := ih (n / 10) (Nat.digitChar (n % 10) :: ds) (by omega)
        refine ⟨xs ++ [Nat.digitChar (n % 10)], ?_, ?_, ?_⟩
        · rw [hxs]
          simp
        · rw [List.foldl_append, hval]
          simp only [List.foldl_cons, List.foldl_nil]
          rw [digitChar_toNat _ (Nat.mod_lt _ (by decide))]
          omega
        · intro c hc
          rcases List.mem_append.mp hc with h1 | h1
          · exact hdig c h1
          · rw [List.mem_singleton.mp h1]
            exact digitChar_isDigit _ (Nat.mod_lt _ (by decide))

/-- The numeral of a natural number: decimal digits whose value is the number. -/
theorem toString_nat_spec (n : Nat) :
    (toString n).data.foldl (fun a c => 10 * a + (c.toNat - 48)) 0 = n ∧
      ∀ c ∈ (toString n).data, c.isDigit = true := by
  obtain ⟨xs, hxs, hval, hdig⟩ := toDigitsCore_spec (n + 1) n [] (Nat.lt_succ_self n)
  have hd : (toString n).data = xs := by
    show (Nat.repr n).data = xs
    unfold Nat.repr Nat.toDigits
    rw [hxs]
    simp [List.asString]
  rw [hd]
  exact ⟨hval, hdig⟩

/-- Distinct natural numbers have distinct numerals. -/
theorem toString_nat_injective (n m : Nat) (h : toString n = toString m) : n = m := by
  have h1 := (toString_nat_spec n).1
  have h2 := (toString_nat_spec m).1
  rw [h] at h1
  omega

/-- The numeral of an integer, as characters. -/
theorem toString_int_data (i : Int) :
    (toString i).data =
      match i with
      | Int.ofNat m => (toString m).data
      | Int.negSucc m => '-' :: (toString (m + 1)).data := by
  cases i with
  | ofNat m => rfl
  | negSucc m =>
      show ("-" ++ toString (Nat.succ m)).data = _
      rw [String.data_append]
      rfl

/-- Distinct integers have distinct numerals. -/
theorem toString_int_injective (i j : Int) (h : toString i = toString j) : i = j := by
  have hd := congrArg String.data h
  rw [toString_int_data, toString_int_data] at hd
  cases i with
  | ofNat n =>
      cases j with
      | ofNat m =>
          simp only at hd
          rw [toString_nat_injective n m (String.ext hd)]
      | negSucc m =>
          simp only at hd
          have := (toString_nat_spec n).2 '-' (by rw [hd]; exact List.mem_cons_self _ _)
          exact absurd this (by decide)
  | negSucc n =>
      cases j with
      | ofNat m =>
          simp only at hd
          have := (toString_nat_spec m).2 '-' (by rw [← hd]; exact List.mem_cons_self _ _)
          exact absurd this (by decide)
      | negSucc m =>
          simp only [List.cons.injEq, true_and] at hd
          have := toString_nat_injective (n + 1) (m + 1) (String.ext hd)
          have e : n = m := by omega
          rw [e]

/-- A numeral holds no underscore. -/
theorem toString_nat_no_underscore (n : Nat) : '_' ∉ (toString n).data := by
  intro h
  exact absurd ((toString_nat_spec n).2 '_' h) (by decide)

/-- The numeral of an integer holds no underscore. -/
theorem toString_int_no_underscore (i : Int) : '_' ∉ (toString i).data := by
  rw [toString_int_data]
  cases i with
  | ofNat m => exact toString_nat_no_underscore m
  | negSucc m =>
      simp only [List.mem_cons, not_or]
      exact ⟨by decide, toString_nat_no_underscore (m + 1)⟩

/-- A text is cut in one way at the first occurrence of a character. -/
theorem split_first (c : Char) : ∀ (ys ys' xs xs' : List Char),
    ys ++ c :: xs = ys' ++ c :: xs' → c ∉ ys → c ∉ ys' → ys = ys' ∧ xs = xs' := by
  intro ys
  induction ys with
  | nil =>
      intro ys' xs xs' h _ hy'
      cases ys' with
      | nil => simpa using h
      | cons b t =>
          simp only [List.nil_append, List.cons_append, List.cons.injEq] at h
          exact absurd (h.1 ▸ List.mem_cons_self _ _) hy'
  | cons a t ih =>
      intro ys' xs xs' h hy hy'
      cases ys' with
      | nil =>
          simp only [List.nil_append, List.cons_append, List.cons.injEq] at h
          exact absurd (h.1 ▸ List.mem_cons_self _ _) hy
      | cons b t' =>
          simp only [List.cons_append, List.cons.injEq] at h
          obtain ⟨hab, hrest⟩ := h
          obtain ⟨h1, h2⟩ := ih t' xs xs' hrest
            (fun hm => hy (List.mem_cons_of_mem _ hm))
            (fun hm => hy' (List.mem_cons_of_mem _ hm))
          exact ⟨by rw [hab, h1], h2⟩

/-- A text is cut in one way at the last occurrence of a character. -/
theorem split_last (c : Char) (xs xs' ys ys' : List Char)
    (h : xs ++ c :: ys = xs' ++ c :: ys') (hy : c ∉ ys) (hy' : c ∉ ys') :
    xs = xs' ∧ ys = ys' := by
  have hr := congrArg List.reverse h
  simp only [List.reverse_append, List.reverse_cons, List.append_assoc,
    List.singleton_append] at hr
  obtain ⟨h1, h2⟩ := split_first c ys.reverse ys'.reverse xs.reverse xs'.reverse hr
    (by simpa using hy) (by simpa using hy')
  exact ⟨List.reverse_injective h2, List.reverse_injective h1⟩

/-- The characters of the text the fingerprint is the digest of. -/
theorem fileInfo_data (filePath : String) (stats : SourceStats) :
    (fileInfo filePath stats).data =
      (filePath.data ++ '_' :: (toString stats.size).data) ++
        '_' :: (toString stats.mtimeMs).data := by
  unfold fileInfo
  simp only [String.data_append, List.append_assoc]
  rfl

/-- C19. Fingerprint sensitivity. The text `filePath_size_mtimeMs` that `getFileKey` digests
is an injective function of the path, the size and the modification time: two triples give
the same text only when they agree in the three components. So with a collision-free
digest two files have the same fingerprint only when path, size and modification time are
the same; a file whose size or modification time changed gets another fingerprint. -/
theorem fingerprint_sensitivity (filePath filePath' : String) (stats stats' : SourceStats) :
    (fileInfo filePath stats = fileInfo filePath' stats' ↔
      (filePath = filePath' ∧ stats.size = stats'.size ∧ stats.mtimeMs = stats'.mtimeMs)) ∧
    (∀ md5 : String → String, Function.Injective md5 →
      (getFileKey md5 filePath (some stats) = getFileKey md5 filePath' (some stats') ↔
        (filePath = filePath' ∧ stats = stats'))) := by
  have key : fileInfo filePath stats = fileInfo filePath' stats' ↔
      (filePath = filePath' ∧ stats.size = stats'.size ∧ stats.mtimeMs = stats'.mtimeMs) := by
    constructor
    · intro h
      have hd := congrArg String.data h
      rw [fileInfo_data, fileInfo_data] at hd
      obtain ⟨h1, h2⟩ := split_last '_' _ _ _ _ hd (toString_int_no_underscore _)
        (toString_int_no_underscore _)
      obtain ⟨h3, h4⟩ := split_last '_' _ _ _ _ h1 (toString_nat_no_underscore _)
        (toString_nat_no_underscore _)
      exact ⟨String.ext h3, toString_nat_injective _ _ (String.ext h4),
        toString_int_injective _ _ (String.ext h2)⟩
    · rintro ⟨h1, h2, h3⟩
      unfold fileInfo
      rw [h1, h2, h3]
  refine ⟨key, ?_⟩
  intro md5 hinj
  simp only [getFileKey, Except.ok.injEq]
  rw [hinj.eq_iff, key]
  constructor
  · rintro ⟨h1, h2, h3⟩
    refine ⟨h1, ?_⟩
    cases stats
    cases stats'
    simp_all
  · rintro ⟨h1, h2⟩
    rw [h2]
    exact ⟨h1, rfl, rfl⟩

end FilePreviewManager

namespace FilePreviewManager

/-- Witness of C19: with the collision-free tagging digest, the file `a.png` of 3 bytes and
the same file grown to 4 bytes have different fingerprints. -/
theorem fingerprint_sensitivity_witness :
    getFileKey tagHash "a.png" (some { size := 3, mtimeMs := 7 }) ≠
      getFileKey tagHash "a.png" (some { size := 4, mtimeMs := 7 }) :=
  fun h =>
    absurd (((fingerprint_sensitivity "a.png" "a.png" { size := 3, mtimeMs := 7 }
      { size := 4, mtimeMs := 7 }).2 tagHash tagHash_injective).mp h).2 (by decide)

end FilePreviewManager

/-! ### The snapshot listing and the scheduled backup -/

namespace AutoSaveService

/-- C20. The snapshot listing is newest first. For a directory with distinct names,
`getAutoSaveFiles` returns one entry for each file whose name starts with `autosave_` and
ends with `.json` and no other: the names of the entries are, up to order, those of these
files, without duplicates, each entry with the size and modification time of its file; the
entries are ordered by non-increasing modification time. On a listing error the result
is the empty list. -/
theorem listing_newest_first (savePath : String) (dir : Dir)
    (hn : (dir.map (fun f => f.name)).Nodup) :
    List.Perm ((getAutoSaveFiles savePath (some dir)).map (fun a => a.name))
        ((dir.filter (fun f => startsAndEndsWith "autosave_" ".json" f.name)).map
          (fun f => f.name)) ∧
      ((getAutoSaveFiles savePath (some dir)).map (fun a => a.name)).Nodup ∧
      (getAutoSaveFiles savePath (some dir)).Pairwise (fun a b => b.modified ≤ a.modified) ∧
      (∀ a ∈ getAutoSaveFiles savePath (some dir), ∃ f ∈ dir,
        startsAndEndsWith "autosave_" ".json" f.name = true ∧ a.name = f.name ∧
        a.size = f.size ∧ a.modified = f.mtime) ∧
      getAutoSaveFiles savePath none = [] := by
  haveI : IsTotal AutoSaveFile (fun a b => b.modified ≤ a.modified) :=
    ⟨fun a b => le_total b.modified a.modified⟩
  haveI : IsTrans AutoSaveFile (fun a b => b.modified ≤ a.modified) :=
    ⟨fun _ _ _ hab hbc => le_trans hbc hab⟩
  have hperm := List.perm_insertionSort (fun a b : AutoSaveFile => b.modified ≤ a.modified)
    ((dir.filter (fun f => startsAndEndsWith "autosave_" ".json" f.name)).map
      (fun f =>
        ({ id := String.mk (replaceFirst ".json".data []
              (replaceFirst "autosave_".data [] f.name.data))
           name := f.name
           path := savePath ++ "/" ++ f.name
           size := f.size
           modified := f.mtime } : AutoSaveFile)))
  have hnames : List.Perm ((getAutoSaveFiles savePath (some dir)).map (fun a => a.name))
      ((dir.filter (fun f => startsAndEndsWith "autosave_" ".json" f.name)).map
        (fun f => f.name)) := by
    have := hperm.map (fun a : AutoSaveFile => a.name)
    rw [List.map_map] at this
    exact this
  refine ⟨hnames, ?_, ?_, ?_, rfl⟩
  · rw [hnames.nodup_iff]
    exact ((List.filter_sublist dir).map _).nodup hn
  · exact List.sorted_insertionSort _ _
  · intro a ha
    have hmem := hperm.mem_iff.mp ha
    obtain ⟨f, hf, hfa⟩ := List.mem_map.mp hmem
    rw [List.mem_filter] at hf
    refine ⟨f, hf.1, hf.2, ?_, ?_, ?_⟩ <;> rw [← hfa]

/-- Witness of C20: the listing of 52 snapshots and one other file has 52 entries, newest
first. -/
theorem listing_newest_first_witness :
    ((getAutoSaveFiles "/autosave" (some Examples.manySaves)).map (fun a => a.name)).Nodup ∧
      (getAutoSaveFiles "/autosave" (some Examples.manySaves)).length = 52 ∧
      ((getAutoSaveFiles "/autosave" (some Examples.manySaves)).map (fun a => a.name)).head? =
        some "autosave_51.json" :=
  ⟨(listing_newest_first "/autosave" Examples.manySaves (by decide!)).2.1, by decide!,
   by decide!⟩

/-- The scheduled backup of the service does not read the table `backup_records`: its
result and the backup directory afterwards are the same whatever the table holds. -/
theorem performBackup_ignores_records (parse : String → Option Json)
    (a : DatabaseManager.Attempt) (log : LogContext)
    (table table' : List DatabaseManager.BackupRow) (backups saveDir : Dir) :
    (performBackup parse a log { table := table, backups := backups } saveDir).1 =
        (performBackup parse a log { table := table', backups := backups } saveDir).1 ∧
      (performBackup parse a log { table := table, backups := backups } saveDir).2.1.backups =
        (performBackup parse a log { table := table', backups := backups }
          saveDir).2.1.backups := by
  unfold performBackup DatabaseManager.performBackup
  cases a.stepError <;> exact ⟨rfl, rfl⟩

/-- C11. One hour after a successful manual backup the due check of the database manager
triggers nothing, and the backup timer of the service, firing at the same instant on the
same state, produces a new artifact `backup_scheduled_B.db` in the backup directory, next
to the manual one: `performBackup` calls `dbManager.performBackup('scheduled')` without
consulting the due check. -/
theorem scheduled_backup_ignores_due_check :
    (DatabaseManager.checkAndPerformBackup Examples.hourLater.startTime Examples.hourLater
        Examples.afterManualBackup).1 = none ∧
      (performBackup JsonText.jsonParse Examples.hourLater Examples.hourLaterLog
        Examples.afterManualBackup []).1 =
        { success := true, file := some "backup_scheduled_B.db", error := none } ∧
      (performBackup JsonText.jsonParse Examples.hourLater Examples.hourLaterLog
        Examples.afterManualBackup []).2.1.backups.map (fun f => f.name) =
        ["backup_manual_A.db", "backup_scheduled_B.db"] ∧
      Examples.afterManualBackup.backups.map (fun f => f.name) = ["backup_manual_A.db"] := by
  refine ⟨by rfl, by decide!, by decide!, by decide!⟩

end AutoSaveService

/-! ### The statistics of a snapshot -/

namespace AutoSaveService

/-- C21. In the document of `getAllData` the statistics and the data have one member for
each of the five collections, and the count reported for a collection is the number of its
records in `data`; a store of 2 projects, 5 files and no node is reported as 2, 5 and 0. -/
theorem statistics_match_data (timestamp : String) (db : Dataset) :
    ∃ statistics data,
      Json.getProp (some (getAllData timestamp db)) "statistics" = .ok (some (.obj statistics)) ∧
      Json.getProp (some (getAllData timestamp db)) "data" = .ok (some (.obj data)) ∧
      statistics.map (fun kv => kv.1) =
        ["projectCount", "fileCount", "nodeCount", "userCount", "logCount"] ∧
      data.map (fun kv => kv.1) = ["projects", "files", "nodes", "settings", "auditLogs"] ∧
      (∃ rows, Json.lookup "projects" data = some (.arr rows) ∧
        Json.lookup "projectCount" statistics = some (.num rows.length)) ∧
      (∃ rows, Json.lookup "files" data = some (.arr rows) ∧
        Json.lookup "fileCount" statistics = some (.num rows.length)) ∧
      (∃ rows, Json.lookup "nodes" data = some (.arr rows) ∧
        Json.lookup "nodeCount" statistics = some (.num rows.length)) ∧
      (∃ rows, Json.lookup "settings" data = some (.arr rows) ∧
        Json.lookup "userCount" statistics = some (.num rows.length)) ∧
      (∃ rows, Json.lookup "auditLogs" data = some (.arr rows) ∧
        Json.lookup "logCount" statistics = some (.num rows.length)) ∧
      Json.getProp (some (getAllData "T" Examples.twoProjects)) "statistics" =
        .ok (some (.obj [("projectCount", .num 2), ("fileCount", .num 5), ("nodeCount", .num 0),
          ("userCount", .num 0), ("logCount", .num 0)])) := by
  refine ⟨_, _, rfl, rfl, rfl, rfl, ⟨_, rfl, rfl⟩, ⟨_, rfl, rfl⟩, ⟨_, rfl, rfl⟩, ⟨_, rfl, rfl⟩,
    ⟨_, rfl, rfl⟩, rfl⟩

end AutoSaveService

/-! ### The write of a snapshot -/

namespace AutoSaveService

/-- Looking for the file `x` among the files of another name than `n`. -/
theorem find_filter_ne (dir : Dir) (n x : String) (hx : x ≠ n) :
    (dir.filter (fun f => f.name != n)).find? (fun f => f.name == x) =
      dir.find? (fun f => f.name == x) := by
  induction dir with
  | nil => rfl
  | cons a l ih =>
      by_cases ha : a.name = n
      · have h1 : (a.name != n) = false := by simp [ha]
        have h2 : (a.name == x) = false := by
          simpa using fun h : a.name = x => hx (h.symm.trans ha)
        rw [List.filter_cons, h1, List.find?_cons, h2]
        exact ih
      · have h1 : (a.name != n) = true := by simpa using ha
        rw [List.filter_cons, h1, if_pos rfl, List.find?_cons, List.find?_cons, ih]

/-- Reading a file after an entry was put in place of the one of its name. -/
theorem readFileSync_replace (dir : Dir) (e : FileEntry) (x : String) :
    Dir.readFileSync (dir.filter (fun f => f.name != e.name) ++ [e]) x =
      if x = e.name then some e.content else dir.readFileSync x := by
  unfold Dir.readFileSync
  rw [List.find?_append]
  by_cases hx : x = e.name
  · subst hx
    have h : (dir.filter (fun f => f.name != e.name)).find? (fun f => f.name == e.name) =
        none := by
      rw [List.find?_eq_none]
      intro f hf
      have := (List.mem_filter.mp hf).2
      simpa using this
    rw [h]
    simp
  · rw [if_neg hx, find_filter_ne dir e.name x hx]
    have hne : (e.name == x) = false := by
      simpa using fun h : e.name = x => hx h.symm
    cases hfind : dir.find? (fun f => f.name == x) with
    | some f => rfl
    | none => simp [List.find?_cons, hne]

/-- Reading another file after `writeFileSync`. -/
theorem readFileSync_writeFileSync_ne (dir : Dir) (name content x : String) (now : Int)
    (h : x ≠ name) :
    (dir.writeFileSync name content now).readFileSync x = dir.readFileSync x := by
  have := readFileSync_replace dir
    { name := name, size := content.utf8ByteSize, mtime := now, content := content } x
  simp only [if_neg h] at this
  exact this

/-- The name of a snapshot passes the filter of the listing and of the retention. -/
theorem startsAndEndsWith_autosave (x : String) :
    startsAndEndsWith "autosave_" ".json" ("autosave_" ++ x ++ ".json") = true := by
  unfold startsAndEndsWith
  simp only [String.data_append, Bool.and_eq_true]
  refine ⟨?_, ?_⟩
  · rw [List.append_assoc]
    exact List.isPrefixOf_iff_prefix.mpr (List.prefix_append _ _)
  · exact List.isSuffixOf_iff_suffix.mpr (List.suffix_append _ _)

/-- Running the calls of `performAutoSave` one after the other gives the save directory
that `performAutoSave` leaves. -/
theorem run_performAutoSaveCalls (hash : String → String) (now : Int)
    (fileTimestamp dataTimestamp metaTimestamp : String) (db : Dataset) (dir : Dir) :
    (performAutoSaveCalls hash now fileTimestamp dataTimestamp metaTimestamp db dir).foldl
        (FsCall.run now) dir =
      performAutoSave hash now fileTimestamp dataTimestamp metaTimestamp db dir := by
  unfold performAutoSaveCalls performAutoSave cleanupOldSaves pruneOldest
  simp only [List.foldl_cons, FsCall.run]
  split
  · rw [List.foldl_map]
    rfl
  · rfl

/-- C22 (counterexample). On an empty save directory the only call of `performAutoSave` that
changes the directory is the `writeFileSync` of the artifact under `autosave_T.json`, a
name the filter of the listing and of the retention recognises; right after that call
`getAutoSaveFiles` lists the file, and no `renameSync` follows. -/
theorem snapshot_written_under_final_name :
    performAutoSaveCalls tagHash 5 "T" "T" "T" Examples.emptyStore [] =
      [FsCall.writeFileSync "autosave_T.json"
        ((snapshotDocument tagHash "T" "T" Examples.emptyStore).pretty "")] ∧
    startsAndEndsWith "autosave_" ".json" "autosave_T.json" = true ∧
    (getAutoSaveFiles "autosave"
        (some (FsCall.run 5 []
          (FsCall.writeFileSync "autosave_T.json"
            ((snapshotDocument tagHash "T" "T" Examples.emptyStore).pretty ""))))).map
        (fun f => f.name) = ["autosave_T.json"] := by
  refine ⟨by decide!, by decide!, by decide!⟩

/-- C22 (amended). The method `performAutoSave` writes the artifact in place. Its first call
into the save directory is the `writeFileSync` of the complete artifact text under the final
name `autosave_<timestamp>.json`, which the filter of the listing and of the retention
recognises, so that the file is read back whole under that name right after the call; the
calls that follow are the deletions of `cleanupOldSaves`, none is a `renameSync`, and the
calls together give the directory `performAutoSave` leaves. -/
theorem artifact_written_in_place (hash : String → String) (now : Int)
    (fileTimestamp dataTimestamp metaTimestamp : String) (db : Dataset) (dir : Dir) :
    ∃ deletions,
      performAutoSaveCalls hash now fileTimestamp dataTimestamp metaTimestamp db dir =
        FsCall.writeFileSync ("autosave_" ++ fileTimestamp ++ ".json")
          ((snapshotDocument hash dataTimestamp metaTimestamp db).pretty "") :: deletions ∧
      (∀ c ∈ deletions, ∃ name, c = FsCall.unlinkSync name) ∧
      (performAutoSaveCalls hash now fileTimestamp dataTimestamp metaTimestamp db dir).all
        (fun c => !c.isRename) = true ∧
      startsAndEndsWith "autosave_" ".json" ("autosave_" ++ fileTimestamp ++ ".json") = true ∧
      (FsCall.run now dir
          (FsCall.writeFileSync ("autosave_" ++ fileTimestamp ++ ".json")
            ((snapshotDocument hash dataTimestamp metaTimestamp db).pretty ""))).readFileSync
          ("autosave_" ++ fileTimestamp ++ ".json") =
        some ((snapshotDocument hash dataTimestamp metaTimestamp db).pretty "") ∧
      (performAutoSaveCalls hash now fileTimestamp dataTimestamp metaTimestamp db dir).foldl
          (FsCall.run now) dir =
        performAutoSave hash now fileTimestamp dataTimestamp metaTimestamp db dir := by
  have hdel : ∀ (l : List FileEntry), ∀ c ∈ l.map (fun f => FsCall.unlinkSync f.name),
      ∃ name, c = FsCall.unlinkSync name := by
    intro l c hc
    obtain ⟨f, _, rfl⟩ := List.mem_map.mp hc
    exact ⟨f.name, rfl⟩
  refine ⟨_, rfl, ?_, ?_, startsAndEndsWith_autosave _, readFileSync_writeFileSync _ _ _ _,
    run_performAutoSaveCalls _ _ _ _ _ _ _⟩
  · intro c hc
    split at hc
    · exact hdel _ c hc
    · simp at hc
  · unfold performAutoSaveCalls
    simp only [List.all_cons, FsCall.isRename, Bool.not_false, Bool.true_and]
    split
    · rw [List.all_eq_true]
      intro c hc
      obtain ⟨name, rfl⟩ := hdel _ c hc
      rfl
    · rfl

/-- The theorem `artifact_written_in_place` at the 52 snapshots of `manySaves`: the write of
`autosave_T.json` is followed by deletions only. -/
theorem artifact_written_in_place_witness :
    ∃ deletions,
      performAutoSaveCalls tagHash 200 "T" "T" "T" Examples.emptyStore Examples.manySaves =
        FsCall.writeFileSync ("autosave_" ++ "T" ++ ".json")
          ((snapshotDocument tagHash "T" "T" Examples.emptyStore).pretty "") :: deletions ∧
      (∀ c ∈ deletions, ∃ name, c = FsCall.unlinkSync name) := by
  obtain ⟨deletions, h1, h2, _⟩ :=
    artifact_written_in_place tagHash 200 "T" "T" "T" Examples.emptyStore Examples.manySaves
  exact ⟨deletions, h1, h2⟩

end AutoSaveService

/-! ### The manual backup -/

namespace AutoSaveService

/-- Reading a file after `copyFileSync`. -/
theorem readFileSync_copyFileSync (dir : Dir) (source : FileEntry) (target x : String)
    (now : Int) :
    (copyFileSync source target now dir).readFileSync x =
      if x = target then some source.content else dir.readFileSync x :=
  readFileSync_replace dir
    { name := target, size := source.size, mtime := now, content := source.content } x

/-- The content of a file that `find?` returns is what `readFileSync` reads. -/
theorem readFileSync_eq_find (dir : Dir) (name : String) :
    dir.readFileSync name = (dir.find? (fun f => f.name == name)).map (fun f => f.content) :=
  rfl

/-- After `backupConfigFiles` each of the two configuration files that exists in `config`
is in the backup directory with the same content. -/
theorem readFileSync_backupConfigFiles (now : Int) (config backupDir : Dir) (name text : String)
    (hname : name = "settings.json" ∨ name = "projects.json")
    (hread : config.readFileSync name = some text) :
    (backupConfigFiles now config backupDir).readFileSync name = some text := by
  unfold backupConfigFiles
  simp only [List.foldl_cons, List.foldl_nil]
  rcases hname with rfl | rfl
  · rw [readFileSync_eq_find] at hread
    cases hs : config.find? (fun f => f.name == "settings.json") with
    | none => rw [hs] at hread; cases hread
    | some source =>
        rw [hs] at hread
        have hc : source.content = text := by simpa using hread
        cases hp : config.find? (fun f => f.name == "projects.json") with
        | none =>
            simp only [readFileSync_copyFileSync, if_true, hc]
        | some p =>
            simp only [readFileSync_copyFileSync, if_true, hc]
            rw [if_neg (by decide)]
  · rw [readFileSync_eq_find] at hread
    cases hp : config.find? (fun f => f.name == "projects.json") with
    | none => rw [hp] at hread; cases hread
    | some source =>
        rw [hp] at hread
        have hc : source.content = text := by simpa using hread
        simp only [readFileSync_copyFileSync, if_true, hc]

/-- C23 (counterexample). A manual backup made while `config` holds `settings.json` only
succeeds; its backup directory holds `settings.json` and `backup_info.json` and neither
`database.db` nor `projects.json`, although `backup_info.json` names `database.db` as the
database file and lists `projects.json`; the database artifact is in the directory of the
manager, under `backup_manual_A.db`. -/
theorem manual_backup_lacks_listed_files :
    (performManualBackup tagHash Examples.nameLe Examples.manualContext Examples.settingsOnly
        Examples.freshManager []).1 =
      { success := true, directory := some "manual_backup/A", error := none } ∧
    (performManualBackup tagHash Examples.nameLe Examples.manualContext Examples.settingsOnly
        Examples.freshManager []).2.2.map (fun f => f.name) =
      ["settings.json", "backup_info.json"] ∧
    (performManualBackup tagHash Examples.nameLe Examples.manualContext Examples.settingsOnly
        Examples.freshManager []).2.2.existsSync "database.db" = false ∧
    (performManualBackup tagHash Examples.nameLe Examples.manualContext Examples.settingsOnly
        Examples.freshManager []).2.2.existsSync "projects.json" = false ∧
    (((performManualBackup tagHash Examples.nameLe Examples.manualContext Examples.settingsOnly
        Examples.freshManager []).2.2.readFileSync "backup_info.json").bind
          JsonText.jsonParse).map
        (fun info => (Json.getProp (some info) "databaseFile",
          Json.getProp (some info) "configFiles")) =
      some (.ok (some (.str "database.db")),
        .ok (some (.arr [.str "settings.json", .str "projects.json"]))) ∧
    (performManualBackup tagHash Examples.nameLe Examples.manualContext Examples.settingsOnly
        Examples.freshManager []).2.1.backups.map (fun f => f.name) = ["backup_manual_A.db"] := by
  refine ⟨by decide!, by decide!, by decide!, by decide!, by rfl, by decide!⟩

/-- C23 (amended). Whenever `performManualBackup` returns success, its backup directory holds
`backup_info.json`, with the text of `backupInfo` for the files copied, and each of
`settings.json` and `projects.json` that exists in the directory `config`, with the content
it has there. -/
theorem manual_backup_layout (hash : String → String) (le : String → String → Bool)
    (ctx : ManualContext) (config : Dir) (db : DatabaseManager.State) (backupDir : Dir)
    (hsuccess : (performManualBackup hash le ctx config db backupDir).1.success = true) :
    (performManualBackup hash le ctx config db backupDir).2.2.existsSync "backup_info.json" =
      true ∧
    (performManualBackup hash le ctx config db backupDir).2.2.readFileSync "backup_info.json" =
      some ((backupInfo hash le ctx.infoTimestamp
        (backupConfigFiles ctx.now config backupDir)).pretty "") ∧
    ∀ name text, name = "settings.json" ∨ name = "projects.json" →
      config.readFileSync name = some text →
      (performManualBackup hash le ctx config db backupDir).2.2.readFileSync name =
        some text := by
  unfold performManualBackup at hsuccess ⊢
  cases hb : DatabaseManager.performBackup ctx.attempt "manual" db with
  | mk r db' =>
      cases r with
      | error message =>
          rw [hb] at hsuccess
          simp at hsuccess
      | ok file =>
          simp only
          refine ⟨?_, readFileSync_writeFileSync _ _ _ _, ?_⟩
          · rw [FilePreviewManager.existsSync_writeFileSync]
            simp
          · intro name text hname hread
            have hne : name ≠ "backup_info.json" := by
              rcases hname with rfl | rfl <;> decide
            rw [readFileSync_writeFileSync_ne _ _ _ _ _ hne]
            exact readFileSync_backupConfigFiles _ _ _ _ _ hname hread

/-- The theorem `manual_backup_layout` at the manual backup made while `config` holds
`settings.json` only. -/
theorem manual_backup_layout_witness :
    (performManualBackup tagHash Examples.nameLe Examples.manualContext Examples.settingsOnly
        Examples.freshManager []).1.success = true ∧
    (performManualBackup tagHash Examples.nameLe Examples.manualContext Examples.settingsOnly
        Examples.freshManager []).2.2.existsSync "backup_info.json" = true ∧
    (performManualBackup tagHash Examples.nameLe Examples.manualContext Examples.settingsOnly
        Examples.freshManager []).2.2.readFileSync "settings.json" = some "{}" :=
  ⟨by decide!,
   (manual_backup_layout tagHash Examples.nameLe Examples.manualContext Examples.settingsOnly
      Examples.freshManager [] (by decide!)).1,
   (manual_backup_layout tagHash Examples.nameLe Examples.manualContext Examples.settingsOnly
      Examples.freshManager [] (by decide!)).2.2 "settings.json" "{}" (Or.inl rfl) (by decide!)⟩

end AutoSaveService

/-! ### The emergency save -/

namespace AutoSaveService

/-- The name of the emergency artifact is not that of a recovery script. -/
theorem emergencyFile_ne (ctx : EmergencyContext) :
    emergencyFile ctx ≠ "recovery.sh" ∧ emergencyFile ctx ≠ "recovery.bat" := by
  have hd : (emergencyFile ctx).data.head? = some 'e' := by
    simp [emergencyFile, String.data_append]
  constructor
  · intro h
    rw [h] at hd
    exact absurd hd (by decide)
  · intro h
    rw [h] at hd
    exact absurd hd (by decide)

/-- C24. The artifact `performEmergencySave` writes is the text of `criticalData`, an
object of the four members `timestamp`, `projects`, `recentFiles` and `userSettings`: it has
no member `metadata`, hence no version, creation time or checksum, and
`validateBackupData` returns false on it. -/
theorem emergency_artifact_has_no_checksum (hash : String → String) (ctx : EmergencyContext)
    (emergencyDir : Dir) :
    (performEmergencySave ctx emergencyDir).readFileSync (emergencyFile ctx) =
      some ((criticalData ctx.dataTimestamp ctx.rows).pretty "") ∧
    (Json.ownProps (some (criticalData ctx.dataTimestamp ctx.rows))).map (fun kv => kv.1) =
      ["timestamp", "projects", "recentFiles", "userSettings"] ∧
    Json.getProp (some (criticalData ctx.dataTimestamp ctx.rows)) "metadata" = .ok none ∧
    validateBackupData hash (criticalData ctx.dataTimestamp ctx.rows) = .ok false := by
  refine ⟨?_, rfl, rfl, rfl⟩
  unfold performEmergencySave createRecoveryScript
  rw [readFileSync_writeFileSync_ne _ _ _ _ _ (emergencyFile_ne ctx).2,
    readFileSync_writeFileSync_ne _ _ _ _ _ (emergencyFile_ne ctx).1,
    readFileSync_writeFileSync]

/-- The emergency artifact of one project row is parsed back to `criticalData`, which
`validateBackupData` rejects, while the directory holds the artifact and the two scripts. -/
theorem emergency_artifact_example :
    (performEmergencySave Examples.emergencyContext []).map (fun f => f.name) =
      ["emergency_T.json", "recovery.sh", "recovery.bat"] ∧
    ((performEmergencySave Examples.emergencyContext []).readFileSync "emergency_T.json").bind
        JsonText.jsonParse =
      some (criticalData "T" Examples.emergencyContext.rows) ∧
    validateBackupData tagHash (criticalData "T" Examples.emergencyContext.rows) = .ok false := by
  refine ⟨by decide!, by rfl, by rfl⟩

end AutoSaveService

/-! ### The periodic jobs -/

namespace Timers

/-- C25 (counterexample). When the timer of `performAutoSave` fires twice and no run has
completed in between, two runs are in progress: the second firing is not dropped. -/
theorem firing_during_run_overlaps :
    replay [Event.timerFired Job.performAutoSave, Event.timerFired Job.performAutoSave]
      Job.performAutoSave = 2 := by
  decide

/-- The runs in progress after one more event. -/
theorem replay_append (events : List Event) (e : Event) :
    replay (events ++ [e]) = step (replay events) e := by
  simp [replay, List.foldl_append]

/-- C25 (amended). No firing is dropped. Whatever happened before, a firing of the timer of
a job starts a run of that job: the runs of the job in progress are one more, those of the
other jobs are the same; in particular `n` firings in a row leave `n` runs in progress. -/
theorem every_firing_starts_a_run (events : List Event) (job : Job) :
    replay (events ++ [Event.timerFired job]) job = replay events job + 1 ∧
    (∀ other, other ≠ job →
      replay (events ++ [Event.timerFired job]) other = replay events other) ∧
    started job (events ++ [Event.timerFired job]) = started job events + 1 ∧
    ∀ n, replay (List.replicate n (Event.timerFired job)) job = n := by
  refine ⟨?_, ?_, ?_, ?_⟩
  · rw [replay_append]
    simp [step]
  · intro other hne
    rw [replay_append]
    simp [step, Function.update, hne]
  · simp [started, List.filter_append]
  · intro n
    induction n with
    | zero => rfl
    | succ k ih =>
        rw [List.replicate_succ', replay_append]
        simp [step, ih]

/-- The theorem `every_firing_starts_a_run` after a firing of the autosave timer and one of
the backup timer: a further firing of the autosave timer starts a second run. -/
theorem every_firing_starts_a_run_witness :
    replay [Event.timerFired Job.performAutoSave, Event.timerFired Job.performBackup,
      Event.timerFired Job.performAutoSave] Job.performAutoSave = 2 :=
  (every_firing_starts_a_run
    [Event.timerFired Job.performAutoSave, Event.timerFired Job.performBackup]
    Job.performAutoSave).1

end Timers

/-! ### The lifetime of a cached preview -/

namespace FilePreviewManager

/-- The three ways a call of `generatePreview` goes once the fingerprint is computed: a
valid entry of the memory tier is returned, a truthy result of `checkDiskCache` is promoted,
or the preview is derived. -/
theorem generatePreview_cases (md5 : String → String) (parse : String → Option Json)
    (run : Run) (req : Request) (cache : Cache) (fileKey : String)
    (hkey : getFileKey md5 req.filePath req.stats = .ok fileKey) :
    (∃ e, mapGet (fileKey ++ "_" ++ req.options.stringify) cache.previewCache = some e ∧
        run.clock.memoryCheck - e.timestamp < 3600000 ∧
        generatePreview md5 parse run req cache =
          { result := .ok e.data, cache := cache, effects := [] }) ∨
    (∃ d, checkDiskCache parse run.clock.diskCheck cache.previewDir fileKey = some d ∧
        generatePreview md5 parse run req cache =
          promote run (fileKey ++ "_" ++ req.options.stringify) d cache) ∨
    generatePreview md5 parse run req cache =
      deriveAndStore run req fileKey (fileKey ++ "_" ++ req.options.stringify) cache := by
  unfold generatePreview
  simp only [hkey]
  cases hm : memoryLookup run.clock.memoryCheck (fileKey ++ "_" ++ req.options.stringify)
      cache.previewCache with
  | some data =>
      left
      unfold memoryLookup at hm
      cases hg : mapGet (fileKey ++ "_" ++ req.options.stringify) cache.previewCache with
      | none => rw [hg] at hm; cases hm
      | some e =>
          rw [hg] at hm
          simp only at hm
          by_cases ht : run.clock.memoryCheck - e.timestamp < 3600000
          · rw [if_pos ht] at hm
            cases hm
            exact ⟨e, rfl, ht, rfl⟩
          · rw [if_neg ht] at hm
            cases hm
  | none =>
      right
      simp only
      cases hd : checkDiskCache parse run.clock.diskCheck cache.previewDir fileKey with
      | none => right; rfl
      | some d =>
          simp only
          by_cases htr : Json.truthy (some d) = true
          · left
            exact ⟨d, rfl, by rw [if_pos htr]⟩
          · right
            rw [if_neg htr]

/-- The disk tier after a preview other than `p` was saved never returns `p`. -/
theorem checkDiskCache_after_save (parse : String → Option Json) (fileKey : String)
    (x p options : Json) (now t : Int) (dir : Dir) (hp : p ≠ .null) (hx : x ≠ p)
    (hparse : parse ((cacheData x now options).pretty "") = some (cacheData x now options)) :
    checkDiskCache parse t (saveToDiskCache now false fileKey x options dir) fileKey ≠
      some p := by
  have hsave : saveToDiskCache now false fileKey x options dir =
      dir.writeFileSync (fileKey ++ ".json") ((cacheData x now options).pretty "") now := rfl
  rw [hsave, checkDiskCache_entry parse t now _ fileKey _ _
    (AutoSaveService.readFileSync_writeFileSync _ _ _ _) hparse rfl]
  by_cases h : t - now < 24 * 3600000
  · rw [if_pos h]
    intro he
    have : Json.lookup "preview"
        [("preview", x), ("timestamp", Json.num now), ("options", options)] = some x := rfl
    rw [this] at he
    exact hx (Option.some.inj he)
  · rw [if_neg h]
    intro he
    exact hp (Option.some.inj he).symm

/-- The bound is kept by every later call. -/
theorem within_step (md5 : String → String) (parse : String → Option Json) (req : Request)
    (fileKey : String) (hkey : getFileKey md5 req.filePath req.stats = .ok fileKey)
    (p : Json) (hp : p ≠ .null) (T : Int) (run : Run) (hrun : LaterRun parse req p run)
    (cache : Cache)
    (h : Within parse fileKey (fileKey ++ "_" ++ req.options.stringify) p T cache) :
    Within parse fileKey (fileKey ++ "_" ++ req.options.stringify) p T
      (generatePreview md5 parse run req cache).cache := by
  obtain ⟨⟨t, hclock⟩, hderived, _⟩ := hrun
  rcases generatePreview_cases md5 parse run req cache fileKey hkey with
    ⟨e, _, _, heq⟩ | ⟨d, hd, heq⟩ | heq
  · rw [heq]
    exact h
  · rw [heq]
    refine ⟨?_, h.2⟩
    intro e he hdata
    simp only [promote] at he
    rw [mapGet_mapSet] at he
    cases he
    simp only at hdata
    subst hdata
    have := h.2 _ hd
    rw [hclock] at this ⊢
    simp only [atInstant] at this ⊢
    omega
  · rw [heq]
    unfold deriveAndStore
    cases hx : run.derived with
    | error m => exact h
    | ok x =>
        obtain ⟨hne, hparse⟩ := hderived x hx
        refine ⟨?_, ?_⟩
        · intro e he hdata
          simp only at he
          rw [mapGet_mapSet] at he
          cases he
          exact absurd hdata hne
        · intro t' ht'
          simp only at ht'
          cases hw : run.writeFails with
          | true =>
              rw [hw] at ht'
              exact h.2 t' ht'
          | false =>
              rw [hw] at ht'
              exact absurd ht' (checkDiskCache_after_save parse fileKey x p req.options _ _ _
                hp hne hparse)

/-- The bound is kept by every sequence of later calls. -/
theorem within_generatePreviews (md5 : String → String) (parse : String → Option Json)
    (req : Request) (fileKey : String)
    (hkey : getFileKey md5 req.filePath req.stats = .ok fileKey)
    (p : Json) (hp : p ≠ .null) (T : Int) (runs : List Run)
    (hruns : ∀ run ∈ runs, LaterRun parse req p run) (cache : Cache)
    (h : Within parse fileKey (fileKey ++ "_" ++ req.options.stringify) p T cache) :
    Within parse fileKey (fileKey ++ "_" ++ req.options.stringify) p T
      (generatePreviews md5 parse req runs cache) := by
  induction runs generalizing cache with
  | nil => exact h
  | cons run rest ih =>
      exact ih (fun r hr => hruns r (List.mem_cons_of_mem _ hr)) _
        (within_step md5 parse req fileKey hkey p hp T run
          (hruns run (List.mem_cons_self _ _)) cache h)

/-- The bound holds after the call that derives `p` at instant `T` on a cache with no entry
and no cache file for the request. -/
theorem within_first (md5 : String → String) (parse : String → Option Json) (req : Request)
    (fileKey : String) (hkey : getFileKey md5 req.filePath req.stats = .ok fileKey)
    (p : Json) (hp : p ≠ .null) (T : Int) (first : Run)
    (hclock : first.clock = atInstant T) (hderived : first.derived = .ok p)
    (hparse : parse ((cacheData p T req.options).pretty "") = some (cacheData p T req.options))
    (cache : Cache)
    (hmem : mapGet (fileKey ++ "_" ++ req.options.stringify) cache.previewCache = none)
    (hdisk : cache.previewDir.existsSync (fileKey ++ ".json") = false) :
    (generatePreview md5 parse first req cache).result = .ok p ∧
    Within parse fileKey (fileKey ++ "_" ++ req.options.stringify) p T
      (generatePreview md5 parse first req cache).cache := by
  have hcheck : ∀ t, checkDiskCache parse t cache.previewDir fileKey = some .null := by
    intro t
    simp [checkDiskCache, hdisk]
  have hmiss : generatePreview md5 parse first req cache =
      deriveAndStore first req fileKey (fileKey ++ "_" ++ req.options.stringify) cache := by
    apply generatePreview_miss md5 parse first req cache fileKey hkey
    · simp [memoryLookup, hmem]
    · rw [hcheck]
      rfl
  rw [hmiss]
  unfold deriveAndStore
  rw [hderived]
  refine ⟨rfl, ?_, ?_⟩
  · intro e he _
    simp only at he
    rw [mapGet_mapSet] at he
    cases he
    rw [hclock]
    simp only [atInstant]
    omega
  · intro t ht
    simp only at ht
    cases hw : first.writeFails with
    | true =>
        rw [hw] at ht
        have : saveToDiskCache first.clock.diskWrite true fileKey p req.options
            cache.previewDir = cache.previewDir := rfl
        rw [this, hcheck] at ht
        exact absurd (Option.some.inj ht).symm hp
    | false =>
        rw [hw, hclock] at ht
        have hsave : saveToDiskCache (atInstant T).diskWrite false fileKey p req.options
            cache.previewDir =
          cache.previewDir.writeFileSync (fileKey ++ ".json")
            ((cacheData p T req.options).pretty "") T := rfl
        rw [hsave, checkDiskCache_entry parse t T _ fileKey _ _
          (AutoSaveService.readFileSync_writeFileSync _ _ _ _) hparse rfl] at ht
        by_cases h : t - T < 24 * 3600000
        · exact h
        · rw [if_neg h] at ht
          exact absurd (Option.some.inj ht).symm hp

/-- C26 (counterexample). The preview derived and written at instant 1000 is promoted from
the disk tier one millisecond before it is 24 hours old, and is returned from the memory
tier half an hour after it is 24 hours old, without any access to the disk tier or
the renderer. -/
theorem promoted_preview_outlives_disk_ttl :
    (generatePreview Examples.hexDigest JsonText.jsonParse Examples.firstRun Examples.request
        Examples.emptyCache).result = .ok Examples.previewA ∧
    (generatePreview Examples.hexDigest JsonText.jsonParse Examples.firstRun Examples.request
        Examples.emptyCache).effects =
      [Effect.diskChecked, Effect.rendererInvoked, Effect.diskWriteAttempted] ∧
    (generatePreview Examples.hexDigest JsonText.jsonParse
        (Examples.runAt (1000 + 24 * 3600000 - 1)) Examples.request
        (generatePreviews Examples.hexDigest JsonText.jsonParse Examples.request
          [Examples.firstRun] Examples.emptyCache)).effects = [Effect.diskChecked] ∧
    (1000 : Int) + 24 * 3600000 ≤ 1000 + 24 * 3600000 + 1800000 ∧
    (generatePreview Examples.hexDigest JsonText.jsonParse
        (Examples.runAt (1000 + 24 * 3600000 + 1800000)) Examples.request
        (generatePreviews Examples.hexDigest JsonText.jsonParse Examples.request
          [Examples.firstRun, Examples.runAt (1000 + 24 * 3600000 - 1)]
          Examples.emptyCache)).result = .ok Examples.previewA ∧
    (generatePreview Examples.hexDigest JsonText.jsonParse
        (Examples.runAt (1000 + 24 * 3600000 + 1800000)) Examples.request
        (generatePreviews Examples.hexDigest JsonText.jsonParse Examples.request
          [Examples.firstRun, Examples.runAt (1000 + 24 * 3600000 - 1)]
          Examples.emptyCache)).effects = [] := by
  refine ⟨by rfl, by decide!, by decide!, by decide, by rfl, by decide!⟩

/-- C26 (amended). A preview `p` derived and written at instant `T`, on a cache that had no
entry and no cache file for the request, is never returned by a call made 25 hours after
`T` or later, whatever calls were made in between for the same request (each call made at
one instant; a later derivation yields another preview, and a cache file written is read
back as written). The disk tier measures the age from `T`; a promotion from the disk tier
stamps the memory entry with its own instant, so it extends the lifetime of `p` by at most
the hour an entry is valid in the memory tier. -/
theorem lifetime_bound (md5 : String → String) (parse : String → Option Json) (req : Request)
    (fileKey : String) (hkey : getFileKey md5 req.filePath req.stats = .ok fileKey)
    (p : Json) (hp : p ≠ .null) (T : Int) (first : Run)
    (hclock : first.clock = atInstant T) (hderived : first.derived = .ok p)
    (hparse : parse ((cacheData p T req.options).pretty "") = some (cacheData p T req.options))
    (cache : Cache)
    (hmem : mapGet (fileKey ++ "_" ++ req.options.stringify) cache.previewCache = none)
    (hdisk : cache.previewDir.existsSync (fileKey ++ ".json") = false)
    (runs : List Run) (hruns : ∀ run ∈ runs, LaterRun parse req p run)
    (last : Run) (hlast : LaterRun parse req p last) (t : Int)
    (hat : last.clock = atInstant t) (hlate : T + 25 * 3600000 ≤ t) :
    (generatePreview md5 parse first req cache).result = .ok p ∧
    (generatePreview md5 parse last req
        (generatePreviews md5 parse req runs
          (generatePreview md5 parse first req cache).cache)).result ≠ .ok p := by
  obtain ⟨hres, hfirst⟩ := within_first md5 parse req fileKey hkey p hp T first hclock hderived
    hparse cache hmem hdisk
  refine ⟨hres, ?_⟩
  have hw := within_generatePreviews md5 parse req fileKey hkey p hp T runs hruns _ hfirst
  obtain ⟨_, hd, herr⟩ := hlast
  rcases generatePreview_cases md5 parse last req _ fileKey hkey with
    ⟨e, he, hvalid, heq⟩ | ⟨d, hdisk', heq⟩ | heq
  · rw [heq]
    intro hr
    have hdata : e.data = p := Except.ok.inj hr
    have := hw.1 e he hdata
    rw [hat] at hvalid
    simp only [atInstant] at hvalid
    omega
  · rw [heq]
    intro hr
    have hdata : d = p := Except.ok.inj hr
    subst hdata
    have := hw.2 _ hdisk'
    rw [hat] at this
    simp only [atInstant] at this
    omega
  · rw [heq]
    unfold deriveAndStore
    cases hx : last.derived with
    | error m =>
        intro hr
        exact herr m hx (Except.ok.inj hr)
    | ok x =>
        intro hr
        exact (hd x hx).1 (Except.ok.inj hr)

/-- The theorem `lifetime_bound` at the preview derived at instant 1000, promoted one
millisecond before it is 24 hours old, and requested again when it is 25 hours old: the call
does not return it. -/
theorem lifetime_bound_witness :
    (generatePreview Examples.hexDigest JsonText.jsonParse
        (Examples.runAt (1000 + 25 * 3600000)) Examples.request
        (generatePreviews Examples.hexDigest JsonText.jsonParse Examples.request
          [Examples.runAt (1000 + 24 * 3600000 - 1)]
          (generatePreview Examples.hexDigest JsonText.jsonParse Examples.firstRun
            Examples.request Examples.emptyCache).cache)).result ≠ .ok Examples.previewA :=
  (lifetime_bound Examples.hexDigest JsonText.jsonParse Examples.request Examples.requestKey
    rfl Examples.previewA (by intro h; cases h) 1000 Examples.firstRun rfl rfl (by rfl)
    Examples.emptyCache rfl rfl
    [Examples.runAt (1000 + 24 * 3600000 - 1)]
    (by
      intro run hrun
      rw [List.mem_singleton] at hrun
      subst hrun
      refine ⟨⟨_, rfl⟩, ?_, ?_⟩
      · intro x hx
        cases hx
        exact ⟨fun h => absurd (congrArg Json.stringify h) (by decide!), by rfl⟩
      · intro m hm
        cases hm)
    (Examples.runAt (1000 + 25 * 3600000))
    (by
      refine ⟨⟨_, rfl⟩, ?_, ?_⟩
      · intro x hx
        cases hx
        exact ⟨fun h => absurd (congrArg Json.stringify h) (by decide!), by rfl⟩
      · intro m hm
        cases hm)
    (1000 + 25 * 3600000) rfl (by decide)).2

end FilePreviewManager

/-! ### The options of a request and the disk tier -/

namespace FilePreviewManager

/-- C27. After the preview of `a.png` was derived for the options `{}` and cached, a request
for the same file with the options `{"thumbnailSize":100}` finds no entry in the memory
tier, whose key holds the options, and is answered from the cache file of the fingerprint,
whose name does not: it returns the preview derived for `{}`, which the file records as
its options, and the renderer is not invoked. -/
theorem disk_tier_ignores_options :
    (generatePreview Examples.hexDigest JsonText.jsonParse Examples.runOk Examples.request
        Examples.emptyCache).result = .ok Examples.previewA ∧
    (generatePreview Examples.hexDigest JsonText.jsonParse Examples.runOk Examples.request
        Examples.emptyCache).effects =
      [Effect.diskChecked, Effect.rendererInvoked, Effect.diskWriteAttempted] ∧
    Examples.request.options.stringify ≠ Examples.requestThumbnail.options.stringify ∧
    Examples.requestThumbnail.filePath = Examples.request.filePath ∧
    Examples.requestThumbnail.stats = Examples.request.stats ∧
    ((Examples.warmCache.previewDir.readFileSync (Examples.requestKey ++ ".json")).bind
        JsonText.jsonParse).map (fun d => Json.getProp (some d) "options") =
      some (.ok (some Examples.request.options)) ∧
    (generatePreview Examples.hexDigest JsonText.jsonParse Examples.runLater
        Examples.requestThumbnail Examples.warmCache).result = .ok Examples.previewA ∧
    (generatePreview Examples.hexDigest JsonText.jsonParse Examples.runLater
        Examples.requestThumbnail Examples.warmCache).effects = [Effect.diskChecked] := by
  refine ⟨by rfl, by decide!, by decide!, by rfl, by rfl, by rfl, by rfl, by decide!⟩

end FilePreviewManager

/-! ### The identifier of a listed snapshot -/

namespace AutoSaveService

/-- An occurrence of the pattern at the head of the text is the one replaced. -/
theorem replaceFirst_append (pattern rest : List Char) (hne : pattern ≠ []) :
    replaceFirst pattern [] (pattern ++ rest) = rest := by
  cases pattern with
  | nil => exact absurd rfl hne
  | cons c cs =>
      have hp : (c :: cs).isPrefixOf (c :: (cs ++ rest)) = true :=
        List.isPrefixOf_iff_prefix.mpr (List.prefix_append (c :: cs) rest)
      show replaceFirst (c :: cs) [] (c :: (cs ++ rest)) = rest
      rw [replaceFirst, if_pos hp]
      simp

/-- The suffix `.json` is the occurrence removed when no point comes before it. -/
theorem replaceFirst_json (x : List Char) (h : '.' ∉ x) :
    replaceFirst ".json".data [] (x ++ ".json".data) = x := by
  induction x with
  | nil => rfl
  | cons c cs ih =>
      have hc : c ≠ '.' := fun e => h (e ▸ List.mem_cons_self _ _)
      have hcs : '.' ∉ cs := fun m => h (List.mem_cons_of_mem _ m)
      have hp : ".json".data.isPrefixOf (c :: (cs ++ ".json".data)) = false := by
        show ('.' :: "json".data).isPrefixOf (c :: (cs ++ ".json".data)) = false
        simp [List.isPrefixOf, Ne.symm hc]
      show replaceFirst ".json".data [] (c :: (cs ++ ".json".data)) = c :: cs
      rw [replaceFirst, if_neg (by rw [hp]; simp), ih hcs]

/-- The identifier of a snapshot whose name has no point between `autosave_` and `.json`,
such as the names `performAutoSave` writes (the points of the ISO text are replaced), gives
back the name: the listing of a directory that holds this file alone has the identifier
`x`. -/
theorem listing_id_round_trip (savePath x : String) (h : '.' ∉ x.data) (size : Nat)
    (mtime : Int) (content : String) :
    (getAutoSaveFiles savePath
        (some [{ name := "autosave_" ++ x ++ ".json", size := size, mtime := mtime,
                 content := content }])).map (fun f => "autosave_" ++ f.id ++ ".json") =
      ["autosave_" ++ x ++ ".json"] := by
  have hname := startsAndEndsWith_autosave x
  have hid : replaceFirst ".json".data []
      (replaceFirst "autosave_".data [] ("autosave_" ++ x ++ ".json").data) = x.data := by
    simp only [String.data_append]
    rw [List.append_assoc, replaceFirst_append _ _ (by decide), replaceFirst_json _ h]
  simp only [getAutoSaveFiles, List.filter_cons, hname, if_true, List.filter_nil, List.map_cons,
    List.map_nil, List.insertionSort, List.orderedInsert, hid]

/-- C28. The listing of a save directory that holds the file `autosave_.jsonx.json`, whose
name passes the filter, gives it the identifier `x.json` (each `replace` removes the first
occurrence of its pattern), the name rebuilt from that identifier is
`autosave_x.json.json`, and `restoreBackup` does not find the snapshot under it. -/
theorem listing_id_does_not_round_trip :
    startsAndEndsWith "autosave_" ".json" "autosave_.jsonx.json" = true ∧
    (getAutoSaveFiles "autosave" (some Examples.oddName)).map
        (fun f => (f.name, f.id, "autosave_" ++ f.id ++ ".json")) =
      [("autosave_.jsonx.json", "x.json", "autosave_x.json.json")] ∧
    "autosave_x.json.json" ≠ "autosave_.jsonx.json" ∧
    (restoreBackup tagHash JsonText.jsonParse
        { dir := Examples.oddName, store := Examples.emptyStore, console := [] } "x.json").1 =
      { success := false, message := none, error := some notFoundMessage } := by
  refine ⟨by decide!, by decide!, by decide!, by decide!⟩

end AutoSaveService

/-! ### Encryption without a key -/

namespace DatabaseManager

/-- C29. While `encryptionKey` is `null`, `encryptData` returns the string itself and
`decryptData` returns the member `data` of that string, which is `undefined`: the round
trip does not give the string back. -/
theorem decrypt_without_key_is_undefined (aes : Aes256Gcm) (iv s : String) :
    encryptData aes none iv s = .str s ∧
    decryptData aes none (encryptData aes none iv s) = .ok none ∧
    decryptData aes none (encryptData aes none iv s) ≠ .ok (some (.str s)) := by
  refine ⟨rfl, rfl, ?_⟩
  intro h
  have h2 : (Except.ok none : Except String (Option Json)) = .ok (some (.str s)) := h
  cases h2

/-- With a key, and a cipher whose decryption inverts its encryption under that key and
initialisation vector, `decryptData` gives back the string `encryptData` was given. -/
theorem decrypt_with_key (aes : Aes256Gcm) (key iv s : String) (hiv : iv ≠ "")
    (hround : aes.decrypt key iv (aes.encrypt key iv s).2 (aes.encrypt key iv s).1 = some s) :
    decryptData aes (some key) (encryptData aes (some key) iv s) = .ok (some (.str s)) := by
  have ht : Json.truthy (some (.str iv)) = true := by simp [Json.truthy, hiv]
  simp only [encryptData, decryptData, Json.getProp, Json.lookup, if_true, ht,
    Bool.not_true, Bool.false_eq_true, if_false, decipher, hround]
  simp [Json.lookup, decipher, hround]

/-- The theorem `decrypt_with_key` at the stand-in cipher. -/
theorem decrypt_with_key_example :
    decryptData Examples.toyCipher (some "k")
        (encryptData Examples.toyCipher (some "k") "00" "secret") =
      .ok (some (.str "secret")) :=
  decrypt_with_key Examples.toyCipher "k" "00" "secret" (by decide) (by decide!)

end DatabaseManager

/-! ### The directory checksum as a digest of a concatenation -/

namespace AutoSaveService

/-- The text hashed for a directory, over its entries: the visible entries in the order of
their names, each with its contribution. -/
theorem hashInput_contributions (hash : String → String) (le : String → String → Bool)
    (entries : List (String × FsNode)) :
    hashInput le (contributions hash le entries) =
      String.join
        (((entries.filter (fun e => notHidden e.1)).insertionSort
          (fun a b => le a.1 b.1 = true)).map (fun e => contribution hash le e.2)) := by
  rw [contributions_eq_map]
  unfold hashInput
  have hfilter :
      (entries.map (fun e => (e.1, contribution hash le e.2))).filter
          (fun e => notHidden e.1) =
        (entries.filter (fun e => notHidden e.1)).map
          (fun e => (e.1, contribution hash le e.2)) := by
    rw [List.filter_map]
    rfl
  rw [hfilter]
  rw [← List.map_insertionSort (fun a b : String × FsNode => le a.1 b.1 = true)
    (fun a b : String × String => le a.1 b.1 = true)
    (fun e : String × FsNode => (e.1, contribution hash le e.2)) _
    (fun a _ b _ => Iff.rfl)]
  rw [List.map_map]
  rfl

/-- C30. The result of `generateDirectoryChecksum` is the digest of the concatenation, in the
order of the sorted names, of what each visible entry contributes (the bytes of a file, the
hexadecimal digest of a subdirectory): neither a name nor a boundary between two entries goes into the
hash, so two directories for which this concatenation is the same text have the same
digest, whatever their names, file boundaries and hidden files. -/
theorem directory_checksum_is_digest_of_concatenation (hash : String → String)
    (le : String → String → Bool) (a b : List (String × FsNode))
    (h : String.join
          (((a.filter (fun e => notHidden e.1)).insertionSort
            (fun x y => le x.1 y.1 = true)).map (fun e => contribution hash le e.2)) =
        String.join
          (((b.filter (fun e => notHidden e.1)).insertionSort
            (fun x y => le x.1 y.1 = true)).map (fun e => contribution hash le e.2))) :
    generateDirectoryChecksum hash le a =
        hash (String.join
          (((a.filter (fun e => notHidden e.1)).insertionSort
            (fun x y => le x.1 y.1 = true)).map (fun e => contribution hash le e.2))) ∧
      generateDirectoryChecksum hash le a = generateDirectoryChecksum hash le b := by
  unfold generateDirectoryChecksum
  rw [hashInput_contributions, hashInput_contributions, h]
  exact ⟨rfl, rfl⟩

/-- The theorem `directory_checksum_is_digest_of_concatenation` at two directories that
share no name: one holds the file `xy` and a subdirectory, the other the files `x` and `y`, a
hidden file and a subdirectory of other names with a hidden file inside. -/
theorem directory_checksum_is_digest_of_concatenation_witness :
    generateDirectoryChecksum tagHash Examples.nameLe Examples.plainDirectory =
        tagHash ("xy" ++ tagHash "1") ∧
      generateDirectoryChecksum tagHash Examples.nameLe Examples.plainDirectory =
        generateDirectoryChecksum tagHash Examples.nameLe Examples.splitDirectory := by
  have h := directory_checksum_is_digest_of_concatenation tagHash Examples.nameLe
    Examples.plainDirectory Examples.splitDirectory (by decide!)
  exact ⟨h.1.trans (by decide!), h.2⟩

end AutoSaveService
